import Mathlib

/-! Verification development for the Rue language front-end: a shallow
embedding of the lexer (`Lexer.consume` / `Lexer.tokens`) and of the
backtracking recursive-descent parser (`Parser.ast` and its productions),
with theorems about token spans, string-escape decoding, the furthest-error
policy, and the concrete-syntax-tree span invariant.

Source strings are modelled as lists of UTF-16 code units (`List Nat`),
matching the JavaScript string model of the implementation; `start`/`stop`
offsets index into that list.  Recursive loops carry an explicit fuel
argument; a `none` result means the fuel bound was exhausted (which cannot
happen for the bounds used by the top-level entry points) and is distinct
from every error the program itself can produce. -/

namespace Rue

/-- Token kinds.  The `TokenType` enumeration itself lives in `token.ts`,
which is not among the sources; the constructor set is modelled from the
spec's closed enumeration (section 6) and from every use site in the lexer
and in `parser.ts`. -/
inductive TokenType where
  | AndKeyword | OrKeyword | NotKeyword | ForKeyword | WhileKeyword
  | ContinueKeyword | BreakKeyword | ReturnKeyword | MacroKeyword
  | PublicKeyword | PrivateKeyword | ProtectedKeyword | DoKeyword
  | IsKeyword | AsKeyword | IfKeyword | ElseKeyword | TryKeyword
  | CatchKeyword | ThrowKeyword | FinallyKeyword | DeferKeyword
  | DefKeyword | ValKeyword | VarKeyword | InKeyword | MatchKeyword
  | FromKeyword | ImportKeyword | ExportKeyword | ExternKeyword
  | TypeKeyword | EnumKeyword | StructKeyword | ClassKeyword
  | SuperKeyword | ThisKeyword | NullKeyword
  | VoidType | IntegerType | UnsignedIntegerType | FloatType
  | BooleanType | StringType
  | BoolLiteral | Identifier | HexadecimalLiteral | OctalLiteral
  | BinaryLiteral | FloatLiteral | IntLiteral | StringLiteral
  | EqualOperator | NotEqualOperator | PlusAssignOperator
  | MinusAssignOperator | TimesAssignOperator | DivideAssignOperator
  | ModuloAssignOperator | AndAssignOperator | OrAssignOperator
  | XorAssignOperator | CoalesceAssignOperator | LeftShiftAssignOperator
  | UnsignedRightShiftAssignOperator | RightShiftAssignOperator
  | ArrowOperator | AssignOperator | PlusOperator | MinusOperator
  | TimesOperator | DivideOperator | ModuloOperator | NotOperator
  | CoalesceOperator | AndOperator | OrOperator | XorOperator
  | LeftShiftOperator | UnsignedRightShiftOperator | RightShiftOperator
  | LessThanEqualOperator | GreaterThanEqualOperator | LessThanOperator
  | GreaterThanOperator | OptionalAccessOperator | OptionalOperator
  | InclusiveRangeOperator | ExclusiveRangeOperator | AccessOperator
  | OpenParenthesis | CloseParenthesis | OpenBracket | CloseBracket
  | OpenBrace | CloseBrace | SemicolonPunctuator | ColonPunctuator
  | CommaPunctuator | UnderscorePunctuator
deriving DecidableEq

/-- A token: kind, text (decoded content for string literals), and the
half-open span `[start, stop)` into the source. -/
structure Token where
  type : TokenType
  text : List Nat
  start : Nat
  stop : Nat
deriving DecidableEq

/-- `LexerError` from `utils.ts`: message, optional offending content,
half-open span. -/
structure LexerError where
  message : String
  content : Option (List Nat)
  start : Nat
  stop : Nat
deriving DecidableEq

/-- The keyword table of the lexer, keyed by code-unit lists.  (The model
looks up only the table's own keys; the JavaScript `in` operator would also
find inherited `Object.prototype` keys, which no claim depends on.) -/
def keywords : List (List Nat × TokenType) := [
  ([97, 110, 100], .AndKeyword),  -- and
  ([111, 114], .OrKeyword),  -- or
  ([110, 111, 116], .NotKeyword),  -- not
  ([102, 111, 114], .ForKeyword),  -- for
  ([119, 104, 105, 108, 101], .WhileKeyword),  -- while
  ([99, 111, 110, 116, 105, 110, 117, 101], .ContinueKeyword),  -- continue
  ([98, 114, 101, 97, 107], .BreakKeyword),  -- break
  ([114, 101, 116, 117, 114, 110], .ReturnKeyword),  -- return
  ([109, 97, 99, 114, 111], .MacroKeyword),  -- macro
  ([112, 117, 98, 108, 105, 99], .PublicKeyword),  -- public
  ([112, 114, 105, 118, 97, 116, 101], .PrivateKeyword),  -- private
  ([112, 114, 111, 116, 101, 99, 116, 101, 100], .ProtectedKeyword),  -- protected
  ([100, 111], .DoKeyword),  -- do
  ([105, 115], .IsKeyword),  -- is
  ([97, 115], .AsKeyword),  -- as
  ([105, 102], .IfKeyword),  -- if
  ([101, 108, 115, 101], .ElseKeyword),  -- else
  ([116, 114, 121], .TryKeyword),  -- try
  ([99, 97, 116, 99, 104], .CatchKeyword),  -- catch
  ([116, 104, 114, 111, 119], .ThrowKeyword),  -- throw
  ([102, 105, 110, 97, 108, 108, 121], .FinallyKeyword),  -- finally
  ([100, 101, 102, 101, 114], .DeferKeyword),  -- defer
  ([100, 101, 102], .DefKeyword),  -- def
  ([118, 97, 108], .ValKeyword),  -- val
  ([118, 97, 114], .VarKeyword),  -- var
  ([105, 110], .InKeyword),  -- in
  ([109, 97, 116, 99, 104], .MatchKeyword),  -- match
  ([102, 114, 111, 109], .FromKeyword),  -- from
  ([105, 109, 112, 111, 114, 116], .ImportKeyword),  -- import word
  ([101, 120, 112, 111, 114, 116], .ExportKeyword),  -- export
  ([101, 120, 116, 101, 114, 110], .ExternKeyword),  -- the extern keyword
  ([116, 121, 112, 101], .TypeKeyword),  -- type
  ([101, 110, 117, 109], .EnumKeyword),  -- enum
  ([115, 116, 114, 117, 99, 116], .StructKeyword),  -- struct
  ([99, 108, 97, 115, 115], .ClassKeyword),  -- the class keyword
  ([118, 111, 105, 100], .VoidType),  -- void
  ([105, 110, 116], .IntegerType),  -- int
  ([105, 56], .IntegerType),  -- i8
  ([105, 49, 54], .IntegerType),  -- i16
  ([105, 51, 50], .IntegerType),  -- i32
  ([105, 54, 52], .IntegerType),  -- i64
  ([117, 105, 110, 116], .UnsignedIntegerType),  -- uint
  ([117, 56], .UnsignedIntegerType),  -- u8
  ([117, 49, 54], .UnsignedIntegerType),  -- u16
  ([117, 51, 50], .UnsignedIntegerType),  -- u32
  ([117, 54, 52], .UnsignedIntegerType),  -- u64
  ([102, 108, 111, 97, 116], .FloatType),  -- float
  ([102, 51, 50], .FloatType),  -- f32
  ([102, 54, 52], .FloatType),  -- f64
  ([98, 111, 111, 108], .BooleanType),  -- bool
  ([115, 116, 114, 105, 110, 103], .StringType),  -- string
  ([116, 114, 117, 101], .BoolLiteral),  -- true
  ([102, 97, 108, 115, 101], .BoolLiteral),  -- false
  ([115, 117, 112, 101, 114], .SuperKeyword),  -- super
  ([116, 104, 105, 115], .ThisKeyword),  -- this
  ([110, 117, 108, 108], .NullKeyword)]  -- null

/-- The ordered operator table; insertion order is load-bearing (longest
operators listed before their prefixes). -/
def operators : List (List Nat × TokenType) := [
  ([61, 61], .EqualOperator),  -- ==
  ([33, 61], .NotEqualOperator),  -- !=
  ([43, 61], .PlusAssignOperator),  -- +=
  ([45, 61], .MinusAssignOperator),  -- -=
  ([42, 61], .TimesAssignOperator),  -- *=
  ([47, 61], .DivideAssignOperator),  -- /=
  ([37, 61], .ModuloAssignOperator),  -- %=
  ([38, 61], .AndAssignOperator),  -- &=
  ([124, 61], .OrAssignOperator),  -- |=
  ([94, 61], .XorAssignOperator),  -- ^=
  ([63, 61], .CoalesceAssignOperator),  -- ?=
  ([60, 60, 61], .LeftShiftAssignOperator),  -- <<=
  ([62, 62, 62, 61], .UnsignedRightShiftAssignOperator),  -- >>>=
  ([62, 62, 61], .RightShiftAssignOperator),  -- >>=
  ([61, 62], .ArrowOperator),  -- =>
  ([61], .AssignOperator),  -- =
  ([43], .PlusOperator),  -- +
  ([45], .MinusOperator),  -- -
  ([42], .TimesOperator),  -- *
  ([47], .DivideOperator),  -- /
  ([37], .ModuloOperator),  -- %
  ([126], .NotOperator),  -- ~
  ([63, 58], .CoalesceOperator),  -- ?:
  ([38], .AndOperator),  -- &
  ([124], .OrOperator),  -- |
  ([94], .XorOperator),  -- ^
  ([60, 60], .LeftShiftOperator),  -- <<
  ([62, 62, 62], .UnsignedRightShiftOperator),  -- >>>
  ([62, 62], .RightShiftOperator),  -- >>
  ([60, 61], .LessThanEqualOperator),  -- <=
  ([62, 61], .GreaterThanEqualOperator),  -- >=
  ([60], .LessThanOperator),  -- <
  ([62], .GreaterThanOperator),  -- >
  ([63, 46], .OptionalAccessOperator),  -- ?.
  ([63], .OptionalOperator),  -- ?
  ([46, 46, 46], .InclusiveRangeOperator),  -- ...
  ([46, 46], .ExclusiveRangeOperator),  -- ..
  ([46], .AccessOperator),  -- .
  ([40], .OpenParenthesis),  -- (
  ([41], .CloseParenthesis),  -- )
  ([91], .OpenBracket),  -- [
  ([93], .CloseBracket),  -- ]
  ([123], .OpenBrace),  -- opening brace
  ([125], .CloseBrace),  -- closing brace
  ([59], .SemicolonPunctuator),  -- semicolon
  ([58], .ColonPunctuator),  -- colon
  ([44], .CommaPunctuator),  -- comma
  ([95], .UnderscorePunctuator)]  -- underscore

/-- Whitespace characters of the skip regex: CR LF FF VT TAB space. -/
def isWsChar (c : Nat) : Bool :=
  c = 13 || c = 10 || c = 12 || c = 11 || c = 9 || c = 32

/-- JavaScript line terminators, which `.` in a regex does not match. -/
def isLineTerm (c : Nat) : Bool :=
  c = 10 || c = 13 || c = 8232 || c = 8233

def isAlphaCh (c : Nat) : Bool :=
  (65 ≤ c && c ≤ 90) || (97 ≤ c && c ≤ 122)

def isDigitCh (c : Nat) : Bool := 48 ≤ c && c ≤ 57

def isAlnumCh (c : Nat) : Bool := isAlphaCh c || isDigitCh c

def isHexDigitCh (c : Nat) : Bool :=
  isDigitCh c || (65 ≤ c && c ≤ 70) || (97 ≤ c && c ≤ 102)

/-- Uppercase-only hex digit, as required by the escape checks. -/
def isUpHexCh (c : Nat) : Bool := isDigitCh c || (65 ≤ c && c ≤ 70)

def isOctCh (c : Nat) : Bool := 48 ≤ c && c ≤ 55

def isBinCh (c : Nat) : Bool := c = 48 || c = 49

/-- Match length of the whitespace skip regex. -/
def matchWs : List Nat → Option Nat
  | c :: _ => if isWsChar c then some 1 else none
  | [] => none

/-- Match length of a line comment: two slashes then every character up to
(not including) the next line terminator. -/
def matchLineComment : List Nat → Option Nat
  | 47 :: 47 :: rest =>
      some (2 + (rest.takeWhile (fun c => !isLineTerm c)).length)
  | _ => none

/-- Length through the first closing star-slash pair, if any. -/
def blockEnd : List Nat → Option Nat
  | 42 :: 47 :: _ => some 2
  | _ :: rest => (blockEnd rest).map (· + 1)
  | [] => none

/-- Match length of a (non-greedy) block comment. -/
def matchBlockComment : List Nat → Option Nat
  | 47 :: 42 :: rest => (blockEnd rest).map (· + 2)
  | _ => none

/-- Length of the leading run of characters satisfying `p`. -/
def runLen (p : Nat → Bool) (l : List Nat) : Nat := (l.takeWhile p).length

/-- Tail length of the identifier regex after its initial letter:
a run of alphanumerics, then repeatedly an underscore that is followed by
at least one alphanumeric together with that run. -/
def identTail : Nat → List Nat → Nat
  | 0, _ => 0
  | fuel + 1, l =>
      let n := runLen isAlnumCh l
      match l.drop n with
      | 95 :: c :: _ =>
          if isAlnumCh c then n + 1 + identTail fuel (l.drop (n + 1)) else n
      | _ => n

/-- Match length of the identifier regex. -/
def matchIdent : List Nat → Option Nat
  | c :: rest =>
      if isAlphaCh c then some (1 + identTail (rest.length + 1) rest) else none
  | [] => none

/-- Match length of the hexadecimal-literal regex. -/
def matchHex : List Nat → Option Nat
  | 48 :: x :: rest =>
      if x = 120 || x = 88 then
        let n := runLen isHexDigitCh rest
        if n = 0 then none else some (2 + n)
      else none
  | _ => none

/-- Match length of the octal-literal regex. -/
def matchOct : List Nat → Option Nat
  | 48 :: x :: rest =>
      if x = 111 || x = 79 then
        let n := runLen isOctCh rest
        if n = 0 then none else some (2 + n)
      else none
  | _ => none

/-- Match length of the binary-literal regex. -/
def matchBin : List Nat → Option Nat
  | 48 :: x :: rest =>
      if x = 98 || x = 66 then
        let n := runLen isBinCh rest
        if n = 0 then none else some (2 + n)
      else none
  | _ => none

/-- Length contributed by the optional exponent group (0 when absent). -/
def matchExp : List Nat → Nat
  | e :: rest =>
      if e = 101 || e = 69 then
        match rest with
        | s :: rest2 =>
            if s = 43 || s = 45 then
              let n := runLen isDigitCh rest2
              if n = 0 then 0 else n + 2
            else
              let n := runLen isDigitCh rest
              if n = 0 then 0 else n + 1
        | [] => 0
      else 0
  | [] => 0

/-- Match length of the float-literal regex. -/
def matchFloat (l : List Nat) : Option Nat :=
  let n1 := runLen isDigitCh l
  if n1 = 0 then none
  else
    match l.drop n1 with
    | 46 :: rest =>
        let n2 := runLen isDigitCh rest
        if n2 = 0 then none else some (n1 + 1 + n2 + matchExp (rest.drop n2))
    | _ => none

/-- Match length of the integer-literal regex. -/
def matchInt (l : List Nat) : Option Nat :=
  let n1 := runLen isDigitCh l
  if n1 = 0 then none else some (n1 + matchExp (l.drop n1))

/-- Keyword lookup over the matched identifier text. -/
def keywordType (s : List Nat) : Option TokenType :=
  (keywords.find? (fun p => p.1 == s)).map (·.2)

/-- First operator-table entry whose lexeme is a prefix of the input. -/
def opMatch (l : List Nat) : Option (List Nat × TokenType) :=
  operators.find? (fun p => p.1.isPrefixOf l)

/-- The whitespace set trimmed by `parseInt` (common members). -/
def isJsWs (c : Nat) : Bool :=
  c = 9 || c = 10 || c = 11 || c = 12 || c = 13 || c = 32 || c = 160 ||
  c = 8232 || c = 8233 || c = 65279

def hexDigitVal (c : Nat) : Nat :=
  if isDigitCh c then c - 48 else if 65 ≤ c && c ≤ 70 then c - 55 else c - 87

def hexNat (ds : List Nat) : Nat :=
  ds.foldl (fun a c => a * 16 + hexDigitVal c) 0

/-- `parseInt(s, 16)`: trim leading whitespace, optional sign, optional
zero-x prefix, then the leading run of hex digits of either case; `none`
models NaN (no digits). -/
def jsParseIntHex (s : List Nat) : Option Int :=
  let t := s.dropWhile isJsWs
  let signed : Int × List Nat :=
    match t with
    | 43 :: r => (1, r)
    | 45 :: r => (-1, r)
    | _ => (1, t)
  let t3 : List Nat :=
    match signed.2 with
    | 48 :: x :: r => if x = 120 || x = 88 then r else signed.2
    | _ => signed.2
  let ds := t3.takeWhile isHexDigitCh
  if ds.isEmpty then none else some (signed.1 * (hexNat ds : Int))

/-- `ToUint16`, the coercion applied by `String.fromCharCode`. -/
def toUint16 (n : Int) : Nat := (n % 65536).toNat

/-- Exactly two uppercase hex digits. -/
def upHex2 : List Nat → Bool
  | [a, b] => isUpHexCh a && isUpHexCh b
  | _ => false

/-- Exactly four uppercase hex digits. -/
def upHex4 : List Nat → Bool
  | [a, b, c, d] => isUpHexCh a && isUpHexCh b && isUpHexCh c && isUpHexCh d
  | _ => false

/-- The code units strictly before the first closing brace, if one occurs. -/
def braceHex : List Nat → Option (List Nat)
  | [] => none
  | 125 :: _ => some []
  | c :: rest => (braceHex rest).map (c :: ·)

/-- Result of handling one escape after the backslash and the escape
character have been consumed: a code unit to append plus the number of
further characters consumed, or a lexer-error message plus the number of
further characters consumed before the error was raised. -/
inductive EscRes where
  | push (v : Nat) (extra : Nat)
  | fail (message : String) (extra : Nat)
deriving DecidableEq

/-- One string-escape step (`e` is the character after the backslash,
`rest2` the input after it).  The duplicate `n` branch of the source is
modelled once; `braceHex` plus `jsParseIntHex` model the brace form, whose
digits are not case-checked; `NaN` feeds zero to `fromCharCode`. -/
def escStep (e : Nat) (rest2 : List Nat) : EscRes :=
  if e = 110 then .push 10 0
  else if e = 114 then .push 13 0
  else if e = 102 then .push 12 0
  else if e = 118 then .push 11 0
  else if e = 116 then .push 9 0
  else if e = 98 then .push 8 0
  else if e = 48 then .push 0 0
  else if e = 120 then
    let hex := rest2.take 2
    if upHex2 hex then .push (hexNat hex) 2
    else .fail "Invalid or lowercase hexadecimal escape sequence" 0
  else if e = 117 then
    match rest2 with
    | 123 :: rest3 =>
        match braceHex rest3 with
        | none => .fail "Invalid or lowercase unicode escape sequence" 1
        | some hx =>
            match jsParseIntHex hx with
            | none => .push 0 (1 + hx.length + 1)
            | some n =>
                if n > 1114111 then
                  .fail "Out of range unicode escape sequence" 1
                else .push (toUint16 n) (1 + hx.length + 1)
    | _ =>
        let hex := rest2.take 4
        if upHex4 hex then .push (hexNat hex) 4
        else .fail "Invalid or lowercase unicode escape sequence" 0
  else .push e 0

/-- Outcome of scanning a string literal body: the decoded content and the
number of characters consumed (through the closing quote), or an error
message and the characters consumed when it was raised. -/
inductive ScanRes where
  | closed (decoded : List Nat) (used : Nat)
  | failed (message : String) (used : Nat)
deriving DecidableEq

/-- The string-literal loop of `Lexer.consume`, over the input after the
opening quote `q`. -/
def scanStr (q : Nat) : Nat → List Nat → Option ScanRes
  | 0, _ => none
  | _ + 1, [] => some (.failed "Unterminated string literal" 0)
  | fuel + 1, c :: rest =>
      if c = 92 then
        match rest with
        | [] => some (.failed "Unexpected end of escape" 1)
        | e :: rest2 =>
            match escStep e rest2 with
            | .fail m extra => some (.failed m (2 + extra))
            | .push v extra =>
                match scanStr q fuel (rest2.drop extra) with
                | some (.closed d u) => some (.closed (v :: d) (2 + extra + u))
                | some (.failed m u) => some (.failed m (2 + extra + u))
                | none => none
      else if c = q then some (.closed [] 1)
      else
        match scanStr q fuel rest with
        | some (.closed d u) => some (.closed (c :: d) (u + 1))
        | some (.failed m u) => some (.failed m (u + 1))
        | none => none

/-- One step of the lexer: a token, a skip (whitespace or comment), or an
error, mirroring the priority order of `Lexer.consume`. -/
inductive ConsumeRes where
  | skip (n : Nat)
  | tok (t : Token)
  | err (e : LexerError)
deriving DecidableEq

/-- `Lexer.consume` at cursor `pos`. -/
def consume (source : List Nat) (pos : Nat) : Option ConsumeRes :=
  match source.drop pos with
  | [] => some (.err ⟨"Unexpected end of file", some [], pos, pos⟩)
  | text@(c :: rest) =>
    match matchWs text <|> matchLineComment text <|> matchBlockComment text with
    | some n => some (.skip n)
    | none =>
    match matchIdent text with
    | some n =>
        let s := text.take n
        some (.tok ⟨(keywordType s).getD .Identifier, s, pos, pos + n⟩)
    | none =>
    match matchHex text with
    | some n => some (.tok ⟨.HexadecimalLiteral, text.take n, pos, pos + n⟩)
    | none =>
    match matchOct text with
    | some n => some (.tok ⟨.OctalLiteral, text.take n, pos, pos + n⟩)
    | none =>
    match matchBin text with
    | some n => some (.tok ⟨.BinaryLiteral, text.take n, pos, pos + n⟩)
    | none =>
    match matchFloat text with
    | some n => some (.tok ⟨.FloatLiteral, text.take n, pos, pos + n⟩)
    | none =>
    match matchInt text with
    | some n => some (.tok ⟨.IntLiteral, text.take n, pos, pos + n⟩)
    | none =>
    if c = 39 || c = 34 then
      match scanStr c (rest.length + 1) rest with
      | none => none
      | some (.closed d u) => some (.tok ⟨.StringLiteral, d, pos, pos + 1 + u⟩)
      | some (.failed m u) => some (.err ⟨m, none, pos, pos + 1 + u⟩)
    else
      match opMatch text with
      | some p => some (.tok ⟨p.2, p.1, pos, pos + p.1.length⟩)
      | none => some (.err ⟨"Unexpected character", some [c], pos, pos + 1⟩)

/-- The token-collection loop of `Lexer.tokens`. -/
def lexFrom (source : List Nat) : Nat → Nat → Option (Except LexerError (List Token))
  | 0, _ => none
  | fuel + 1, pos =>
      if pos < source.length then
        match consume source pos with
        | none => none
        | some (.err e) => some (.error e)
        | some (.skip n) => lexFrom source fuel (pos + n)
        | some (.tok t) =>
            match lexFrom source fuel t.stop with
            | some (.ok ts) => some (.ok (t :: ts))
            | r => r
      else some (.ok [])

/-- `Lexer.tokens` on a whole source. -/
def lex (source : List Nat) : Option (Except LexerError (List Token)) :=
  lexFrom source (source.length + 1) 0

end Rue

namespace Rue

/-- `ParserError` from `utils.ts`. -/
structure ParserError where
  message : String
  content : Option (List Nat)
  start : Nat
  stop : Nat
deriving DecidableEq

/-- Tree-node kinds from `tree.ts`. -/
inductive TreeType where
  | Body
  | Statement | TypeStatement | LabeledStatement | FieldStatement
  | BlockStatement | IfStatement | MatchStatement | DefStatement
  | WhileStatement | DoStatement | ForStatement | ReturnStatement
  | ContinueStatement | BreakStatement | MethodStatement | EnumStatement
  | ExpressionStatement | EmptyStatement
  | ExpressionSequence | Expression | AssignmentExpression
  | TernaryExpression | CoalesceExpression | LogicalOrExpression
  | LogicalAndExpression | BitwiseOrExpression | BitwiseXorExpression
  | BitwiseAndExpression | EqualityExpression | ComparisonExpression
  | ShiftExpression | TermExpression | FactorExpression | RangeExpression
  | UnaryExpression | ReferenceExpression
  | UnionType | IntersectionType | ArrayType | GenericType | UnaryType
  | OptionalPropertyAccess | PropertyAccess | MatchOption | ArrayIndex
  | Parameters | Parameter | ArrayInitializer | ArrayValue | TypeCast
  | MethodCall | MethodCallArgument | LiteralValue
deriving DecidableEq

mutual

/-- A CST node: kind, span, ordered children. -/
inductive Tree where
  | mk (type : TreeType) (start stop : Nat) (items : List Item)

/-- A child of a CST node: a token or a subtree. -/
inductive Item where
  | tok (t : Token)
  | sub (t : Tree)

end

def Tree.type : Tree → TreeType
  | .mk ty _ _ _ => ty

def Tree.start : Tree → Nat
  | .mk _ a _ _ => a

def Tree.stop : Tree → Nat
  | .mk _ _ b _ => b

def Tree.items : Tree → List Item
  | .mk _ _ _ l => l

/-- Start of a child. -/
def iStart : Item → Nat
  | .tok t => t.start
  | .sub s => s.start

/-- Stop of a child. -/
def iStop : Item → Nat
  | .tok t => t.stop
  | .sub s => s.stop

/-- `Parser.start`: first token's start, else the last token of the whole
input, else 0. -/
def startOf (toks cur : List Token) : Nat :=
  match cur with
  | t :: _ => t.start
  | [] =>
    match toks.getLast? with
    | some t => t.start
    | none => 0

/-- `Parser.stop`: first token's stop, else the last token of the whole
input, else 0. -/
def stopOf (toks cur : List Token) : Nat :=
  match cur with
  | t :: _ => t.stop
  | [] =>
    match toks.getLast? with
    | some t => t.stop
    | none => 0

/-- The furthest-error slot update of `Parser.throw`: replace the stored
error when the slot is empty or the new error starts at or after it. -/
def updateErr (slot : Option ParserError) (e : ParserError) : Option ParserError :=
  match slot with
  | none => some e
  | some old => if old.start ≤ e.start then some e else some old

/-- The error slot. -/
abbrev Slot := Option ParserError

/-- Result of running one production: `none` is fuel exhaustion;
`some (none, err)` is a parse failure (cursor rolled back, slot updated);
`some (some (t, rest), err)` is success with remaining tokens `rest`. -/
abbrev PRes := Option (Option (Tree × List Token) × Slot)

/-- A production as a function of cursor and error slot. -/
abbrev PFn := List Token → Slot → PRes

/-- `Parser.throw`: record the error (furthest wins) and fail. -/
def pthrow (toks : List Token) (msg : String) (cur : List Token) (err : Slot) : PRes :=
  some (none, updateErr err ⟨msg, none, startOf toks cur, stopOf toks cur⟩)

/-- `Parser.tree`: node whose `start` is drawn from the entry view and
whose `stop` is the start of the first unconsumed token. -/
def mkTree (toks : List Token) (ty : TreeType) (items : List Item)
    (entry rest : List Token) : Tree :=
  .mk ty (startOf toks entry) (startOf toks rest) items

/-- `Parser.consume`: take the first token if it has the wanted kind. -/
def consumeT (tt : TokenType) : List Token → Option (Token × List Token)
  | t :: rest => if t.type = tt then some (t, rest) else none
  | [] => none

/-- A chain of `consume` calls for several kinds (all test the same head). -/
def consumeAny (tts : List TokenType) : List Token → Option (Token × List Token)
  | t :: rest => if tts.contains t.type then some (t, rest) else none
  | [] => none

/-- How a binary-tier loop treats the operator token: not pushed at all,
pushed together with the right operand, or pushed before the right operand
is attempted (`parseTermExpression`). -/
inductive PushMode where
  | opNone | opLate | opEarly
deriving DecidableEq

/-- The speculative binary-operator loop shared by the expression tiers,
the type tiers and the comma-separated sequence loops: consume one of
`ops`, parse the right operand, push, repeat; on right-operand failure roll
the cursor back (keeping the operator as a child only in `opEarly` mode). -/
def tierLoop (ops : List TokenType) (pm : PushMode) (sub : Token → PFn) :
    Nat → List Item → List Token → Slot → Option (List Item × List Token × Slot)
  | 0, _, _, _ => none
  | fuel + 1, items, cur, err =>
    match consumeAny ops cur with
    | none => some (items, cur, err)
    | some (op, c1) =>
      match sub op c1 err with
      | none => none
      | some (none, e1) =>
          some ((if pm = .opEarly then items ++ [.tok op] else items), cur, e1)
      | some (some (rhs, c2), e1) =>
          tierLoop ops pm sub fuel
            (items ++ (if pm = .opNone then [.sub rhs] else [.tok op, .sub rhs])) c2 e1

/-- The statement-collection loop of `parseBody` and `parseBlockStatement`. -/
def stmtLoop (sub : PFn) :
    Nat → List Item → List Token → Slot → Option (List Item × List Token × Slot)
  | 0, _, _, _ => none
  | fuel + 1, items, cur, err =>
    match sub cur err with
    | none => none
    | some (none, e1) => some (items, cur, e1)
    | some (some (st, c1), e1) => stmtLoop sub fuel (items ++ [.sub st]) c1 e1

/-- The option loop of `parseMatchStatement`, threading its `match` boolean
(which the loop body only ever sets to `false`). -/
def matchOptLoop (sub : PFn) :
    Nat → Bool → List Item → List Token → Slot →
    Option (Bool × List Item × List Token × Slot)
  | 0, _, _, _, _ => none
  | fuel + 1, b, items, cur, err =>
    match sub cur err with
    | none => none
    | some (none, e1) => some (b, items, cur, e1)
    | some (some (st, c1), e1) =>
        matchOptLoop sub fuel false (items ++ [.sub st]) c1 e1

/-- The comma-separated list loop of `parseParameters`, `parseMethodCall`
and `parseArrayInitializer`: an empty list is fine, but once a comma has
been consumed a missing element aborts the whole production with `msg`. -/
def commaLoop (toks : List Token) (sub : PFn) (msg : String) :
    Nat → List Item → List Token → Slot →
    Option (Option (List Item × List Token) × Slot)
  | 0, _, _, _ => none
  | fuel + 1, items, cur, err =>
    if items.isEmpty then
      match sub cur err with
      | none => none
      | some (none, e1) => some (some (items, cur), e1)
      | some (some (it, c1), e1) =>
          commaLoop toks sub msg fuel (items ++ [.sub it]) c1 e1
    else
      match consumeT .CommaPunctuator cur with
      | none => some (some (items, cur), err)
      | some (_, c1) =>
        match sub c1 err with
        | none => none
        | some (none, e1) =>
            some (none, updateErr e1 ⟨msg, none, startOf toks c1, stopOf toks c1⟩)
        | some (some (it, c2), e1) =>
            commaLoop toks sub msg fuel (items ++ [.sub it]) c2 e1

/-- The postfix loop of `parseReferenceExpression`: property access,
optional access, array index, call, tried in that order until all fail. -/
def refLoop (s1 s2 s3 s4 : PFn) :
    Nat → List Item → List Token → Slot → Option (List Item × List Token × Slot)
  | 0, _, _, _ => none
  | fuel + 1, items, cur, err =>
    match s1 cur err with
    | none => none
    | some (some (t, c1), e1) => refLoop s1 s2 s3 s4 fuel (items ++ [.sub t]) c1 e1
    | some (none, e1) =>
    match s2 cur e1 with
    | none => none
    | some (some (t, c1), e2) => refLoop s1 s2 s3 s4 fuel (items ++ [.sub t]) c1 e2
    | some (none, e2) =>
    match s3 cur e2 with
    | none => none
    | some (some (t, c1), e3) => refLoop s1 s2 s3 s4 fuel (items ++ [.sub t]) c1 e3
    | some (none, e3) =>
    match s4 cur e3 with
    | none => none
    | some (some (t, c1), e4) => refLoop s1 s2 s3 s4 fuel (items ++ [.sub t]) c1 e4
    | some (none, e4) => some (items, cur, e4)

/-- The modifier loop of `parseUnaryType`: generic arguments or array
modifier, else a star or question-mark token, until none applies. -/
def utLoop (sGen sArr : PFn) :
    Nat → List Item → List Token → Slot → Option (List Item × List Token × Slot)
  | 0, _, _, _ => none
  | fuel + 1, items, cur, err =>
    match sGen cur err with
    | none => none
    | some (some (t, c1), e1) => utLoop sGen sArr fuel (items ++ [.sub t]) c1 e1
    | some (none, e1) =>
    match sArr cur e1 with
    | none => none
    | some (some (t, c1), e2) => utLoop sGen sArr fuel (items ++ [.sub t]) c1 e2
    | some (none, e2) =>
    match consumeAny [.TimesOperator, .OptionalOperator] cur with
    | none => some (items, cur, e2)
    | some (op, c1) => utLoop sGen sArr fuel (items ++ [.tok op]) c1 e2

/-- The prefix-operator loop of `parseUnaryExpression`. -/
def uopsLoop (ops : List TokenType) : List Token → List Item × List Token
  | [] => ([], [])
  | t :: rest =>
    if ops.contains t.type then
      let p := uopsLoop ops rest
      (.tok t :: p.1, p.2)
    else ([], t :: rest)

/-- Ordered-choice over production alternatives (the chains of `??`). -/
def firstAlt : List PFn → PFn
  | [] => fun _ err => some (none, err)
  | f :: fs => fun cur err =>
    match f cur err with
    | none => none
    | some (some r, e) => some (some r, e)
    | some (none, e) => firstAlt fs cur e

/-- A generic binary tier: required left operand (else throw `msg`), then
the operator loop, then the node. -/
def tierStep (toks : List Token) (ty : TreeType) (msg : String)
    (ops : List TokenType) (pm : PushMode) (lhs : PFn) (rhs : Token → PFn) : PFn :=
  fun cur err =>
    match lhs cur err with
    | none => none
    | some (none, e1) => pthrow toks msg cur e1
    | some (some (l, c1), e1) =>
      match tierLoop ops pm rhs (c1.length + 1) [Item.sub l] c1 e1 with
      | none => none
      | some (items, rest, e2) =>
          some (some (mkTree toks ty items cur rest, rest), e2)

/-- Names for the parser's productions. -/
inductive Sym where
  | body | statement | labeledStatement | blockStatement | ifStatement
  | whileStatement | matchStatement | matchOption | defStatement
  | parameters | parameter | doStatement | forStatement | returnStatement
  | continueStatement | breakStatement | emptyStatement
  | expressionStatement | fieldStatement
  | unionType | intersectionType | unaryType | arrayType | genericType
  | expressionSequence | assignmentExpression | ternaryExpression
  | coalesceExpression | logicalOrExpression | logicalAndExpression
  | bitwiseOrExpression | bitwiseXorExpression | bitwiseAndExpression
  | equalityExpression | comparisonExpression | shiftExpression
  | termExpression | factorExpression | rangeExpression | unaryExpression
  | referenceExpression | literalValue | cast | propertyAccess
  | optionalPropertyAccess | arrayIndex | methodCall | arrayInitializer
  | arrayValue | methodCallArgument
deriving DecidableEq

end Rue

namespace Rue

/-- The assignment operators, in the order `parseAssignmentExpression`
tries them. -/
def assignOps : List TokenType :=
  [.PlusAssignOperator, .MinusAssignOperator, .TimesAssignOperator,
   .DivideAssignOperator, .ModuloAssignOperator, .AndAssignOperator,
   .OrAssignOperator, .XorAssignOperator, .CoalesceAssignOperator,
   .LeftShiftAssignOperator, .RightShiftAssignOperator,
   .UnsignedRightShiftAssignOperator, .AssignOperator]

/-- The comparison operators, in the order `parseComparisonExpression`
tries them. -/
def comparisonOps : List TokenType :=
  [.LessThanEqualOperator, .GreaterThanEqualOperator, .LessThanOperator,
   .GreaterThanOperator, .AsKeyword, .IsKeyword, .InKeyword]

/-- All productions of `parser.ts`, one per `Sym` constructor, mutually
recursive through the fuel argument.  Each case transcribes the
corresponding `parseX` method: `consumeT`/`consumeAny` model
`this.consume`, `pthrow` models `this.throw` at the cursor current at that
point, and `mkTree` models `this.tree` (entry view start, first-unconsumed
start). -/
def run (toks : List Token) : Nat → Sym → PFn
  | 0, _ => fun _ _ => none
  | fuel + 1, sym =>
    match sym with
    | .body => fun cur err =>
      match stmtLoop (run toks fuel .statement) (cur.length + 1) [] cur err with
      | none => none
      | some (items, rest, e1) =>
          some (some (mkTree toks .Body items cur rest, rest), e1)
    | .statement => fun cur err =>
      match firstAlt
          [run toks fuel .labeledStatement, run toks fuel .fieldStatement,
           run toks fuel .expressionStatement, run toks fuel .defStatement,
           run toks fuel .ifStatement, run toks fuel .whileStatement,
           run toks fuel .matchStatement, run toks fuel .doStatement,
           run toks fuel .forStatement, run toks fuel .returnStatement,
           run toks fuel .continueStatement, run toks fuel .breakStatement,
           run toks fuel .blockStatement, run toks fuel .emptyStatement] cur err with
      | none => none
      | some (none, e1) => pthrow toks "Expected statement" cur e1
      | some (some (st, c1), e1) =>
          some (some (mkTree toks .Statement [.sub st] cur c1, c1), e1)
    | .labeledStatement => fun cur err =>
      match consumeT .Identifier cur with
      | none => pthrow toks "Expected labeled statement" cur err
      | some (idt, c1) =>
      match consumeT .ColonPunctuator c1 with
      | none => pthrow toks "Expected \x22:\x22 after label" c1 err
      | some (_, c2) =>
      match run toks fuel .statement c2 err with
      | none => none
      | some (none, e1) => pthrow toks "Expected statement" c2 e1
      | some (some (st, c3), e1) =>
          some (some (mkTree toks .LabeledStatement [.tok idt, .sub st] cur c3, c3), e1)
    | .blockStatement => fun cur err =>
      match consumeT .OpenBrace cur with
      | none => pthrow toks "Expected block statement" cur err
      | some (_, c1) =>
      match stmtLoop (run toks fuel .statement) (c1.length + 1) [] c1 err with
      | none => none
      | some (items, c2, e1) =>
      match consumeT .CloseBrace c2 with
      | none => pthrow toks "Unterminated block statement" c2 e1
      | some (_, c3) =>
          some (some (mkTree toks .BlockStatement items cur c3, c3), e1)
    | .ifStatement => fun cur err =>
      match consumeT .IfKeyword cur with
      | none => pthrow toks "Expected if statement" cur err
      | some (_, c1) =>
      match consumeT .OpenParenthesis c1 with
      | none => pthrow toks "Expected if condition" c1 err
      | some (_, c2) =>
      match run toks fuel .expressionSequence c2 err with
      | none => none
      | some (none, e1) => pthrow toks "Expected expression sequence" c2 e1
      | some (some (cond, c3), e1) =>
      match consumeT .CloseParenthesis c3 with
      | none => pthrow toks "Unterminated if condition" c3 e1
      | some (_, c4) =>
      match run toks fuel .statement c4 e1 with
      | none => none
      | some (none, e2) => pthrow toks "Expected statement" c4 e2
      | some (some (st, c5), e2) =>
      match consumeT .ElseKeyword c5 with
      | none =>
          some (some (mkTree toks .IfStatement [.sub cond, .sub st] cur c5, c5), e2)
      | some (_, c6) =>
      match run toks fuel .statement c6 e2 with
      | none => none
      | some (none, e3) => pthrow toks "Expected statement" c6 e3
      | some (some (st2, c7), e3) =>
          some (some (mkTree toks .IfStatement [.sub cond, .sub st, .sub st2] cur c7, c7), e3)
    | .whileStatement => fun cur err =>
      match consumeT .WhileKeyword cur with
      | none => pthrow toks "Expected while statement" cur err
      | some (_, c1) =>
      match consumeT .OpenParenthesis c1 with
      | none => pthrow toks "Expected while condition" c1 err
      | some (_, c2) =>
      match run toks fuel .expressionSequence c2 err with
      | none => none
      | some (none, e1) => pthrow toks "Expected expression sequence" c2 e1
      | some (some (cond, c3), e1) =>
      match consumeT .CloseParenthesis c3 with
      | none => pthrow toks "Unterminated while condition" c3 e1
      | some (_, c4) =>
      match run toks fuel .statement c4 e1 with
      | none => none
      | some (none, e2) => pthrow toks "Expected statement" c4 e2
      | some (some (st, c5), e2) =>
          some (some (mkTree toks .WhileStatement [.sub cond, .sub st] cur c5, c5), e2)
    | .matchStatement => fun cur err =>
      match consumeT .MatchKeyword cur with
      | none => pthrow toks "Expected match statement" cur err
      | some (_, c1) =>
      match consumeT .OpenParenthesis c1 with
      | none => pthrow toks "Expected match value" c1 err
      | some (_, c2) =>
      match run toks fuel .expressionSequence c2 err with
      | none => none
      | some (none, e1) => pthrow toks "Expected expression sequence" c2 e1
      | some (some (value, c3), e1) =>
      match consumeT .CloseParenthesis c3 with
      | none => pthrow toks "Unterminated match value" c3 e1
      | some (_, c4) =>
      match consumeT .OpenBrace c4 with
      | none => pthrow toks "Expected match body" c4 e1
      | some (_, c5) =>
      match matchOptLoop (run toks fuel .matchOption) (c5.length + 1)
          false [Item.sub value] c5 e1 with
      | none => none
      | some (b, items2, c6, e2) =>
      match run toks fuel .body c6 e2 with
      | none => none
      | some (fbRes, e3) =>
      match fbRes with
      | some (fb, c7) =>
        (match consumeT .CloseBrace c7 with
         | none => pthrow toks "Unterminated match body" c7 e3
         | some (_, c8) =>
             some (some (mkTree toks .MatchStatement (items2 ++ [.sub fb]) cur c8, c8), e3))
      | none =>
        if b then
          match consumeT .CloseBrace c6 with
          | none => pthrow toks "Unterminated match body" c6 e3
          | some (_, c8) =>
              some (some (mkTree toks .MatchStatement items2 cur c8, c8), e3)
        else pthrow toks "Expected match options or fallback" c6 e3
    | .matchOption => fun cur err =>
      match run toks fuel .assignmentExpression cur err with
      | none => none
      | some (none, e1) => pthrow toks "Expected match option" cur e1
      | some (some (expr, c1), e1) =>
      match consumeT .ArrowOperator c1 with
      | none => pthrow toks "Expected \x22=>\x22" c1 e1
      | some (_, c2) =>
      match run toks fuel .statement c2 e1 with
      | none => none
      | some (none, e2) => pthrow toks "Expected match option body" c2 e2
      | some (some (st, c3), e2) =>
          some (some (mkTree toks .MatchOption [.sub expr, .sub st] cur c3, c3), e2)
    | .defStatement => fun cur err =>
      match consumeT .DefKeyword cur with
      | none => pthrow toks "Expected def statement" cur err
      | some (_, c1) =>
      match consumeT .Identifier c1 with
      | none => pthrow toks "Expected identifier" c1 err
      | some (idt, c2) =>
      match run toks fuel .parameters c2 err with
      | none => none
      | some (none, e1) => pthrow toks "Expected parameters" c2 e1
      | some (some (ps, c3), e1) =>
      match consumeT .ColonPunctuator c3 with
      | some (_, c4) =>
        (match run toks fuel .unaryType c4 e1 with
         | none => none
         | some (none, e2) => pthrow toks "Expected type" c4 e2
         | some (some (ty, c5), e2) =>
           match firstAlt [run toks fuel .blockStatement, run toks fuel .emptyStatement] c5 e2 with
           | none => none
           | some (none, e3) => pthrow toks "Expected def body" c5 e3
           | some (some (st, c6), e3) =>
               some (some (mkTree toks .DefStatement
                 [.tok idt, .sub ps, .sub ty, .sub st] cur c6, c6), e3))
      | none =>
      match firstAlt [run toks fuel .blockStatement, run toks fuel .emptyStatement] c3 e1 with
      | none => none
      | some (none, e3) => pthrow toks "Expected def body" c3 e3
      | some (some (st, c6), e3) =>
          some (some (mkTree toks .DefStatement [.tok idt, .sub ps, .sub st] cur c6, c6), e3)
    | .parameters => fun cur err =>
      match consumeT .OpenParenthesis cur with
      | none => pthrow toks "Expected parameters" cur err
      | some (_, c1) =>
      match commaLoop toks (run toks fuel .parameter) "Expected parameter"
          (c1.length + 1) [] c1 err with
      | none => none
      | some (none, e1) => some (none, e1)
      | some (some (items, c2), e1) =>
      match consumeT .CloseParenthesis c2 with
      | none => pthrow toks "Unterminated parameters" c2 e1
      | some (_, c3) =>
          some (some (mkTree toks .Parameters items cur c3, c3), e1)
    | .parameter => fun cur err =>
      match consumeAny [.Identifier, .InclusiveRangeOperator] cur with
      | none => pthrow toks "Expected parameter" cur err
      | some (it, c1) =>
      if it.type = .Identifier then
        match consumeT .ColonPunctuator c1 with
        | none => pthrow toks "Expected \x22:\x22 after parameter name" c1 err
        | some (_, c2) =>
        match run toks fuel .unaryType c2 err with
        | none => none
        | some (none, e1) => pthrow toks "Expected type" c2 e1
        | some (some (ty, c3), e1) =>
            some (some (mkTree toks .Parameter [.tok it, .sub ty] cur c3, c3), e1)
      else some (some (mkTree toks .Parameter [.tok it] cur c1, c1), err)
    | .doStatement => fun cur err =>
      match consumeT .DoKeyword cur with
      | none => pthrow toks "Expected do statement" cur err
      | some (_, c1) =>
      match run toks fuel .statement c1 err with
      | none => none
      | some (none, e1) => pthrow toks "Expected statement" c1 e1
      | some (some (st, c2), e1) =>
      match consumeT .WhileKeyword c2 with
      | none => pthrow toks "Expected while clause" c2 e1
      | some (_, c3) =>
      match consumeT .OpenParenthesis c3 with
      | none => pthrow toks "Expected do condition" c3 e1
      | some (_, c4) =>
      match run toks fuel .expressionSequence c4 e1 with
      | none => none
      | some (none, e2) => pthrow toks "Expected expression sequence" c4 e2
      | some (some (cond, c5), e2) =>
      match consumeT .CloseParenthesis c5 with
      | none => pthrow toks "Unterminated while condition" c5 e2
      | some (_, c6) =>
          some (some (mkTree toks .DoStatement [.sub st, .sub cond] cur c6, c6), e2)
    | .forStatement => fun cur err =>
      match consumeT .ForKeyword cur with
      | none => pthrow toks "Expected for statement" cur err
      | some (_, c1) =>
      match consumeT .OpenParenthesis c1 with
      | none => pthrow toks "Expected for iterator" c1 err
      | some (_, c2) =>
      match consumeT .Identifier c2 with
      | none => pthrow toks "Expected identifier" c2 err
      | some (idt, c3) =>
      match consumeT .InKeyword c3 with
      | none => pthrow toks "Expected in clause" c3 err
      | some (_, c4) =>
      match run toks fuel .assignmentExpression c4 err with
      | none => none
      | some (none, e1) => pthrow toks "Expected iterator expression" c4 e1
      | some (some (ex, c5), e1) =>
      match consumeT .CloseParenthesis c5 with
      | none => pthrow toks "Unterminated for iterator" c5 e1
      | some (_, c6) =>
      match run toks fuel .statement c6 e1 with
      | none => none
      | some (none, e2) => pthrow toks "Expected statement" c6 e2
      | some (some (st, c7), e2) =>
          some (some (mkTree toks .ForStatement [.tok idt, .sub ex, .sub st] cur c7, c7), e2)
    | .returnStatement => fun cur err =>
      match consumeT .ReturnKeyword cur with
      | none => pthrow toks "Expected return statement" cur err
      | some (_, c1) =>
      match run toks fuel .expressionSequence c1 err with
      | none => none
      | some (vOpt, e1) =>
      match vOpt with
      | some (v, c2) =>
        (match consumeT .SemicolonPunctuator c2 with
         | none => pthrow toks "Expected semicolon" c2 e1
         | some (_, c3) =>
             some (some (mkTree toks .ReturnStatement [.sub v] cur c3, c3), e1))
      | none =>
      match consumeT .SemicolonPunctuator c1 with
      | none => pthrow toks "Expected semicolon" c1 e1
      | some (_, c3) =>
          some (some (mkTree toks .ReturnStatement [] cur c3, c3), e1)
    | .continueStatement => fun cur err =>
      match consumeT .ContinueKeyword cur with
      | none => pthrow toks "Expected continue statement" cur err
      | some (_, c1) =>
      match consumeT .Identifier c1 with
      | some (idt, c2) =>
        (match consumeT .SemicolonPunctuator c2 with
         | none => pthrow toks "Expected semicolon" c2 err
         | some (_, c3) =>
             some (some (mkTree toks .ContinueStatement [.tok idt] cur c3, c3), err))
      | none =>
      match consumeT .SemicolonPunctuator c1 with
      | none => pthrow toks "Expected semicolon" c1 err
      | some (_, c3) =>
          some (some (mkTree toks .ContinueStatement [] cur c3, c3), err)
    | .breakStatement => fun cur err =>
      match consumeT .BreakKeyword cur with
      | none => pthrow toks "Expected break statement" cur err
      | some (_, c1) =>
      match consumeT .Identifier c1 with
      | some (idt, c2) =>
        (match consumeT .SemicolonPunctuator c2 with
         | none => pthrow toks "Expected semicolon" c2 err
         | some (_, c3) =>
             some (some (mkTree toks .BreakStatement [.tok idt] cur c3, c3), err))
      | none =>
      match consumeT .SemicolonPunctuator c1 with
      | none => pthrow toks "Expected semicolon" c1 err
      | some (_, c3) =>
          some (some (mkTree toks .BreakStatement [] cur c3, c3), err)
    | .emptyStatement => fun cur err =>
      match consumeT .SemicolonPunctuator cur with
      | none => pthrow toks "Expected semicolon" cur err
      | some (_, c1) =>
          some (some (mkTree toks .EmptyStatement [] cur c1, c1), err)
    | .expressionStatement => fun cur err =>
      match run toks fuel .expressionSequence cur err with
      | none => none
      | some (none, e1) => pthrow toks "Expected expression sequence" cur e1
      | some (some (sq, c1), e1) =>
      match consumeT .SemicolonPunctuator c1 with
      | none => pthrow toks "Expected semicolon" c1 e1
      | some (_, c2) =>
          some (some (mkTree toks .ExpressionStatement [.sub sq] cur c2, c2), e1)
    | .fieldStatement => fun cur err =>
      match consumeAny [.ValKeyword, .VarKeyword] cur with
      | none => pthrow toks "Expected field statement" cur err
      | some (kw, c1) =>
      match consumeT .Identifier c1 with
      | none => pthrow toks "Expected field name " c1 err
      | some (idt, c2) =>
      match consumeT .ColonPunctuator c2 with
      | some (_, c3) =>
        (match run toks fuel .unionType c3 err with
         | none => none
         | some (none, e1) => pthrow toks "Expected field type" c3 e1
         | some (some (ty, c4), e1) =>
           match consumeT .AssignOperator c4 with
           | some (_, c5) =>
             (match run toks fuel .assignmentExpression c5 e1 with
              | none => none
              | some (none, e2) => pthrow toks "Expected expression" c5 e2
              | some (some (ex, c6), e2) =>
                match consumeT .SemicolonPunctuator c6 with
                | none => pthrow toks "Expected semicolon" c6 e2
                | some (_, c7) =>
                    some (some (mkTree toks .FieldStatement
                      [.tok kw, .tok idt, .sub ty, .sub ex] cur c7, c7), e2))
           | none =>
             match consumeT .SemicolonPunctuator c4 with
             | none => pthrow toks "Expected semicolon" c4 e1
             | some (_, c7) =>
                 some (some (mkTree toks .FieldStatement
                   [.tok kw, .tok idt, .sub ty] cur c7, c7), e1))
      | none =>
      match consumeT .AssignOperator c2 with
      | some (_, c5) =>
        (match run toks fuel .assignmentExpression c5 err with
         | none => none
         | some (none, e2) => pthrow toks "Expected expression" c5 e2
         | some (some (ex, c6), e2) =>
           match consumeT .SemicolonPunctuator c6 with
           | none => pthrow toks "Expected semicolon" c6 e2
           | some (_, c7) =>
               some (some (mkTree toks .FieldStatement
                 [.tok kw, .tok idt, .sub ex] cur c7, c7), e2))
      | none =>
      match consumeT .SemicolonPunctuator c2 with
      | none => pthrow toks "Expected semicolon" c2 err
      | some (_, c7) =>
          some (some (mkTree toks .FieldStatement [.tok kw, .tok idt] cur c7, c7), err)
    | .unionType =>
      tierStep toks .UnionType "Expected union type" [.OrOperator] .opNone
        (run toks fuel .intersectionType) (fun _ => run toks fuel .intersectionType)
    | .intersectionType =>
      tierStep toks .IntersectionType "Expected intersection type" [.AndOperator] .opNone
        (run toks fuel .unaryType) (fun _ => run toks fuel .unaryType)
    | .unaryType => fun cur err =>
      match consumeAny [.Identifier, .IntegerType, .UnsignedIntegerType,
          .FloatType, .BooleanType, .StringType, .VoidType] cur with
      | none => pthrow toks "Expected type or identifier" cur err
      | some (base, c1) =>
      match utLoop (run toks fuel .genericType) (run toks fuel .arrayType)
          (c1.length + 1) [Item.tok base] c1 err with
      | none => none
      | some (items, rest, e1) =>
          some (some (mkTree toks .UnaryType items cur rest, rest), e1)
    | .arrayType => fun cur err =>
      match consumeT .OpenBracket cur with
      | none => pthrow toks "Expected array type modifier" cur err
      | some (_, c1) =>
      match consumeT .CloseBracket c1 with
      | none => pthrow toks "Unterminated array type modifier" c1 err
      | some (_, c2) =>
          some (some (mkTree toks .ArrayType [] cur c2, c2), err)
    | .genericType => fun cur err =>
      match consumeT .LessThanOperator cur with
      | none => pthrow toks "Expected generic type arguments" cur err
      | some (_, c1) =>
      match run toks fuel .unionType c1 err with
      | none => none
      | some (none, e1) => pthrow toks "Expected generic type argument" c1 e1
      | some (some (lhs, c2), e1) =>
      match tierLoop [.CommaPunctuator] .opNone (fun _ => run toks fuel .unionType)
          (c2.length + 1) [Item.sub lhs] c2 e1 with
      | none => none
      | some (items, c3, e2) =>
      match consumeT .GreaterThanOperator c3 with
      | none => pthrow toks "Unterminated generic type arguments" c3 e2
      | some (_, c4) =>
          some (some (mkTree toks .GenericType items cur c4, c4), e2)
    | .expressionSequence =>
      tierStep toks .ExpressionSequence "Expected expression sequence"
        [.CommaPunctuator] .opNone
        (run toks fuel .assignmentExpression) (fun _ => run toks fuel .assignmentExpression)
    | .assignmentExpression => fun cur err =>
      match run toks fuel .ternaryExpression cur err with
      | none => none
      | some (none, e1) => pthrow toks "Expected assignment expression" cur e1
      | some (some (lhs, c1), e1) =>
      match consumeAny assignOps c1 with
      | none =>
          some (some (mkTree toks .AssignmentExpression [.sub lhs] cur c1, c1), e1)
      | some (op, c2) =>
      match run toks fuel .ternaryExpression c2 e1 with
      | none => none
      | some (none, e2) =>
          some (some (mkTree toks .AssignmentExpression [.sub lhs] cur c1, c1), e2)
      | some (some (r, c3), e2) =>
          some (some (mkTree toks .AssignmentExpression
            [.sub lhs, .tok op, .sub r] cur c3, c3), e2)
    | .ternaryExpression => fun cur err =>
      match run toks fuel .coalesceExpression cur err with
      | none => none
      | some (none, e1) => pthrow toks "Expected ternary expression" cur e1
      | some (some (cond, c1), e1) =>
      match consumeT .OptionalOperator c1 with
      | none =>
          some (some (mkTree toks .TernaryExpression [.sub cond] cur c1, c1), e1)
      | some (_, c2) =>
      match run toks fuel .assignmentExpression c2 e1 with
      | none => none
      | some (none, e2) =>
          some (some (mkTree toks .TernaryExpression [.sub cond] cur c1, c1), e2)
      | some (some (l, c3), e2) =>
      match consumeT .ColonPunctuator c3 with
      | none =>
          some (some (mkTree toks .TernaryExpression [.sub cond] cur c1, c1), e2)
      | some (_, c4) =>
      match run toks fuel .assignmentExpression c4 e2 with
      | none => none
      | some (none, e3) =>
          some (some (mkTree toks .TernaryExpression [.sub cond] cur c1, c1), e3)
      | some (some (r, c5), e3) =>
          some (some (mkTree toks .TernaryExpression
            [.sub cond, .sub l, .sub r] cur c5, c5), e3)
    | .coalesceExpression =>
      tierStep toks .CoalesceExpression "Expected coalesce expression"
        [.CoalesceOperator] .opNone
        (run toks fuel .logicalOrExpression) (fun _ => run toks fuel .logicalOrExpression)
    | .logicalOrExpression =>
      tierStep toks .LogicalOrExpression "Expected logical or expression"
        [.OrKeyword] .opNone
        (run toks fuel .logicalAndExpression) (fun _ => run toks fuel .logicalAndExpression)
    | .logicalAndExpression =>
      tierStep toks .LogicalAndExpression "Expected logical and expression"
        [.AndKeyword] .opNone
        (run toks fuel .bitwiseOrExpression) (fun _ => run toks fuel .bitwiseOrExpression)
    | .bitwiseOrExpression =>
      tierStep toks .BitwiseOrExpression "Expected bitwise or expression"
        [.OrOperator] .opNone
        (run toks fuel .bitwiseXorExpression) (fun _ => run toks fuel .bitwiseXorExpression)
    | .bitwiseXorExpression =>
      tierStep toks .BitwiseXorExpression "Expected bitwise xor expression"
        [.XorOperator] .opNone
        (run toks fuel .bitwiseAndExpression) (fun _ => run toks fuel .bitwiseAndExpression)
    | .bitwiseAndExpression =>
      tierStep toks .BitwiseAndExpression "Expected bitwise and expression"
        [.AndOperator] .opNone
        (run toks fuel .equalityExpression) (fun _ => run toks fuel .equalityExpression)
    | .equalityExpression =>
      tierStep toks .EqualityExpression "Expected equality expression"
        [.EqualOperator, .NotEqualOperator] .opLate
        (run toks fuel .comparisonExpression) (fun _ => run toks fuel .comparisonExpression)
    | .comparisonExpression =>
      tierStep toks .ComparisonExpression "Expected comparison expression"
        comparisonOps .opLate
        (run toks fuel .shiftExpression)
        (fun op =>
          if op.type = .AsKeyword ∨ op.type = .IsKeyword then
            run toks fuel .unaryType
          else run toks fuel .shiftExpression)
    | .shiftExpression =>
      tierStep toks .ShiftExpression "Expected shift expression"
        [.LeftShiftOperator, .RightShiftOperator, .UnsignedRightShiftOperator] .opLate
        (run toks fuel .termExpression) (fun _ => run toks fuel .termExpression)
    | .termExpression =>
      tierStep toks .TermExpression "Expected term expression"
        [.PlusOperator, .MinusOperator] .opEarly
        (run toks fuel .factorExpression) (fun _ => run toks fuel .factorExpression)
    | .factorExpression =>
      tierStep toks .FactorExpression "Expected factor expression"
        [.TimesOperator, .DivideOperator, .ModuloOperator] .opLate
        (run toks fuel .rangeExpression) (fun _ => run toks fuel .rangeExpression)
    | .rangeExpression => fun cur err =>
      match run toks fuel .unaryExpression cur err with
      | none => none
      | some (lhsRes, e1) =>
      match lhsRes with
      | some (l, c1) =>
        (match consumeAny [.InclusiveRangeOperator, .ExclusiveRangeOperator] c1 with
         | none =>
             some (some (mkTree toks .RangeExpression [.sub l] cur c1, c1), e1)
         | some (op, c2) =>
           match run toks fuel .unaryExpression c2 e1 with
           | none => none
           | some (none, e2) =>
               some (some (mkTree toks .RangeExpression [.sub l, .tok op] cur c2, c2), e2)
           | some (some (r, c3), e2) =>
               some (some (mkTree toks .RangeExpression
                 [.sub l, .tok op, .sub r] cur c3, c3), e2))
      | none =>
      match consumeAny [.InclusiveRangeOperator, .ExclusiveRangeOperator] cur with
      | none => pthrow toks "Expected range expression" cur e1
      | some (op, c2) =>
      match run toks fuel .unaryExpression c2 e1 with
      | none => none
      | some (none, e2) => pthrow toks "Expected range expression" c2 e2
      | some (some (r, c3), e2) =>
          some (some (mkTree toks .RangeExpression [.tok op, .sub r] cur c3, c3), e2)
    | .unaryExpression => fun cur err =>
      match uopsLoop [.NotKeyword, .NotOperator, .PlusOperator, .MinusOperator,
          .TimesOperator, .AndOperator] cur with
      | (ops, c1) =>
      match run toks fuel .referenceExpression c1 err with
      | none => none
      | some (none, e1) => pthrow toks "Expected expression" c1 e1
      | some (some (r, c2), e1) =>
          some (some (mkTree toks .UnaryExpression (ops ++ [.sub r]) cur c2, c2), e1)
    | .referenceExpression => fun cur err =>
      match run toks fuel .literalValue cur err with
      | none => none
      | some (none, e1) => pthrow toks "Expected value" cur e1
      | some (some (lhs, c1), e1) =>
      match refLoop (run toks fuel .propertyAccess) (run toks fuel .optionalPropertyAccess)
          (run toks fuel .arrayIndex) (run toks fuel .methodCall)
          (c1.length + 1) [Item.sub lhs] c1 e1 with
      | none => none
      | some (items, rest, e2) =>
          some (some (mkTree toks .ReferenceExpression items cur rest, rest), e2)
    | .literalValue => fun cur err =>
      match run toks fuel .arrayInitializer cur err with
      | none => none
      | some (some (t, c1), e1) =>
          some (some (mkTree toks .LiteralValue [.sub t] cur c1, c1), e1)
      | some (none, e1) =>
      match consumeAny [.Identifier, .StringLiteral, .IntLiteral, .FloatLiteral,
          .BinaryLiteral, .OctalLiteral, .HexadecimalLiteral, .BoolLiteral,
          .NullKeyword, .ThisKeyword, .SuperKeyword] cur with
      | some (v, c1) =>
          some (some (mkTree toks .LiteralValue [.tok v] cur c1, c1), e1)
      | none =>
      match run toks fuel .cast cur e1 with
      | none => none
      | some (some (t, c1), e2) =>
          some (some (mkTree toks .LiteralValue [.sub t] cur c1, c1), e2)
      | some (none, e2) =>
      match consumeT .OpenParenthesis cur with
      | none => pthrow toks "Expected value" cur e2
      | some (_, c1) =>
      match run toks fuel .expressionSequence c1 e2 with
      | none => none
      | some (none, e3) => pthrow toks "Expected expression sequence" c1 e3
      | some (some (sq, c2), e3) =>
      match consumeT .CloseParenthesis c2 with
      | none => pthrow toks "Unterminated expression sequence" c2 e3
      | some (_, c3) =>
          some (some (mkTree toks .LiteralValue [.sub sq] cur c3, c3), e3)
    | .cast => fun cur err =>
      match consumeT .OpenParenthesis cur with
      | none => pthrow toks "Expected cast" cur err
      | some (_, c1) =>
      match run toks fuel .unaryType c1 err with
      | none => none
      | some (none, e1) => pthrow toks "Expected cast type" c1 e1
      | some (some (ty, c2), e1) =>
      match consumeT .CloseParenthesis c2 with
      | none => pthrow toks "Unterminated cast" c2 e1
      | some (_, c3) =>
      match run toks fuel .literalValue c3 e1 with
      | none => none
      | some (none, e2) => pthrow toks "Expected cast value" c3 e2
      | some (some (v, c4), e2) =>
          some (some (mkTree toks .TypeCast [.sub ty, .sub v] cur c4, c4), e2)
    | .propertyAccess => fun cur err =>
      match consumeT .AccessOperator cur with
      | none => pthrow toks "Expected member access" cur err
      | some (_, c1) =>
      match consumeT .Identifier c1 with
      | none => pthrow toks "Expected identifier" c1 err
      | some (idt, c2) =>
          some (some (mkTree toks .PropertyAccess [.tok idt] cur c2, c2), err)
    | .optionalPropertyAccess => fun cur err =>
      match consumeT .OptionalAccessOperator cur with
      | none => pthrow toks "Expected optional reference" cur err
      | some (_, c1) =>
      match consumeT .Identifier c1 with
      | some (idt, c2) =>
          some (some (mkTree toks .OptionalPropertyAccess [.tok idt] cur c2, c2), err)
      | none =>
      match run toks fuel .arrayIndex c1 err with
      | none => none
      | some (some (t, c2), e1) =>
          some (some (mkTree toks .OptionalPropertyAccess [.sub t] cur c2, c2), e1)
      | some (none, e1) =>
      match run toks fuel .methodCall c1 e1 with
      | none => none
      | some (some (t, c2), e2) =>
          some (some (mkTree toks .OptionalPropertyAccess [.sub t] cur c2, c2), e2)
      | some (none, e2) => pthrow toks "Expected reference" c1 e2
    | .arrayIndex => fun cur err =>
      match consumeT .OpenBracket cur with
      | none => pthrow toks "Expected array index" cur err
      | some (_, c1) =>
      match run toks fuel .expressionSequence c1 err with
      | none => none
      | some (none, e1) => pthrow toks "Expected expression sequence" c1 e1
      | some (some (sq, c2), e1) =>
      match consumeT .CloseBracket c2 with
      | none => pthrow toks "Unterminated array index" c2 e1
      | some (_, c3) =>
          some (some (mkTree toks .ArrayIndex [.sub sq] cur c3, c3), e1)
    | .methodCall => fun cur err =>
      match consumeT .OpenParenthesis cur with
      | none => pthrow toks "Expected call" cur err
      | some (_, c1) =>
      match commaLoop toks (run toks fuel .methodCallArgument) "Expected call argument"
          (c1.length + 1) [] c1 err with
      | none => none
      | some (none, e1) => some (none, e1)
      | some (some (items, c2), e1) =>
      match consumeT .CloseParenthesis c2 with
      | none => pthrow toks "Unterminated call" c2 e1
      | some (_, c3) =>
          some (some (mkTree toks .MethodCall items cur c3, c3), e1)
    | .arrayInitializer => fun cur err =>
      match consumeT .OpenBracket cur with
      | none => pthrow toks "Expected array initializer" cur err
      | some (_, c1) =>
      match commaLoop toks (run toks fuel .arrayValue) "Expected array value"
          (c1.length + 1) [] c1 err with
      | none => none
      | some (none, e1) => some (none, e1)
      | some (some (items, c2), e1) =>
      match consumeT .CloseBracket c2 with
      | none => pthrow toks "Unterminated array initializer" c2 e1
      | some (_, c3) =>
          some (some (mkTree toks .ArrayInitializer items cur c3, c3), e1)
    | .arrayValue => fun cur err =>
      match run toks fuel .assignmentExpression cur err with
      | none => none
      | some (none, e1) => pthrow toks "Expected expression" cur e1
      | some (some (a, c1), e1) =>
          some (some (mkTree toks .ArrayValue [.sub a] cur c1, c1), e1)
    | .methodCallArgument => fun cur err =>
      match run toks fuel .assignmentExpression cur err with
      | none => none
      | some (none, e1) => pthrow toks "Expected expression" cur e1
      | some (some (a, c1), e1) =>
          some (some (mkTree toks .MethodCallArgument [.sub a] cur c1, c1), e1)

/-- `Parser.ast`: run `parseBody` from the full token list; if tokens are
left over, record an `Unexpected token` error (furthest wins) and return
the stored error, else return the body tree.  The `getD` models the
source's non-null assertion on the error slot. -/
def ast (toks : List Token) (fuel : Nat) : Option (Except ParserError Tree) :=
  match run toks fuel .body toks none with
  | none => none
  | some (none, e) => some (.error (e.getD ⟨"", none, 0, 0⟩))
  | some (some (t, rest), e) =>
    match rest with
    | [] => some (.ok t)
    | u :: _ =>
        some (.error ((updateErr e
          ⟨"Unexpected token", some u.text, u.start, u.stop⟩).getD ⟨"", none, 0, 0⟩))

end Rue

namespace Rue

/-- The stop-clause as the spec's invariant states it: the last child ends
at or before the node's stop. -/
def lastClaimB (hi : Nat) (x : Item) : Bool := decide (iStop x ≤ hi)

/-- The stop-clause as the code actually guarantees it: a last subtree ends
at or before the node's stop; a last token may instead begin exactly at the
node's stop (the recorded stop fell back to the last input token's start,
or the cursor was rolled back in front of a kept operator token). -/
def lastFitB (hi : Nat) : Item → Bool
  | .tok t => decide (t.stop ≤ hi) || decide (t.start = hi)
  | .sub s => decide (s.stop ≤ hi)

/-- One node's child-list check, parametrised by the last-child clause:
`lo ≤` first child's start, each child ends at or before the next begins,
and `lastB hi` for the final child. -/
def fitWithB (lastB : Nat → Item → Bool) (lo hi : Nat) : List Item → Bool
  | [] => true
  | [x] => decide (lo ≤ iStart x) && lastB hi x
  | x :: y :: rest =>
      decide (lo ≤ iStart x) && fitWithB lastB (iStop x) hi (y :: rest)

mutual

/-- Every node of the tree satisfies the span invariant in the weakened,
code-accurate form. -/
def allOkT : Tree → Bool
  | .mk _ a b items => fitWithB lastFitB a b items && allOkI items

def allOkI : List Item → Bool
  | [] => true
  | .tok _ :: rest => allOkI rest
  | .sub s :: rest => allOkT s && allOkI rest

end

mutual

/-- Every node of the tree satisfies the span invariant exactly as the
spec's claim states it (`child[last].stop ≤ stop`). -/
def claimOkT : Tree → Bool
  | .mk _ a b items => fitWithB lastClaimB a b items && claimOkI items

def claimOkI : List Item → Bool
  | [] => true
  | .tok _ :: rest => claimOkI rest
  | .sub s :: rest => claimOkT s && claimOkI rest

end

/-- Well-formed token sequences (spec section 3): every token's span is
non-empty, and consecutive tokens are ordered and non-overlapping. -/
def TokensWf (toks : List Token) : Prop :=
  (∀ t ∈ toks, t.start < t.stop) ∧
  List.Chain' (fun a b => a.stop ≤ b.start) toks

instance (toks : List Token) : Decidable (TokensWf toks) := by
  unfold TokensWf; infer_instance

end Rue

namespace Rue

/-- Whether a pipeline result is a successful parse. -/
def isOkAst (r : Option (Except ParserError Tree)) : Bool :=
  match r with
  | some (.ok _) => true
  | _ => false

/-- The parser error of a pipeline result, if any. -/
def astErr (r : Option (Except ParserError Tree)) : Option ParserError :=
  match r with
  | some (.error e) => some e
  | _ => none

/-- Whether a UTF-16 code-unit list contains the given code point, either
as a single unit or as a surrogate pair. -/
def utf16ContainsCp (text : List Nat) (cp : Nat) : Bool :=
  if cp < 65536 then text.contains cp
  else
    let hi := 55296 + (cp - 65536) / 1024
    let lo := 56320 + (cp - 65536) % 1024
    (text.zip text.tail).contains (hi, lo)

/-- The statement payload of a one-statement body, if the result has that
shape. -/
def soleStatement (r : Option (Except ParserError Tree)) : Option Tree :=
  match r with
  | some (.ok (.mk .Body _ _ [.sub (.mk .Statement _ _ [.sub t])])) => some t
  | _ => none

/-- Whether the last child is a `Body` subtree with no children. -/
def lastIsEmptyBody (items : List Item) : Bool :=
  match items.getLast? with
  | some (.sub (.mk .Body _ _ [])) => true
  | _ => false

end Rue

namespace Rue

/-! Concrete inputs, observers and invariant predicates used by the
claim theorems below. -/

/-- The source text of the quoted literal with the braced emoji escape. -/
def srcEmoji : List Nat := [34, 92, 117, 123, 49, 70, 54, 48, 48, 125, 34]

/-- The source text of the quoted literal with the too-large braced escape. -/
def srcTooBig : List Nat := [34, 92, 117, 123, 49, 49, 48, 48, 48, 48, 125, 34]

/-- The source of a string literal whose braced escape uses lowercase hex. -/
def srcBraceLower : List Nat := [34, 92, 117, 123, 102, 102, 125, 34]

/-- The source of a string literal whose four-digit escape uses lowercase
hex. -/
def srcFourLower : List Nat := [39, 92, 117, 48, 48, 102, 102, 39]

/-- Source `a = ;`. -/
def srcC4 : List Nat := [97, 32, 61, 32, 59]

/-- Tokens of `a = ;`. -/
def toksC4 : List Token :=
  [⟨.Identifier, [97], 0, 1⟩, ⟨.AssignOperator, [61], 2, 3⟩,
   ⟨.SemicolonPunctuator, [59], 4, 5⟩]

/-- Source `a = b;`. -/
def srcAssign1 : List Nat := [97, 32, 61, 32, 98, 59]

/-- Tokens of `a = b;`. -/
def toksAssign1 : List Token :=
  [⟨.Identifier, [97], 0, 1⟩, ⟨.AssignOperator, [61], 2, 3⟩,
   ⟨.Identifier, [98], 4, 5⟩, ⟨.SemicolonPunctuator, [59], 5, 6⟩]

/-- Source `a = b = c;`. -/
def srcAssign2 : List Nat := [97, 32, 61, 32, 98, 32, 61, 32, 99, 59]

/-- Tokens of `a = b = c;`. -/
def toksAssign2 : List Token :=
  [⟨.Identifier, [97], 0, 1⟩, ⟨.AssignOperator, [61], 2, 3⟩,
   ⟨.Identifier, [98], 4, 5⟩, ⟨.AssignOperator, [61], 6, 7⟩,
   ⟨.Identifier, [99], 8, 9⟩, ⟨.SemicolonPunctuator, [59], 9, 10⟩]

/-- Source `match (n) { }`. -/
def srcMatch : List Nat := [109, 97, 116, 99, 104, 32, 40, 110, 41, 32, 123, 32, 125]

/-- Tokens of `match (n) { }`. -/
def toksMatch : List Token :=
  [⟨.MatchKeyword, [109, 97, 116, 99, 104], 0, 5⟩, ⟨.OpenParenthesis, [40], 6, 7⟩,
   ⟨.Identifier, [110], 7, 8⟩, ⟨.CloseParenthesis, [41], 8, 9⟩,
   ⟨.OpenBrace, [123], 10, 11⟩, ⟨.CloseBrace, [125], 12, 13⟩]

/-- The remaining tokens after running `parseBody` from the start. -/
def bodyRest (toks : List Token) (fuel : Nat) : Option (List Token) :=
  match run toks fuel .body toks none with
  | some (some (_, rest), _) => some rest
  | _ => none

/-- The unconsumed suffix length after running `parseAssignmentExpression`
from the start. -/
def assignRest (toks : List Token) (fuel : Nat) : Option Nat :=
  match run toks fuel .assignmentExpression toks none with
  | some (some (_, rest), _) => some rest.length
  | _ => none

/-- The source slice `[a, b)`. -/
def listSlice (l : List Nat) (a b : Nat) : List Nat := (l.drop a).take (b - a)

/-- The round-trip property claimed for a single token. -/
def TokGood (source : List Nat) (t : Token) : Prop :=
  (t.type ≠ .StringLiteral → listSlice source t.start t.stop = t.text) ∧
  (t.type = .StringLiteral →
    ∃ q mid, (q = 39 ∨ q = 34) ∧ listSlice source t.start t.stop = q :: mid ++ [q])

/-- Strong child-chain invariant while a node's child list is being built:
`lo` bounds the first child's start, consecutive children are ordered, and
the last child ends at or before position `pos`. -/
def segFit (lo pos : Nat) : List Item → Prop
  | [] => lo ≤ pos
  | x :: rest => lo ≤ iStart x ∧ segFit (iStop x) pos rest

instance (lo pos : Nat) (items : List Item) : Decidable (segFit lo pos items) := by
  induction items generalizing lo with
  | nil => exact inferInstanceAs (Decidable (lo ≤ pos))
  | cons x rest ih => exact @instDecidableAnd _ _ _ (ih (iStop x))

/-- A production never succeeds on the empty cursor. -/
def FailsEmpty (f : PFn) : Prop :=
  ∀ err t rest err', f [] err ≠ some (some (t, rest), err')

/-- Success invariant of a production: from any cursor that is a suffix of
the full token list, a successful parse leaves a suffix of its cursor, the
node's span runs from the cursor's position to the leftover's position,
and every node of the tree satisfies the (weakened) span invariant. -/
def RunOk (toks : List Token) (f : PFn) : Prop :=
  ∀ cur err t rest err', cur <:+ toks → f cur err = some (some (t, rest), err') →
    rest <:+ cur ∧ t.start = startOf toks cur ∧ t.stop = startOf toks rest ∧
    allOkT t = true

/-- Shape of a finished child list: either the strong chain invariant up
to the leftover position, or a trailing token beginning exactly at the
leftover position (rolled-back operator or end-of-input fallback). -/
def FitOut (toks : List Token) (lo : Nat) (items : List Item) (rest : List Token) : Prop :=
  segFit lo (startOf toks rest) items ∨
  ∃ pre tk, items = pre ++ [Item.tok tk] ∧ segFit lo tk.start pre ∧
    tk.start = startOf toks rest

/-- Source text `1 + ;` (code units), the counterexample input for the
strict span claim. -/
def srcTermC1 : List Nat := [49, 32, 43, 32, 59]

/-- The tokens of `1 + ;`. -/
def toksTermC1 : List Token :=
  [⟨.IntLiteral, [49], 0, 1⟩, ⟨.PlusOperator, [43], 2, 3⟩,
   ⟨.SemicolonPunctuator, [59], 4, 5⟩]

/-- Observer for the C1 counterexample: run `parseTermExpression` on a
token list and report the spec-exact invariant check `claimOkT` and the
weakened invariant check `allOkT` of the resulting tree. -/
def termSpanProbe (toks : List Token) : Option (Bool × Bool) :=
  match run toks 25 .termExpression toks none with
  | some (some (t, _), _) => some (claimOkT t, allOkT t)
  | _ => none

/-! Applied one-step unfolding equations for `run`, one per production;
each holds by `rfl` and is used to reason about a single production
without expanding the whole interpreter. -/

theorem run_body_eq (toks : List Token) (f : Nat) (cur : List Token) (err : Slot) :
    run toks (f + 1) .body cur err =
      match stmtLoop (run toks f .statement) (cur.length + 1) [] cur err with
      | none => none
      | some (items, rest, e1) =>
          some (some (mkTree toks .Body items cur rest, rest), e1) := rfl

theorem run_statement_eq (toks : List Token) (f : Nat) (cur : List Token) (err : Slot) :
    run toks (f + 1) .statement cur err =
      match firstAlt
          [run toks f .labeledStatement, run toks f .fieldStatement,
           run toks f .expressionStatement, run toks f .defStatement,
           run toks f .ifStatement, run toks f .whileStatement,
           run toks f .matchStatement, run toks f .doStatement,
           run toks f .forStatement, run toks f .returnStatement,
           run toks f .continueStatement, run toks f .breakStatement,
           run toks f .blockStatement, run toks f .emptyStatement] cur err with
      | none => none
      | some (none, e1) => pthrow toks "Expected statement" cur e1
      | some (some (st, c1), e1) =>
          some (some (mkTree toks .Statement [.sub st] cur c1, c1), e1) := rfl

theorem run_labeledStatement_eq (toks : List Token) (f : Nat) (cur : List Token) (err : Slot) :
    run toks (f + 1) .labeledStatement cur err =
      match consumeT .Identifier cur with
      | none => pthrow toks "Expected labeled statement" cur err
      | some (idt, c1) =>
      match consumeT .ColonPunctuator c1 with
      | none => pthrow toks "Expected \x22:\x22 after label" c1 err
      | some (_, c2) =>
      match run toks f .statement c2 err with
      | none => none
      | some (none, e1) => pthrow toks "Expected statement" c2 e1
      | some (some (st, c3), e1) =>
          some (some (mkTree toks .LabeledStatement [.tok idt, .sub st] cur c3, c3), e1) := rfl

theorem run_blockStatement_eq (toks : List Token) (f : Nat) (cur : List Token) (err : Slot) :
    run toks (f + 1) .blockStatement cur err =
      match consumeT .OpenBrace cur with
      | none => pthrow toks "Expected block statement" cur err
      | some (_, c1) =>
      match stmtLoop (run toks f .statement) (c1.length + 1) [] c1 err with
      | none => none
      | some (items, c2, e1) =>
      match consumeT .CloseBrace c2 with
      | none => pthrow toks "Unterminated block statement" c2 e1
      | some (_, c3) =>
          some (some (mkTree toks .BlockStatement items cur c3, c3), e1) := rfl

theorem run_ifStatement_eq (toks : List Token) (f : Nat) (cur : List Token) (err : Slot) :
    run toks (f + 1) .ifStatement cur err =
      match consumeT .IfKeyword cur with
      | none => pthrow toks "Expected if statement" cur err
      | some (_, c1) =>
      match consumeT .OpenParenthesis c1 with
      | none => pthrow toks "Expected if condition" c1 err
      | some (_, c2) =>
      match run toks f .expressionSequence c2 err with
      | none => none
      | some (none, e1) => pthrow toks "Expected expression sequence" c2 e1
      | some (some (cond, c3), e1) =>
      match consumeT .CloseParenthesis c3 with
      | none => pthrow toks "Unterminated if condition" c3 e1
      | some (_, c4) =>
      match run toks f .statement c4 e1 with
      | none => none
      | some (none, e2) => pthrow toks "Expected statement" c4 e2
      | some (some (st, c5), e2) =>
      match consumeT .ElseKeyword c5 with
      | none =>
          some (some (mkTree toks .IfStatement [.sub cond, .sub st] cur c5, c5), e2)
      | some (_, c6) =>
      match run toks f .statement c6 e2 with
      | none => none
      | some (none, e3) => pthrow toks "Expected statement" c6 e3
      | some (some (st2, c7), e3) =>
          some (some (mkTree toks .IfStatement [.sub cond, .sub st, .sub st2] cur c7, c7), e3) := rfl

theorem run_whileStatement_eq (toks : List Token) (f : Nat) (cur : List Token) (err : Slot) :
    run toks (f + 1) .whileStatement cur err =
      match consumeT .WhileKeyword cur with
      | none => pthrow toks "Expected while statement" cur err
      | some (_, c1) =>
      match consumeT .OpenParenthesis c1 with
      | none => pthrow toks "Expected while condition" c1 err
      | some (_, c2) =>
      match run toks f .expressionSequence c2 err with
      | none => none
      | some (none, e1) => pthrow toks "Expected expression sequence" c2 e1
      | some (some (cond, c3), e1) =>
      match consumeT .CloseParenthesis c3 with
      | none => pthrow toks "Unterminated while condition" c3 e1
      | some (_, c4) =>
      match run toks f .statement c4 e1 with
      | none => none
      | some (none, e2) => pthrow toks "Expected statement" c4 e2
      | some (some (st, c5), e2) =>
          some (some (mkTree toks .WhileStatement [.sub cond, .sub st] cur c5, c5), e2) := rfl

theorem run_matchStatement_eq (toks : List Token) (f : Nat) (cur : List Token) (err : Slot) :
    run toks (f + 1) .matchStatement cur err =
      match consumeT .MatchKeyword cur with
      | none => pthrow toks "Expected match statement" cur err
      | some (_, c1) =>
      match consumeT .OpenParenthesis c1 with
      | none => pthrow toks "Expected match value" c1 err
      | some (_, c2) =>
      match run toks f .expressionSequence c2 err with
      | none => none
      | some (none, e1) => pthrow toks "Expected expression sequence" c2 e1
      | some (some (value, c3), e1) =>
      match consumeT .CloseParenthesis c3 with
      | none => pthrow toks "Unterminated match value" c3 e1
      | some (_, c4) =>
      match consumeT .OpenBrace c4 with
      | none => pthrow toks "Expected match body" c4 e1
      | some (_, c5) =>
      match matchOptLoop (run toks f .matchOption) (c5.length + 1)
          false [Item.sub value] c5 e1 with
      | none => none
      | some (b, items2, c6, e2) =>
      match run toks f .body c6 e2 with
      | none => none
      | some (fbRes, e3) =>
      match fbRes with
      | some (fb, c7) =>
        (match consumeT .CloseBrace c7 with
         | none => pthrow toks "Unterminated match body" c7 e3
         | some (_, c8) =>
             some (some (mkTree toks .MatchStatement (items2 ++ [.sub fb]) cur c8, c8), e3))
      | none =>
        if b then
          match consumeT .CloseBrace c6 with
          | none => pthrow toks "Unterminated match body" c6 e3
          | some (_, c8) =>
              some (some (mkTree toks .MatchStatement items2 cur c8, c8), e3)
        else pthrow toks "Expected match options or fallback" c6 e3 := rfl

theorem run_matchOption_eq (toks : List Token) (f : Nat) (cur : List Token) (err : Slot) :
    run toks (f + 1) .matchOption cur err =
      match run toks f .assignmentExpression cur err with
      | none => none
      | some (none, e1) => pthrow toks "Expected match option" cur e1
      | some (some (expr, c1), e1) =>
      match consumeT .ArrowOperator c1 with
      | none => pthrow toks "Expected \x22=>\x22" c1 e1
      | some (_, c2) =>
      match run toks f .statement c2 e1 with
      | none => none
      | some (none, e2) => pthrow toks "Expected match option body" c2 e2
      | some (some (st, c3), e2) =>
          some (some (mkTree toks .MatchOption [.sub expr, .sub st] cur c3, c3), e2) := rfl

theorem run_defStatement_eq (toks : List Token) (f : Nat) (cur : List Token) (err : Slot) :
    run toks (f + 1) .defStatement cur err =
      match consumeT .DefKeyword cur with
      | none => pthrow toks "Expected def statement" cur err
      | some (_, c1) =>
      match consumeT .Identifier c1 with
      | none => pthrow toks "Expected identifier" c1 err
      | some (idt, c2) =>
      match run toks f .parameters c2 err with
      | none => none
      | some (none, e1) => pthrow toks "Expected parameters" c2 e1
      | some (some (ps, c3), e1) =>
      match consumeT .ColonPunctuator c3 with
      | some (_, c4) =>
        (match run toks f .unaryType c4 e1 with
         | none => none
         | some (none, e2) => pthrow toks "Expected type" c4 e2
         | some (some (ty, c5), e2) =>
           match firstAlt [run toks f .blockStatement, run toks f .emptyStatement] c5 e2 with
           | none => none
           | some (none, e3) => pthrow toks "Expected def body" c5 e3
           | some (some (st, c6), e3) =>
               some (some (mkTree toks .DefStatement
                 [.tok idt, .sub ps, .sub ty, .sub st] cur c6, c6), e3))
      | none =>
      match firstAlt [run toks f .blockStatement, run toks f .emptyStatement] c3 e1 with
      | none => none
      | some (none, e3) => pthrow toks "Expected def body" c3 e3
      | some (some (st, c6), e3) =>
          some (some (mkTree toks .DefStatement [.tok idt, .sub ps, .sub st] cur c6, c6), e3) := rfl

theorem run_parameters_eq (toks : List Token) (f : Nat) (cur : List Token) (err : Slot) :
    run toks (f + 1) .parameters cur err =
      match consumeT .OpenParenthesis cur with
      | none => pthrow toks "Expected parameters" cur err
      | some (_, c1) =>
      match commaLoop toks (run toks f .parameter) "Expected parameter"
          (c1.length + 1) [] c1 err with
      | none => none
      | some (none, e1) => some (none, e1)
      | some (some (items, c2), e1) =>
      match consumeT .CloseParenthesis c2 with
      | none => pthrow toks "Unterminated parameters" c2 e1
      | some (_, c3) =>
          some (some (mkTree toks .Parameters items cur c3, c3), e1) := rfl

theorem run_parameter_eq (toks : List Token) (f : Nat) (cur : List Token) (err : Slot) :
    run toks (f + 1) .parameter cur err =
      match consumeAny [.Identifier, .InclusiveRangeOperator] cur with
      | none => pthrow toks "Expected parameter" cur err
      | some (it, c1) =>
      if it.type = .Identifier then
        match consumeT .ColonPunctuator c1 with
        | none => pthrow toks "Expected \x22:\x22 after parameter name" c1 err
        | some (_, c2) =>
        match run toks f .unaryType c2 err with
        | none => none
        | some (none, e1) => pthrow toks "Expected type" c2 e1
        | some (some (ty, c3), e1) =>
            some (some (mkTree toks .Parameter [.tok it, .sub ty] cur c3, c3), e1)
      else some (some (mkTree toks .Parameter [.tok it] cur c1, c1), err) := rfl

theorem run_doStatement_eq (toks : List Token) (f : Nat) (cur : List Token) (err : Slot) :
    run toks (f + 1) .doStatement cur err =
      match consumeT .DoKeyword cur with
      | none => pthrow toks "Expected do statement" cur err
      | some (_, c1) =>
      match run toks f .statement c1 err with
      | none => none
      | some (none, e1) => pthrow toks "Expected statement" c1 e1
      | some (some (st, c2), e1) =>
      match consumeT .WhileKeyword c2 with
      | none => pthrow toks "Expected while clause" c2 e1
      | some (_, c3) =>
      match consumeT .OpenParenthesis c3 with
      | none => pthrow toks "Expected do condition" c3 e1
      | some (_, c4) =>
      match run toks f .expressionSequence c4 e1 with
      | none => none
      | some (none, e2) => pthrow toks "Expected expression sequence" c4 e2
      | some (some (cond, c5), e2) =>
      match consumeT .CloseParenthesis c5 with
      | none => pthrow toks "Unterminated while condition" c5 e2
      | some (_, c6) =>
          some (some (mkTree toks .DoStatement [.sub st, .sub cond] cur c6, c6), e2) := rfl

theorem run_forStatement_eq (toks : List Token) (f : Nat) (cur : List Token) (err : Slot) :
    run toks (f + 1) .forStatement cur err =
      match consumeT .ForKeyword cur with
      | none => pthrow toks "Expected for statement" cur err
      | some (_, c1) =>
      match consumeT .OpenParenthesis c1 with
      | none => pthrow toks "Expected for iterator" c1 err
      | some (_, c2) =>
      match consumeT .Identifier c2 with
      | none => pthrow toks "Expected identifier" c2 err
      | some (idt, c3) =>
      match consumeT .InKeyword c3 with
      | none => pthrow toks "Expected in clause" c3 err
      | some (_, c4) =>
      match run toks f .assignmentExpression c4 err with
      | none => none
      | some (none, e1) => pthrow toks "Expected iterator expression" c4 e1
      | some (some (ex, c5), e1) =>
      match consumeT .CloseParenthesis c5 with
      | none => pthrow toks "Unterminated for iterator" c5 e1
      | some (_, c6) =>
      match run toks f .statement c6 e1 with
      | none => none
      | some (none, e2) => pthrow toks "Expected statement" c6 e2
      | some (some (st, c7), e2) =>
          some (some (mkTree toks .ForStatement [.tok idt, .sub ex, .sub st] cur c7, c7), e2) := rfl

theorem run_returnStatement_eq (toks : List Token) (f : Nat) (cur : List Token) (err : Slot) :
    run toks (f + 1) .returnStatement cur err =
      match consumeT .ReturnKeyword cur with
      | none => pthrow toks "Expected return statement" cur err
      | some (_, c1) =>
      match run toks f .expressionSequence c1 err with
      | none => none
      | some (vOpt, e1) =>
      match vOpt with
      | some (v, c2) =>
        (match consumeT .SemicolonPunctuator c2 with
         | none => pthrow toks "Expected semicolon" c2 e1
         | some (_, c3) =>
             some (some (mkTree toks .ReturnStatement [.sub v] cur c3, c3), e1))
      | none =>
      match consumeT .SemicolonPunctuator c1 with
      | none => pthrow toks "Expected semicolon" c1 e1
      | some (_, c3) =>
          some (some (mkTree toks .ReturnStatement [] cur c3, c3), e1) := rfl

theorem run_continueStatement_eq (toks : List Token) (f : Nat) (cur : List Token) (err : Slot) :
    run toks (f + 1) .continueStatement cur err =
      match consumeT .ContinueKeyword cur with
      | none => pthrow toks "Expected continue statement" cur err
      | some (_, c1) =>
      match consumeT .Identifier c1 with
      | some (idt, c2) =>
        (match consumeT .SemicolonPunctuator c2 with
         | none => pthrow toks "Expected semicolon" c2 err
         | some (_, c3) =>
             some (some (mkTree toks .ContinueStatement [.tok idt] cur c3, c3), err))
      | none =>
      match consumeT .SemicolonPunctuator c1 with
      | none => pthrow toks "Expected semicolon" c1 err
      | some (_, c3) =>
          some (some (mkTree toks .ContinueStatement [] cur c3, c3), err) := rfl

theorem run_breakStatement_eq (toks : List Token) (f : Nat) (cur : List Token) (err : Slot) :
    run toks (f + 1) .breakStatement cur err =
      match consumeT .BreakKeyword cur with
      | none => pthrow toks "Expected break statement" cur err
      | some (_, c1) =>
      match consumeT .Identifier c1 with
      | some (idt, c2) =>
        (match consumeT .SemicolonPunctuator c2 with
         | none => pthrow toks "Expected semicolon" c2 err
         | some (_, c3) =>
             some (some (mkTree toks .BreakStatement [.tok idt] cur c3, c3), err))
      | none =>
      match consumeT .SemicolonPunctuator c1 with
      | none => pthrow toks "Expected semicolon" c1 err
      | some (_, c3) =>
          some (some (mkTree toks .BreakStatement [] cur c3, c3), err) := rfl

theorem run_emptyStatement_eq (toks : List Token) (f : Nat) (cur : List Token) (err : Slot) :
    run toks (f + 1) .emptyStatement cur err =
      match consumeT .SemicolonPunctuator cur with
      | none => pthrow toks "Expected semicolon" cur err
      | some (_, c1) =>
          some (some (mkTree toks .EmptyStatement [] cur c1, c1), err) := rfl

theorem run_expressionStatement_eq (toks : List Token) (f : Nat) (cur : List Token) (err : Slot) :
    run toks (f + 1) .expressionStatement cur err =
      match run toks f .expressionSequence cur err with
      | none => none
      | some (none, e1) => pthrow toks "Expected expression sequence" cur e1
      | some (some (sq, c1), e1) =>
      match consumeT .SemicolonPunctuator c1 with
      | none => pthrow toks "Expected semicolon" c1 e1
      | some (_, c2) =>
          some (some (mkTree toks .ExpressionStatement [.sub sq] cur c2, c2), e1) := rfl

theorem run_fieldStatement_eq (toks : List Token) (f : Nat) (cur : List Token) (err : Slot) :
    run toks (f + 1) .fieldStatement cur err =
      match consumeAny [.ValKeyword, .VarKeyword] cur with
      | none => pthrow toks "Expected field statement" cur err
      | some (kw, c1) =>
      match consumeT .Identifier c1 with
      | none => pthrow toks "Expected field name " c1 err
      | some (idt, c2) =>
      match consumeT .ColonPunctuator c2 with
      | some (_, c3) =>
        (match run toks f .unionType c3 err with
         | none => none
         | some (none, e1) => pthrow toks "Expected field type" c3 e1
         | some (some (ty, c4), e1) =>
           match consumeT .AssignOperator c4 with
           | some (_, c5) =>
             (match run toks f .assignmentExpression c5 e1 with
              | none => none
              | some (none, e2) => pthrow toks "Expected expression" c5 e2
              | some (some (ex, c6), e2) =>
                match consumeT .SemicolonPunctuator c6 with
                | none => pthrow toks "Expected semicolon" c6 e2
                | some (_, c7) =>
                    some (some (mkTree toks .FieldStatement
                      [.tok kw, .tok idt, .sub ty, .sub ex] cur c7, c7), e2))
           | none =>
             match consumeT .SemicolonPunctuator c4 with
             | none => pthrow toks "Expected semicolon" c4 e1
             | some (_, c7) =>
                 some (some (mkTree toks .FieldStatement
                   [.tok kw, .tok idt, .sub ty] cur c7, c7), e1))
      | none =>
      match consumeT .AssignOperator c2 with
      | some (_, c5) =>
        (match run toks f .assignmentExpression c5 err with
         | none => none
         | some (none, e2) => pthrow toks "Expected expression" c5 e2
         | some (some (ex, c6), e2) =>
           match consumeT .SemicolonPunctuator c6 with
           | none => pthrow toks "Expected semicolon" c6 e2
           | some (_, c7) =>
               some (some (mkTree toks .FieldStatement
                 [.tok kw, .tok idt, .sub ex] cur c7, c7), e2))
      | none =>
      match consumeT .SemicolonPunctuator c2 with
      | none => pthrow toks "Expected semicolon" c2 err
      | some (_, c7) =>
          some (some (mkTree toks .FieldStatement [.tok kw, .tok idt] cur c7, c7), err) := rfl

theorem run_unionType_eq (toks : List Token) (f : Nat) (cur : List Token) (err : Slot) :
    run toks (f + 1) .unionType cur err =
      tierStep toks .UnionType "Expected union type" [.OrOperator] .opNone
        (run toks f .intersectionType) (fun _ => run toks f .intersectionType) cur err := rfl

theorem run_intersectionType_eq (toks : List Token) (f : Nat) (cur : List Token) (err : Slot) :
    run toks (f + 1) .intersectionType cur err =
      tierStep toks .IntersectionType "Expected intersection type" [.AndOperator] .opNone
        (run toks f .unaryType) (fun _ => run toks f .unaryType) cur err := rfl

theorem run_unaryType_eq (toks : List Token) (f : Nat) (cur : List Token) (err : Slot) :
    run toks (f + 1) .unaryType cur err =
      match consumeAny [.Identifier, .IntegerType, .UnsignedIntegerType,
          .FloatType, .BooleanType, .StringType, .VoidType] cur with
      | none => pthrow toks "Expected type or identifier" cur err
      | some (base, c1) =>
      match utLoop (run toks f .genericType) (run toks f .arrayType)
          (c1.length + 1) [Item.tok base] c1 err with
      | none => none
      | some (items, rest, e1) =>
          some (some (mkTree toks .UnaryType items cur rest, rest), e1) := rfl

theorem run_arrayType_eq (toks : List Token) (f : Nat) (cur : List Token) (err : Slot) :
    run toks (f + 1) .arrayType cur err =
      match consumeT .OpenBracket cur with
      | none => pthrow toks "Expected array type modifier" cur err
      | some (_, c1) =>
      match consumeT .CloseBracket c1 with
      | none => pthrow toks "Unterminated array type modifier" c1 err
      | some (_, c2) =>
          some (some (mkTree toks .ArrayType [] cur c2, c2), err) := rfl

theorem run_genericType_eq (toks : List Token) (f : Nat) (cur : List Token) (err : Slot) :
    run toks (f + 1) .genericType cur err =
      match consumeT .LessThanOperator cur with
      | none => pthrow toks "Expected generic type arguments" cur err
      | some (_, c1) =>
      match run toks f .unionType c1 err with
      | none => none
      | some (none, e1) => pthrow toks "Expected generic type argument" c1 e1
      | some (some (lhs, c2), e1) =>
      match tierLoop [.CommaPunctuator] .opNone (fun _ => run toks f .unionType)
          (c2.length + 1) [Item.sub lhs] c2 e1 with
      | none => none
      | some (items, c3, e2) =>
      match consumeT .GreaterThanOperator c3 with
      | none => pthrow toks "Unterminated generic type arguments" c3 e2
      | some (_, c4) =>
          some (some (mkTree toks .GenericType items cur c4, c4), e2) := rfl

theorem run_expressionSequence_eq (toks : List Token) (f : Nat) (cur : List Token) (err : Slot) :
    run toks (f + 1) .expressionSequence cur err =
      tierStep toks .ExpressionSequence "Expected expression sequence"
        [.CommaPunctuator] .opNone
        (run toks f .assignmentExpression) (fun _ => run toks f .assignmentExpression) cur err := rfl

theorem run_assignmentExpression_eq (toks : List Token) (f : Nat) (cur : List Token) (err : Slot) :
    run toks (f + 1) .assignmentExpression cur err =
      match run toks f .ternaryExpression cur err with
      | none => none
      | some (none, e1) => pthrow toks "Expected assignment expression" cur e1
      | some (some (lhs, c1), e1) =>
      match consumeAny assignOps c1 with
      | none =>
          some (some (mkTree toks .AssignmentExpression [.sub lhs] cur c1, c1), e1)
      | some (op, c2) =>
      match run toks f .ternaryExpression c2 e1 with
      | none => none
      | some (none, e2) =>
          some (some (mkTree toks .AssignmentExpression [.sub lhs] cur c1, c1), e2)
      | some (some (r, c3), e2) =>
          some (some (mkTree toks .AssignmentExpression
            [.sub lhs, .tok op, .sub r] cur c3, c3), e2) := rfl

theorem run_ternaryExpression_eq (toks : List Token) (f : Nat) (cur : List Token) (err : Slot) :
    run toks (f + 1) .ternaryExpression cur err =
      match run toks f .coalesceExpression cur err with
      | none => none
      | some (none, e1) => pthrow toks "Expected ternary expression" cur e1
      | some (some (cond, c1), e1) =>
      match consumeT .OptionalOperator c1 with
      | none =>
          some (some (mkTree toks .TernaryExpression [.sub cond] cur c1, c1), e1)
      | some (_, c2) =>
      match run toks f .assignmentExpression c2 e1 with
      | none => none
      | some (none, e2) =>
          some (some (mkTree toks .TernaryExpression [.sub cond] cur c1, c1), e2)
      | some (some (l, c3), e2) =>
      match consumeT .ColonPunctuator c3 with
      | none =>
          some (some (mkTree toks .TernaryExpression [.sub cond] cur c1, c1), e2)
      | some (_, c4) =>
      match run toks f .assignmentExpression c4 e2 with
      | none => none
      | some (none, e3) =>
          some (some (mkTree toks .TernaryExpression [.sub cond] cur c1, c1), e3)
      | some (some (r, c5), e3) =>
          some (some (mkTree toks .TernaryExpression
            [.sub cond, .sub l, .sub r] cur c5, c5), e3) := rfl

theorem run_coalesceExpression_eq (toks : List Token) (f : Nat) (cur : List Token) (err : Slot) :
    run toks (f + 1) .coalesceExpression cur err =
      tierStep toks .CoalesceExpression "Expected coalesce expression"
        [.CoalesceOperator] .opNone
        (run toks f .logicalOrExpression) (fun _ => run toks f .logicalOrExpression) cur err := rfl

theorem run_logicalOrExpression_eq (toks : List Token) (f : Nat) (cur : List Token) (err : Slot) :
    run toks (f + 1) .logicalOrExpression cur err =
      tierStep toks .LogicalOrExpression "Expected logical or expression"
        [.OrKeyword] .opNone
        (run toks f .logicalAndExpression) (fun _ => run toks f .logicalAndExpression) cur err := rfl

theorem run_logicalAndExpression_eq (toks : List Token) (f : Nat) (cur : List Token) (err : Slot) :
    run toks (f + 1) .logicalAndExpression cur err =
      tierStep toks .LogicalAndExpression "Expected logical and expression"
        [.AndKeyword] .opNone
        (run toks f .bitwiseOrExpression) (fun _ => run toks f .bitwiseOrExpression) cur err := rfl

theorem run_bitwiseOrExpression_eq (toks : List Token) (f : Nat) (cur : List Token) (err : Slot) :
    run toks (f + 1) .bitwiseOrExpression cur err =
      tierStep toks .BitwiseOrExpression "Expected bitwise or expression"
        [.OrOperator] .opNone
        (run toks f .bitwiseXorExpression) (fun _ => run toks f .bitwiseXorExpression) cur err := rfl

theorem run_bitwiseXorExpression_eq (toks : List Token) (f : Nat) (cur : List Token) (err : Slot) :
    run toks (f + 1) .bitwiseXorExpression cur err =
      tierStep toks .BitwiseXorExpression "Expected bitwise xor expression"
        [.XorOperator] .opNone
        (run toks f .bitwiseAndExpression) (fun _ => run toks f .bitwiseAndExpression) cur err := rfl

theorem run_bitwiseAndExpression_eq (toks : List Token) (f : Nat) (cur : List Token) (err : Slot) :
    run toks (f + 1) .bitwiseAndExpression cur err =
      tierStep toks .BitwiseAndExpression "Expected bitwise and expression"
        [.AndOperator] .opNone
        (run toks f .equalityExpression) (fun _ => run toks f .equalityExpression) cur err := rfl

theorem run_equalityExpression_eq (toks : List Token) (f : Nat) (cur : List Token) (err : Slot) :
    run toks (f + 1) .equalityExpression cur err =
      tierStep toks .EqualityExpression "Expected equality expression"
        [.EqualOperator, .NotEqualOperator] .opLate
        (run toks f .comparisonExpression) (fun _ => run toks f .comparisonExpression) cur err := rfl

theorem run_comparisonExpression_eq (toks : List Token) (f : Nat) (cur : List Token) (err : Slot) :
    run toks (f + 1) .comparisonExpression cur err =
      tierStep toks .ComparisonExpression "Expected comparison expression"
        comparisonOps .opLate
        (run toks f .shiftExpression)
        (fun op =>
          if op.type = .AsKeyword ∨ op.type = .IsKeyword then
            run toks f .unaryType
          else run toks f .shiftExpression) cur err := rfl

theorem run_shiftExpression_eq (toks : List Token) (f : Nat) (cur : List Token) (err : Slot) :
    run toks (f + 1) .shiftExpression cur err =
      tierStep toks .ShiftExpression "Expected shift expression"
        [.LeftShiftOperator, .RightShiftOperator, .UnsignedRightShiftOperator] .opLate
        (run toks f .termExpression) (fun _ => run toks f .termExpression) cur err := rfl

theorem run_termExpression_eq (toks : List Token) (f : Nat) (cur : List Token) (err : Slot) :
    run toks (f + 1) .termExpression cur err =
      tierStep toks .TermExpression "Expected term expression"
        [.PlusOperator, .MinusOperator] .opEarly
        (run toks f .factorExpression) (fun _ => run toks f .factorExpression) cur err := rfl

theorem run_factorExpression_eq (toks : List Token) (f : Nat) (cur : List Token) (err : Slot) :
    run toks (f + 1) .factorExpression cur err =
      tierStep toks .FactorExpression "Expected factor expression"
        [.TimesOperator, .DivideOperator, .ModuloOperator] .opLate
        (run toks f .rangeExpression) (fun _ => run toks f .rangeExpression) cur err := rfl

theorem run_rangeExpression_eq (toks : List Token) (f : Nat) (cur : List Token) (err : Slot) :
    run toks (f + 1) .rangeExpression cur err =
      match run toks f .unaryExpression cur err with
      | none => none
      | some (lhsRes, e1) =>
      match lhsRes with
      | some (l, c1) =>
        (match consumeAny [.InclusiveRangeOperator, .ExclusiveRangeOperator] c1 with
         | none =>
             some (some (mkTree toks .RangeExpression [.sub l] cur c1, c1), e1)
         | some (op, c2) =>
           match run toks f .unaryExpression c2 e1 with
           | none => none
           | some (none, e2) =>
               some (some (mkTree toks .RangeExpression [.sub l, .tok op] cur c2, c2), e2)
           | some (some (r, c3), e2) =>
               some (some (mkTree toks .RangeExpression
                 [.sub l, .tok op, .sub r] cur c3, c3), e2))
      | none =>
      match consumeAny [.InclusiveRangeOperator, .ExclusiveRangeOperator] cur with
      | none => pthrow toks "Expected range expression" cur e1
      | some (op, c2) =>
      match run toks f .unaryExpression c2 e1 with
      | none => none
      | some (none, e2) => pthrow toks "Expected range expression" c2 e2
      | some (some (r, c3), e2) =>
          some (some (mkTree toks .RangeExpression [.tok op, .sub r] cur c3, c3), e2) := rfl

theorem run_unaryExpression_eq (toks : List Token) (f : Nat) (cur : List Token) (err : Slot) :
    run toks (f + 1) .unaryExpression cur err =
      match uopsLoop [.NotKeyword, .NotOperator, .PlusOperator, .MinusOperator,
          .TimesOperator, .AndOperator] cur with
      | (ops, c1) =>
      match run toks f .referenceExpression c1 err with
      | none => none
      | some (none, e1) => pthrow toks "Expected expression" c1 e1
      | some (some (r, c2), e1) =>
          some (some (mkTree toks .UnaryExpression (ops ++ [.sub r]) cur c2, c2), e1) := rfl

theorem run_referenceExpression_eq (toks : List Token) (f : Nat) (cur : List Token) (err : Slot) :
    run toks (f + 1) .referenceExpression cur err =
      match run toks f .literalValue cur err with
      | none => none
      | some (none, e1) => pthrow toks "Expected value" cur e1
      | some (some (lhs, c1), e1) =>
      match refLoop (run toks f .propertyAccess) (run toks f .optionalPropertyAccess)
          (run toks f .arrayIndex) (run toks f .methodCall)
          (c1.length + 1) [Item.sub lhs] c1 e1 with
      | none => none
      | some (items, rest, e2) =>
          some (some (mkTree toks .ReferenceExpression items cur rest, rest), e2) := rfl

theorem run_literalValue_eq (toks : List Token) (f : Nat) (cur : List Token) (err : Slot) :
    run toks (f + 1) .literalValue cur err =
      match run toks f .arrayInitializer cur err with
      | none => none
      | some (some (t, c1), e1) =>
          some (some (mkTree toks .LiteralValue [.sub t] cur c1, c1), e1)
      | some (none, e1) =>
      match consumeAny [.Identifier, .StringLiteral, .IntLiteral, .FloatLiteral,
          .BinaryLiteral, .OctalLiteral, .HexadecimalLiteral, .BoolLiteral,
          .NullKeyword, .ThisKeyword, .SuperKeyword] cur with
      | some (v, c1) =>
          some (some (mkTree toks .LiteralValue [.tok v] cur c1, c1), e1)
      | none =>
      match run toks f .cast cur e1 with
      | none => none
      | some (some (t, c1), e2) =>
          some (some (mkTree toks .LiteralValue [.sub t] cur c1, c1), e2)
      | some (none, e2) =>
      match consumeT .OpenParenthesis cur with
      | none => pthrow toks "Expected value" cur e2
      | some (_, c1) =>
      match run toks f .expressionSequence c1 e2 with
      | none => none
      | some (none, e3) => pthrow toks "Expected expression sequence" c1 e3
      | some (some (sq, c2), e3) =>
      match consumeT .CloseParenthesis c2 with
      | none => pthrow toks "Unterminated expression sequence" c2 e3
      | some (_, c3) =>
          some (some (mkTree toks .LiteralValue [.sub sq] cur c3, c3), e3) := rfl

theorem run_cast_eq (toks : List Token) (f : Nat) (cur : List Token) (err : Slot) :
    run toks (f + 1) .cast cur err =
      match consumeT .OpenParenthesis cur with
      | none => pthrow toks "Expected cast" cur err
      | some (_, c1) =>
      match run toks f .unaryType c1 err with
      | none => none
      | some (none, e1) => pthrow toks "Expected cast type" c1 e1
      | some (some (ty, c2), e1) =>
      match consumeT .CloseParenthesis c2 with
      | none => pthrow toks "Unterminated cast" c2 e1
      | some (_, c3) =>
      match run toks f .literalValue c3 e1 with
      | none => none
      | some (none, e2) => pthrow toks "Expected cast value" c3 e2
      | some (some (v, c4), e2) =>
          some (some (mkTree toks .TypeCast [.sub ty, .sub v] cur c4, c4), e2) := rfl

theorem run_propertyAccess_eq (toks : List Token) (f : Nat) (cur : List Token) (err : Slot) :
    run toks (f + 1) .propertyAccess cur err =
      match consumeT .AccessOperator cur with
      | none => pthrow toks "Expected member access" cur err
      | some (_, c1) =>
      match consumeT .Identifier c1 with
      | none => pthrow toks "Expected identifier" c1 err
      | some (idt, c2) =>
          some (some (mkTree toks .PropertyAccess [.tok idt] cur c2, c2), err) := rfl

theorem run_optionalPropertyAccess_eq (toks : List Token) (f : Nat) (cur : List Token) (err : Slot) :
    run toks (f + 1) .optionalPropertyAccess cur err =
      match consumeT .OptionalAccessOperator cur with
      | none => pthrow toks "Expected optional reference" cur err
      | some (_, c1) =>
      match consumeT .Identifier c1 with
      | some (idt, c2) =>
          some (some (mkTree toks .OptionalPropertyAccess [.tok idt] cur c2, c2), err)
      | none =>
      match run toks f .arrayIndex c1 err with
      | none => none
      | some (some (t, c2), e1) =>
          some (some (mkTree toks .OptionalPropertyAccess [.sub t] cur c2, c2), e1)
      | some (none, e1) =>
      match run toks f .methodCall c1 e1 with
      | none => none
      | some (some (t, c2), e2) =>
          some (some (mkTree toks .OptionalPropertyAccess [.sub t] cur c2, c2), e2)
      | some (none, e2) => pthrow toks "Expected reference" c1 e2 := rfl

theorem run_arrayIndex_eq (toks : List Token) (f : Nat) (cur : List Token) (err : Slot) :
    run toks (f + 1) .arrayIndex cur err =
      match consumeT .OpenBracket cur with
      | none => pthrow toks "Expected array index" cur err
      | some (_, c1) =>
      match run toks f .expressionSequence c1 err with
      | none => none
      | some (none, e1) => pthrow toks "Expected expression sequence" c1 e1
      | some (some (sq, c2), e1) =>
      match consumeT .CloseBracket c2 with
      | none => pthrow toks "Unterminated array index" c2 e1
      | some (_, c3) =>
          some (some (mkTree toks .ArrayIndex [.sub sq] cur c3, c3), e1) := rfl

theorem run_methodCall_eq (toks : List Token) (f : Nat) (cur : List Token) (err : Slot) :
    run toks (f + 1) .methodCall cur err =
      match consumeT .OpenParenthesis cur with
      | none => pthrow toks "Expected call" cur err
      | some (_, c1) =>
      match commaLoop toks (run toks f .methodCallArgument) "Expected call argument"
          (c1.length + 1) [] c1 err with
      | none => none
      | some (none, e1) => some (none, e1)
      | some (some (items, c2), e1) =>
      match consumeT .CloseParenthesis c2 with
      | none => pthrow toks "Unterminated call" c2 e1
      | some (_, c3) =>
          some (some (mkTree toks .MethodCall items cur c3, c3), e1) := rfl

theorem run_arrayInitializer_eq (toks : List Token) (f : Nat) (cur : List Token) (err : Slot) :
    run toks (f + 1) .arrayInitializer cur err =
      match consumeT .OpenBracket cur with
      | none => pthrow toks "Expected array initializer" cur err
      | some (_, c1) =>
      match commaLoop toks (run toks f .arrayValue) "Expected array value"
          (c1.length + 1) [] c1 err with
      | none => none
      | some (none, e1) => some (none, e1)
      | some (some (items, c2), e1) =>
      match consumeT .CloseBracket c2 with
      | none => pthrow toks "Unterminated array initializer" c2 e1
      | some (_, c3) =>
          some (some (mkTree toks .ArrayInitializer items cur c3, c3), e1) := rfl

theorem run_arrayValue_eq (toks : List Token) (f : Nat) (cur : List Token) (err : Slot) :
    run toks (f + 1) .arrayValue cur err =
      match run toks f .assignmentExpression cur err with
      | none => none
      | some (none, e1) => pthrow toks "Expected expression" cur e1
      | some (some (a, c1), e1) =>
          some (some (mkTree toks .ArrayValue [.sub a] cur c1, c1), e1) := rfl

theorem run_methodCallArgument_eq (toks : List Token) (f : Nat) (cur : List Token) (err : Slot) :
    run toks (f + 1) .methodCallArgument cur err =
      match run toks f .assignmentExpression cur err with
      | none => none
      | some (none, e1) => pthrow toks "Expected expression" cur e1
      | some (some (a, c1), e1) =>
          some (some (mkTree toks .MethodCallArgument [.sub a] cur c1, c1), e1) := rfl
end Rue

namespace Rue

/-! Shared helper lemmas about the parser's structure. -/

/-- `parseBody` never fails: whenever it returns within fuel, it returns a
tree (its loop simply stops at the first statement failure). -/
theorem parseBody_yields (toks : List Token) (fuel : Nat) (cur : List Token) (err : Slot)
    (r : Option (Tree × List Token) × Slot) (h : run toks fuel .body cur err = some r) :
    ∃ t rest, r.1 = some (t, rest) := by
  cases fuel with
  | zero => simp [run] at h
  | succ f =>
    rw [run_body_eq] at h
    rcases hs : stmtLoop (run toks f .statement) (cur.length + 1) [] cur err with _ | ⟨items, rest, e1⟩
    · rw [hs] at h; cases h
    · rw [hs] at h
      cases h
      exact ⟨_, _, rfl⟩

/-- The `match` boolean of `parseMatchStatement` is never set to `true` by
its option loop: started at `false`, it comes out `false`. -/
theorem matchOptLoop_bool (sub : PFn) (fuel : Nat) (items : List Item)
    (cur : List Token) (err : Slot) (res : Bool × List Item × List Token × Slot)
    (h : matchOptLoop sub fuel false items cur err = some res) : res.1 = false := by
  induction fuel generalizing items cur err with
  | zero => simp [matchOptLoop] at h
  | succ f ih =>
    unfold matchOptLoop at h
    rcases hs : sub cur err with _ | ⟨o, e1⟩
    · rw [hs] at h; cases h
    · rw [hs] at h
      rcases o with _ | ⟨st, c1⟩
      · cases h; rfl
      · exact ih _ _ _ h

/-! Concrete sources and their token sequences, used by several claims. -/

/-- C2: lexing the braced escape for code point 0x1F600 succeeds, but the
decoded text is the single truncated UTF-16 unit 0xF600 = 62976
(`String.fromCharCode` coerces through `ToUint16`), so the decoded text
does not contain the code point 0x1F600 = 128512; the escape 0x110000
is correctly rejected as out of range.  This evaluates the code at the
claim's failing input. -/
theorem c2_unicode_escape_truncated :
    lex srcEmoji = some (.ok [⟨.StringLiteral, [62976], 0, 11⟩]) ∧
    utf16ContainsCp [62976] 128512 = false ∧
    toUint16 128512 = 62976 ∧
    lex srcTooBig = some (.error ⟨"Out of range unicode escape sequence", none, 0, 4⟩) := by
  refine ⟨by rfl, by decide, by decide, by rfl⟩

/-- C3 (counterexample): a braced unicode escape written entirely with
lowercase hex digits lexes successfully (to the code unit 255), because the
braced branch never case-checks its digits — the claim requires a
`LexerError` for every lowercase unicode escape. -/
theorem c3_counterexample :
    lex srcBraceLower = some (.ok [⟨.StringLiteral, [255], 0, 8⟩]) := by rfl

/-- C3 (amended): in the four-digit form, any escape whose next four
characters are not four uppercase hex digits (and which does not open a
brace) is rejected with the invalid-or-lowercase error; the braced form
performs no such check. -/
theorem c3_lowercase_four_digit_rejected (q fuel c1 c2 c3 c4 : Nat) (rest : List Nat)
    (hbrace : c1 ≠ 123) (hlow : upHex4 [c1, c2, c3, c4] = false) :
    scanStr q (fuel + 1) (92 :: 117 :: c1 :: c2 :: c3 :: c4 :: rest) =
      some (.failed "Invalid or lowercase unicode escape sequence" 2) := by
  have hes : escStep 117 (c1 :: c2 :: c3 :: c4 :: rest) =
      .fail "Invalid or lowercase unicode escape sequence" 0 := by
    unfold escStep
    norm_num
    split
    · next r2 r3 heq =>
        exact absurd (by injection heq) hbrace
    · next r2 hne =>
        rw [hlow]
        simp
  unfold scanStr
  dsimp only
  rw [if_pos rfl]
  rw [hes]

/-- C3 (witness): the amended statement applied to the lowercase escape
in the source of `srcFourLower`, together with the full pipeline result. -/
theorem c3_witness :
    scanStr 39 7 [92, 117, 48, 48, 102, 102, 39] =
      some (.failed "Invalid or lowercase unicode escape sequence" 2) ∧
    lex srcFourLower =
      some (.error ⟨"Invalid or lowercase unicode escape sequence", none, 0, 3⟩) :=
  ⟨c3_lowercase_four_digit_rejected 39 6 48 48 102 102 [39] (by decide) (by decide),
   by rfl⟩

/-- C4 (counterexample): on the tokens of `a = ;`, `parseBody` succeeds
leaving all three tokens unconsumed, yet `ast()` returns the stored
furthest error (`Expected ternary expression` at the semicolon), not the
`Unexpected token` diagnostic the claim requires, because the recorded
`Unexpected token` error at offset 0 loses against the stored error at
offset 4 under the furthest-error policy. -/
theorem c4_counterexample :
    lex srcC4 = some (.ok toksC4) ∧
    bodyRest toksC4 25 = some toksC4 ∧
    astErr (ast toksC4 25) = some ⟨"Expected ternary expression", none, 4, 5⟩ ∧
    "Expected ternary expression" ≠ "Unexpected token" := by
  refine ⟨by rfl, by decide, by decide, by decide⟩

/-- C4 (amended): when `parseBody` succeeds with a leftover token `u`, the
parser records an `Unexpected token` error for `u` through the
furthest-error slot; the returned error is that diagnostic (message
`Unexpected token`, content `u.text`, span `[u.start, u.stop)`) precisely
when the slot is empty or holds an error starting at or before `u.start` —
otherwise the stored further error is returned. -/
theorem c4_unexpected_token (toks : List Token) (fuel : Nat) (t : Tree) (u : Token)
    (urest : List Token) (e : Slot)
    (hrun : run toks fuel .body toks none = some (some (t, u :: urest), e))
    (hle : ∀ pe, e = some pe → pe.start ≤ u.start) :
    ast toks fuel = some (.error ⟨"Unexpected token", some u.text, u.start, u.stop⟩) := by
  unfold ast
  rw [hrun]
  cases e with
  | none => simp [updateErr]
  | some pe => simp [updateErr, hle pe rfl]

/-- C4 (witness): on the single token `a`, the stored error starts at 0, so
the `Unexpected token` diagnostic wins and is returned. -/
theorem c4_witness :
    ast [⟨.Identifier, [97], 0, 1⟩] 25 =
      some (.error ⟨"Unexpected token", some [97], 0, 1⟩) :=
  c4_unexpected_token [⟨.Identifier, [97], 0, 1⟩] 25 ⟨.Body, 0, 0, []⟩
    ⟨.Identifier, [97], 0, 1⟩ [] (some ⟨"Expected statement", none, 0, 1⟩)
    (by rfl) (by intro pe h; cases h; decide)

/-- C5: the furthest-error slot of `Parser.throw`: an empty slot always
accepts the new error; a stored error is replaced exactly when the new
error starts at or after it (so at equal positions the later failure
wins), and is kept unchanged otherwise. -/
theorem c5_furthest_error_policy :
    (∀ e, updateErr none e = some e) ∧
    (∀ old e, old.start ≤ e.start → updateErr (some old) e = some e) ∧
    (∀ old e, e.start < old.start → updateErr (some old) e = some old) := by
  refine ⟨fun e => rfl, fun old e h => ?_, fun old e h => ?_⟩
  · simp [updateErr, h]
  · simp [updateErr]
    intro hc
    exact absurd hc (Nat.not_le.mpr h)

/-- C5 (witness): the policy applied to concrete errors: fill an empty
slot, replace at an equal-or-later start, keep at an earlier start. -/
theorem c5_witness :
    updateErr none ⟨"a", none, 5, 6⟩ = some ⟨"a", none, 5, 6⟩ ∧
    updateErr (some ⟨"a", none, 3, 4⟩) ⟨"b", none, 3, 5⟩ = some ⟨"b", none, 3, 5⟩ ∧
    updateErr (some ⟨"a", none, 7, 8⟩) ⟨"b", none, 3, 5⟩ = some ⟨"a", none, 7, 8⟩ :=
  ⟨c5_furthest_error_policy.1 _,
   c5_furthest_error_policy.2.1 _ _ (by decide),
   c5_furthest_error_policy.2.2 _ _ (by decide)⟩

/-- C7: `a = b;` parses successfully; `a = b = c;` is rejected — the
assignment production consumes only `a = b` (its right-hand side is a
ternary expression, never another assignment), leaving three tokens
`= c ;`, so the statement fails at the second `=` with `Expected
semicolon`. -/
theorem c7_assignment_not_chained :
    lex srcAssign1 = some (.ok toksAssign1) ∧
    isOkAst (ast toksAssign1 25) = true ∧
    lex srcAssign2 = some (.ok toksAssign2) ∧
    astErr (ast toksAssign2 25) = some ⟨"Expected semicolon", none, 6, 7⟩ ∧
    assignRest toksAssign2 25 = some 3 := by
  refine ⟨by rfl, by decide, by rfl, by decide, by decide⟩

/-- C8: the `Expected match options or fallback` branch is unreachable:
`parseBody` always yields a tree whenever it returns, and the loop never
sets the `match` boolean to `true`; consequently `match (n) { }` parses as
a `MatchStatement` whose two children are the value sequence and an empty
fallback `Body`. -/
theorem c8_match_fallback_unreachable :
    (∀ toks fuel cur err r, run toks fuel .body cur err = some r →
      ∃ t rest, r.1 = some (t, rest)) ∧
    (∀ sub fuel items cur err res, matchOptLoop sub fuel false items cur err = some res →
      res.1 = false) ∧
    lex srcMatch = some (.ok toksMatch) ∧
    (soleStatement (ast toksMatch 25)).map
      (fun t => (t.type, t.items.length, lastIsEmptyBody t.items)) =
      some (.MatchStatement, 2, true) := by
  refine ⟨?_, ?_, by rfl, by decide⟩
  · intro toks fuel cur err r h
    exact parseBody_yields toks fuel cur err r h
  · intro sub fuel items cur err res h
    exact matchOptLoop_bool sub fuel items cur err res h

/-- C8 (witness): both universally quantified parts applied to concrete
runs (the empty cursor for `parseBody`, an empty option list for the
loop). -/
theorem c8_witness :
    (∃ t rest,
      (some (Tree.mk .Body 0 0 [], ([] : List Token)) : Option (Tree × List Token)) =
        some (t, rest)) ∧
    (false, ([] : List Item), ([] : List Token),
      (some ⟨"Expected match option", none, 0, 0⟩ : Slot)).1 = false :=
  ⟨c8_match_fallback_unreachable.1 [] 25 [] none
      (some (Tree.mk .Body 0 0 [], []), some ⟨"Expected statement", none, 0, 0⟩)
      (by rfl),
   c8_match_fallback_unreachable.2.1 (run ([] : List Token) 25 .matchOption) 3 [] [] none
      (false, [], [], some ⟨"Expected match option", none, 0, 0⟩) (by rfl)⟩

/-- C9: each simple escape decodes to its control byte (`\n` 0x0A, `\r`
0x0D, `\f` 0x0C, `\v` 0x0B, `\t` 0x09, `\b` 0x08, `\0` 0x00), `\x1F`
decodes to 0x1F, and `\xff` with lowercase digits is a lexer error. -/
theorem c9_simple_escapes :
    lex [39, 92, 110, 39] = some (.ok [⟨.StringLiteral, [10], 0, 4⟩]) ∧
    lex [39, 92, 114, 39] = some (.ok [⟨.StringLiteral, [13], 0, 4⟩]) ∧
    lex [39, 92, 102, 39] = some (.ok [⟨.StringLiteral, [12], 0, 4⟩]) ∧
    lex [39, 92, 118, 39] = some (.ok [⟨.StringLiteral, [11], 0, 4⟩]) ∧
    lex [39, 92, 116, 39] = some (.ok [⟨.StringLiteral, [9], 0, 4⟩]) ∧
    lex [39, 92, 98, 39] = some (.ok [⟨.StringLiteral, [8], 0, 4⟩]) ∧
    lex [39, 92, 48, 39] = some (.ok [⟨.StringLiteral, [0], 0, 4⟩]) ∧
    lex [39, 92, 120, 49, 70, 39] = some (.ok [⟨.StringLiteral, [31], 0, 6⟩]) ∧
    lex [39, 92, 120, 102, 102, 39] =
      some (.error ⟨"Invalid or lowercase hexadecimal escape sequence", none, 0, 3⟩) := by
  refine ⟨by rfl, by rfl, by rfl, by rfl, by rfl, by rfl, by rfl, by rfl, by rfl⟩

/-- C10: `ast()` yields an error exactly when tokens remain after
`parseBody` (which itself never fails), and on the empty token sequence it
succeeds with an empty `Body` spanning `[0, 0)`. -/
theorem c10_ast_error_iff_leftover :
    (∀ toks fuel cur err r, run toks fuel .body cur err = some r →
      ∃ t rest, r.1 = some (t, rest)) ∧
    (∀ toks fuel t rest e, run toks fuel .body toks none = some (some (t, rest), e) →
      ((ast toks fuel = some (.ok t) ↔ rest = []) ∧
       (rest ≠ [] → ∃ pe, ast toks fuel = some (.error pe)))) ∧
    ast ([] : List Token) 25 = some (.ok (.mk .Body 0 0 [])) := by
  refine ⟨?_, ?_, by rfl⟩
  · intro toks fuel cur err r h
    exact parseBody_yields toks fuel cur err r h
  · intro toks fuel t rest e hrun
    unfold ast
    rw [hrun]
    cases rest with
    | nil => simp
    | cons u urest =>
      constructor
      · constructor
        · intro h
          simp at h
        · intro h
          cases h
      · intro _
        exact ⟨_, rfl⟩

/-- C10 (witness): the equivalence applied to the empty token sequence,
where `parseBody` consumes nothing and `ast` succeeds. -/
theorem c10_witness : ast ([] : List Token) 25 = some (.ok (.mk .Body 0 0 [])) :=
  (c10_ast_error_iff_leftover.2.1 [] 25 (.mk .Body 0 0 []) []
    (some ⟨"Expected statement", none, 0, 0⟩) (by rfl)).1.mpr rfl

end Rue
namespace Rue

/-- The identifier regex consumes at least one character. -/
theorem matchIdent_pos {l : List Nat} {n : Nat} (h : matchIdent l = some n) : 1 ≤ n := by
  unfold matchIdent at h
  split at h
  · split at h
    · cases h; omega
    · cases h
  · cases h

/-- The hexadecimal-literal regex consumes at least one character. -/
theorem matchHex_pos {l : List Nat} {n : Nat} (h : matchHex l = some n) : 1 ≤ n := by
  unfold matchHex at h
  split at h
  · split at h
    · dsimp only at h
      split at h
      · cases h
      · cases h; omega
    · cases h
  · cases h

/-- The octal-literal regex consumes at least one character. -/
theorem matchOct_pos {l : List Nat} {n : Nat} (h : matchOct l = some n) : 1 ≤ n := by
  unfold matchOct at h
  split at h
  · split at h
    · dsimp only at h
      split at h
      · cases h
      · cases h; omega
    · cases h
  · cases h

/-- The binary-literal regex consumes at least one character. -/
theorem matchBin_pos {l : List Nat} {n : Nat} (h : matchBin l = some n) : 1 ≤ n := by
  unfold matchBin at h
  split at h
  · split at h
    · dsimp only at h
      split at h
      · cases h
      · cases h; omega
    · cases h
  · cases h

/-- The float-literal regex consumes at least one character. -/
theorem matchFloat_pos {l : List Nat} {n : Nat} (h : matchFloat l = some n) : 1 ≤ n := by
  simp only [matchFloat] at h
  split at h
  · cases h
  · split at h
    · try dsimp only at h
      split at h
      · cases h
      · cases h
        next h1 => omega
    · cases h

/-- The integer-literal regex consumes at least one character. -/
theorem matchInt_pos {l : List Nat} {n : Nat} (h : matchInt l = some n) : 1 ≤ n := by
  simp only [matchInt] at h
  split at h
  · cases h
  · cases h
    next h1 => omega

/-- A found operator-table entry is non-empty and a prefix of the input. -/
theorem opMatch_spec {l : List Nat} {p : List Nat × TokenType} (h : opMatch l = some p) :
    p.1 ≠ [] ∧ p.1 <+: l := by
  have hmem := List.mem_of_find?_eq_some h
  have hpred := List.find?_some h
  refine ⟨?_, List.isPrefixOf_iff_prefix.mp hpred⟩
  have hall : ∀ q ∈ operators, q.1 ≠ [] := by decide
  exact hall p hmem

/-- A closed string scan consumed through a closing quote: the consumed
characters end with the quote. -/
theorem scanStr_closed (q : Nat) :
    ∀ fuel text d u, scanStr q fuel text = some (.closed d u) →
      ∃ mid, text.take u = mid ++ [q] := by
  intro fuel
  induction fuel with
  | zero => intro text d u h; simp [scanStr] at h
  | succ f ih =>
    intro text d u h
    match text with
    | [] => simp [scanStr] at h
    | c :: rest =>
      unfold scanStr at h
      try dsimp only at h
      by_cases h92 : c = 92
      · rw [if_pos h92] at h
        match rest with
        | [] => simp at h
        | e :: rest2 =>
          try dsimp only at h
          split at h
          · cases h
          · next v extra hes =>
            split at h
            · next d' u' hsub =>
              cases h
              obtain ⟨mid', hmid⟩ := ih (rest2.drop extra) d' u' hsub
              refine ⟨92 :: e :: rest2.take extra ++ mid', ?_⟩
              have h2 : (2 + extra + u') = 2 + (extra + u') := by omega
              rw [h2]
              show (c :: e :: rest2).take (2 + (extra + u')) = _
              rw [h92]
              simp only [List.take_succ_cons, List.take_add, List.drop_succ_cons,
                List.drop_zero, List.take_zero, List.nil_append]
              rw [hmid]
              simp
            · cases h
            · cases h
      · rw [if_neg h92] at h
        by_cases hq : c = q
        · rw [if_pos hq] at h
          cases h
          exact ⟨[], by simp [hq]⟩
        · rw [if_neg hq] at h
          split at h
          · next d' u' hsub =>
            cases h
            obtain ⟨mid', hmid⟩ := ih rest d' u' hsub
            exact ⟨c :: mid', by simp [List.take_succ_cons, hmid]⟩
          · cases h
          · cases h

end Rue
namespace Rue

/-- Keyword lookup never produces the string-literal kind. -/
theorem keywordType_ne_string (s : List Nat) :
    (keywordType s).getD .Identifier ≠ .StringLiteral := by
  unfold keywordType
  cases hf : keywords.find? (fun p => p.1 == s) with
  | none => decide
  | some p =>
    have hmem := List.mem_of_find?_eq_some hf
    have hall : ∀ q ∈ keywords, q.2 ≠ TokenType.StringLiteral := by decide
    exact hall p hmem

/-- One lexer step that produces a token yields the claimed span and
slice properties. -/
theorem consume_tok_good (source : List Nat) (pos : Nat) (t : Token)
    (h : consume source pos = some (.tok t)) :
    t.start = pos ∧ pos < t.stop ∧ TokGood source t := by
  unfold consume at h
  split at h
  · cases h
  · next c rest heq =>
    split at h
    · cases h
    · split at h
      · next n hid =>
        cases h
        refine ⟨rfl, by have := matchIdent_pos hid; show pos < pos + _; omega, ?_, ?_⟩
        · intro _
          simp [listSlice, heq, Nat.add_sub_cancel_left]
        · intro habs
          exact absurd habs (keywordType_ne_string _)
      · split at h
        · next n hhex =>
          cases h
          refine ⟨rfl, by have := matchHex_pos hhex; show pos < pos + _; omega, ?_, by intro habs; cases habs⟩
          intro _
          simp [listSlice, heq, Nat.add_sub_cancel_left]
        · split at h
          · next n hoct =>
            cases h
            refine ⟨rfl, by have := matchOct_pos hoct; show pos < pos + _; omega, ?_, by intro habs; cases habs⟩
            intro _
            simp [listSlice, heq, Nat.add_sub_cancel_left]
          · split at h
            · next n hbin =>
              cases h
              refine ⟨rfl, by have := matchBin_pos hbin; show pos < pos + _; omega, ?_, by intro habs; cases habs⟩
              intro _
              simp [listSlice, heq, Nat.add_sub_cancel_left]
            · split at h
              · next n hfl =>
                cases h
                refine ⟨rfl, by have := matchFloat_pos hfl; show pos < pos + _; omega, ?_, by intro habs; cases habs⟩
                intro _
                simp [listSlice, heq, Nat.add_sub_cancel_left]
              · split at h
                · next n hint =>
                  cases h
                  refine ⟨rfl, by have := matchInt_pos hint; show pos < pos + _; omega, ?_, by intro habs; cases habs⟩
                  intro _
                  simp [listSlice, heq, Nat.add_sub_cancel_left]
                · split at h
                  · next hquote =>
                    split at h
                    · cases h
                    · next d u hscan =>
                      cases h
                      refine ⟨rfl, by show pos < pos + 1 + u; omega, by intro habs; simp at habs, ?_⟩
                      intro _
                      obtain ⟨mid, hmid⟩ := scanStr_closed c (rest.length + 1) rest d u hscan
                      refine ⟨c, mid, by simpa using hquote, ?_⟩
                      have h1 : pos + 1 + u - pos = 1 + u := by omega
                      simp only [listSlice, heq, h1]
                      rw [show 1 + u = u + 1 from by omega]
                      simp [List.take_succ_cons, hmid]
                    · cases h
                  · split at h
                    · next p hop =>
                      cases h
                      obtain ⟨hne, hpre⟩ := opMatch_spec hop
                      refine ⟨rfl, ?_, ?_, ?_⟩
                      · have : 0 < p.1.length := List.length_pos.mpr hne
                        show pos < pos + p.1.length
                        omega
                      · intro _
                        have htake := List.prefix_iff_eq_take.mp hpre
                        simp only [listSlice, heq, Nat.add_sub_cancel_left]
                        exact htake.symm
                      · intro habs
                        have hmem := List.mem_of_find?_eq_some hop
                        have hall : ∀ q ∈ operators, q.2 ≠ TokenType.StringLiteral := by decide
                        exact absurd habs (hall p hmem)
                    · cases h

/-- Every token of a successful lexer run satisfies the slice
round-trip. -/
theorem lexFrom_good (source : List Nat) :
    ∀ fuel pos ts, lexFrom source fuel pos = some (.ok ts) →
      ∀ t ∈ ts, TokGood source t := by
  intro fuel
  induction fuel with
  | zero => intro pos ts h; simp [lexFrom] at h
  | succ f ih =>
    intro pos ts h
    unfold lexFrom at h
    split at h
    · split at h
      · cases h
      · cases h
      · next n => exact ih _ _ h
      · next tk hcons =>
        split at h
        · next ts' hrec =>
          cases h
          intro t ht
          rcases List.mem_cons.mp ht with rfl | hts'
          · exact (consume_tok_good source pos t hcons).2.2
          · exact ih _ _ hrec t hts'
        · next hne =>
          exact absurd h (hne ts)
    · cases h
      intro t ht
      cases ht

end Rue
namespace Rue

/-- C6: for every source on which lexing succeeds, each token's source
slice `source[start..stop)` reproduces its `text`, except for string
literals, where `text` is the decoded content and the slice is the quoted
literal: it begins and ends with the same quote character. -/
theorem c6_token_text_roundtrip (source : List Nat) (ts : List Token)
    (h : lex source = some (.ok ts)) :
    ∀ t ∈ ts,
      (t.type ≠ .StringLiteral → listSlice source t.start t.stop = t.text) ∧
      (t.type = .StringLiteral →
        ∃ q mid, (q = 39 ∨ q = 34) ∧
          listSlice source t.start t.stop = q :: mid ++ [q]) :=
  lexFrom_good source (source.length + 1) 0 ts h

/-- C6 (witness): the round-trip applied to the identifier `a` of
`a = b;` and to the string literal source of `"\n"`. -/
theorem c6_witness :
    (listSlice srcAssign1 0 1 = [97]) ∧
    (∃ q mid, (q = 39 ∨ q = 34) ∧ listSlice [34, 92, 110, 34] 0 4 = q :: mid ++ [q]) :=
  ⟨(c6_token_text_roundtrip srcAssign1 toksAssign1 (by rfl)
      ⟨.Identifier, [97], 0, 1⟩ (by decide)).1 (by decide),
   (c6_token_text_roundtrip [34, 92, 110, 34] [⟨.StringLiteral, [10], 0, 4⟩] (by rfl)
      ⟨.StringLiteral, [10], 0, 4⟩ (by decide)).2 rfl⟩

end Rue
namespace Rue

theorem segFit_weaken {lo p p' : Nat} {items : List Item}
    (h : segFit lo p items) (hle : p ≤ p') : segFit lo p' items := by
  induction items generalizing lo with
  | nil => exact Nat.le_trans h hle
  | cons x rest ih => exact ⟨h.1, ih h.2⟩

theorem segFit_append {lo p : Nat} {items : List Item} {x : Item}
    (h : segFit lo p items) (hx : p ≤ iStart x) :
    segFit lo (iStop x) (items ++ [x]) := by
  induction items generalizing lo with
  | nil => exact ⟨Nat.le_trans h hx, Nat.le_refl _⟩
  | cons y rest ih => exact ⟨h.1, ih h.2⟩

theorem fitWithB_cons_ne {lastB : Nat → Item → Bool} {lo hi : Nat} {x : Item}
    {l : List Item} (h : l ≠ []) :
    fitWithB lastB lo hi (x :: l) =
      (decide (lo ≤ iStart x) && fitWithB lastB (iStop x) hi l) := by
  cases l with
  | nil => exact absurd rfl h
  | cons y rest => rfl

theorem segFit_fitWithB {lo hi : Nat} {items : List Item}
    (h : segFit lo hi items) : fitWithB lastFitB lo hi items = true := by
  induction items generalizing lo with
  | nil => rfl
  | cons x rest ih =>
    cases rest with
    | nil =>
      simp only [fitWithB, Bool.and_eq_true, decide_eq_true_eq]
      refine ⟨h.1, ?_⟩
      cases x with
      | tok tk =>
        simp only [lastFitB, Bool.or_eq_true, decide_eq_true_eq]
        exact Or.inl h.2
      | sub s =>
        simp only [lastFitB, decide_eq_true_eq]
        exact h.2
    | cons y rest2 =>
      simp only [fitWithB, Bool.and_eq_true, decide_eq_true_eq]
      exact ⟨h.1, ih h.2⟩

theorem segFit_fitWithB_weak {lo hi : Nat} {items : List Item} {x : Item}
    (h : segFit lo (iStart x) items) (hx : lastFitB hi x = true) :
    fitWithB lastFitB lo hi (items ++ [x]) = true := by
  induction items generalizing lo with
  | nil =>
    simp only [List.nil_append, fitWithB, Bool.and_eq_true, decide_eq_true_eq]
    exact ⟨h, hx⟩
  | cons y rest ih =>
    rw [List.cons_append, fitWithB_cons_ne (by simp)]
    simp only [Bool.and_eq_true, decide_eq_true_eq]
    exact ⟨h.1, ih h.2⟩

theorem allOkI_append (l1 l2 : List Item) :
    allOkI (l1 ++ l2) = (allOkI l1 && allOkI l2) := by
  induction l1 with
  | nil => simp [allOkI]
  | cons x rest ih =>
    cases x with
    | tok tk =>
      show allOkI (rest ++ l2) = _
      rw [ih]
      rfl
    | sub s =>
      show (allOkT s && allOkI (rest ++ l2)) = _
      rw [ih]
      show _ = ((allOkT s && allOkI rest) && allOkI l2)
      rw [Bool.and_assoc]

theorem consumeT_spec {tt : TokenType} {cur : List Token} {tk : Token} {c1 : List Token}
    (h : consumeT tt cur = some (tk, c1)) : cur = tk :: c1 := by
  unfold consumeT at h
  split at h
  · split at h
    · cases h; rfl
    · cases h
  · cases h

theorem consumeAny_spec {tts : List TokenType} {cur : List Token} {tk : Token}
    {c1 : List Token} (h : consumeAny tts cur = some (tk, c1)) : cur = tk :: c1 := by
  unfold consumeAny at h
  split at h
  · split at h
    · cases h; rfl
    · cases h
  · cases h

theorem mem_of_cons_suffix {tk : Token} {c toks : List Token}
    (h : (tk :: c) <:+ toks) : tk ∈ toks :=
  h.subset (List.mem_cons_self tk c)

theorem getLast?_of_singleton_suffix {tk : Token} {toks : List Token}
    (h : [tk] <:+ toks) : toks.getLast? = some tk := by
  obtain ⟨pre, rfl⟩ := h
  exact List.getLast?_concat _

/-- The start of the first token of a suffix never decreases when the
cursor advances one token. -/
theorem startOf_cons_le {toks : List Token} (hwf : TokensWf toks)
    {tk : Token} {c : List Token} (h : (tk :: c) <:+ toks) :
    tk.start ≤ startOf toks c := by
  cases c with
  | cons u rest =>
    have hch : List.Chain' (fun a b => a.stop ≤ b.start) (tk :: u :: rest) :=
      hwf.2.suffix h
    have h1 : tk.stop ≤ u.start := (List.chain'_cons.mp hch).1
    have h2 : tk.start < tk.stop := hwf.1 tk (mem_of_cons_suffix h)
    show tk.start ≤ u.start
    omega
  | nil =>
    show tk.start ≤ startOf toks []
    unfold startOf
    rw [getLast?_of_singleton_suffix h]

/-- A consumed token either ends before the next cursor position, or the
cursor is exhausted and the fallback start equals the token's own start. -/
theorem tokStep {toks : List Token} (hwf : TokensWf toks)
    {tk : Token} {c : List Token} (h : (tk :: c) <:+ toks) :
    tk.stop ≤ startOf toks c ∨ (c = [] ∧ startOf toks c = tk.start) := by
  cases c with
  | cons u rest =>
    have hch : List.Chain' (fun a b => a.stop ≤ b.start) (tk :: u :: rest) :=
      hwf.2.suffix h
    exact Or.inl (List.chain'_cons.mp hch).1
  | nil =>
    refine Or.inr ⟨rfl, ?_⟩
    unfold startOf
    rw [getLast?_of_singleton_suffix h]

/-- `startOf` is monotone as the cursor advances. -/
theorem startOf_le {toks : List Token} (hwf : TokensWf toks) :
    ∀ {c1 c2 : List Token}, c2 <:+ c1 → c1 <:+ toks →
      startOf toks c1 ≤ startOf toks c2 := by
  intro c1 c2 h12 h1
  obtain ⟨pre, rfl⟩ := h12
  induction pre with
  | nil => exact Nat.le_refl _
  | cons a pre ih =>
    have hmid : (pre ++ c2) <:+ toks :=
      List.IsSuffix.trans (List.suffix_cons a _) h1
    exact Nat.le_trans (startOf_cons_le hwf h1) (ih hmid)

end Rue
namespace Rue

theorem mkTree_allOk {toks : List Token} {ty : TreeType} {items : List Item}
    {cur rest : List Token}
    (hseg : segFit (startOf toks cur) (startOf toks rest) items)
    (hitems : allOkI items = true) :
    allOkT (mkTree toks ty items cur rest) = true := by
  show (fitWithB lastFitB (startOf toks cur) (startOf toks rest) items && allOkI items) = true
  rw [segFit_fitWithB hseg, hitems]
  rfl

theorem mkTree_allOk_weak {toks : List Token} {ty : TreeType} {items : List Item}
    {x : Item} {cur rest : List Token}
    (hseg : segFit (startOf toks cur) (iStart x) items)
    (hx : lastFitB (startOf toks rest) x = true)
    (hitems : allOkI (items ++ [x]) = true) :
    allOkT (mkTree toks ty (items ++ [x]) cur rest) = true := by
  show (fitWithB lastFitB (startOf toks cur) (startOf toks rest) (items ++ [x]) &&
    allOkI (items ++ [x])) = true
  rw [segFit_fitWithB_weak hseg hx, hitems]
  rfl

theorem tierStep_failsEmpty {toks : List Token} {ty : TreeType} {msg : String}
    {ops : List TokenType} {pm : PushMode} {lhs : PFn} {rhs : Token → PFn}
    (hlhs : FailsEmpty lhs) : FailsEmpty (tierStep toks ty msg ops pm lhs rhs) := by
  intro err t rest err' h
  unfold tierStep at h
  split at h
  · cases h
  · cases h
  · next l c1 e1 heq => exact hlhs err l c1 e1 heq

theorem failsEmpty_cast (toks : List Token) :
    ∀ fuel, FailsEmpty (run toks fuel .cast) := by
  intro fuel err t rest err' h
  cases fuel with
  | zero => simp [run] at h
  | succ f =>
    rw [run_cast_eq] at h
    simp [consumeT, pthrow] at h

theorem failsEmpty_arrayType (toks : List Token) :
    ∀ fuel, FailsEmpty (run toks fuel .arrayType) := by
  intro fuel err t rest err' h
  cases fuel with
  | zero => simp [run] at h
  | succ f =>
    rw [run_arrayType_eq] at h
    simp [consumeT, pthrow] at h

theorem failsEmpty_genericType (toks : List Token) :
    ∀ fuel, FailsEmpty (run toks fuel .genericType) := by
  intro fuel err t rest err' h
  cases fuel with
  | zero => simp [run] at h
  | succ f =>
    rw [run_genericType_eq] at h
    simp [consumeT, pthrow] at h

theorem failsEmpty_arrayInitializer (toks : List Token) :
    ∀ fuel, FailsEmpty (run toks fuel .arrayInitializer) := by
  intro fuel err t rest err' h
  cases fuel with
  | zero => simp [run] at h
  | succ f =>
    rw [run_arrayInitializer_eq] at h
    simp [consumeT, pthrow] at h

theorem failsEmpty_parameters (toks : List Token) :
    ∀ fuel, FailsEmpty (run toks fuel .parameters) := by
  intro fuel err t rest err' h
  cases fuel with
  | zero => simp [run] at h
  | succ f =>
    rw [run_parameters_eq] at h
    simp [consumeT, pthrow] at h

theorem failsEmpty_unaryType (toks : List Token) :
    ∀ fuel, FailsEmpty (run toks fuel .unaryType) := by
  intro fuel err t rest err' h
  cases fuel with
  | zero => simp [run] at h
  | succ f =>
    rw [run_unaryType_eq] at h
    simp [consumeAny, pthrow] at h

theorem failsEmpty_literalValue (toks : List Token) :
    ∀ fuel, FailsEmpty (run toks fuel .literalValue) := by
  intro fuel err t rest err' h
  cases fuel with
  | zero => simp [run] at h
  | succ f =>
    rw [run_literalValue_eq] at h
    split at h
    · cases h
    · next tt c1 e1 heq => exact failsEmpty_arrayInitializer toks f err tt c1 e1 heq
    · split at h
      · next v c1 heq => simp [consumeAny] at heq
      · split at h
        · cases h
        · next tt c1 e2 heq => exact failsEmpty_cast toks f _ tt c1 e2 heq
        · split at h
          · simp [pthrow] at h
          · next op c1 heq => simp [consumeT] at heq

theorem failsEmpty_referenceExpression (toks : List Token) :
    ∀ fuel, FailsEmpty (run toks fuel .referenceExpression) := by
  intro fuel err t rest err' h
  cases fuel with
  | zero => simp [run] at h
  | succ f =>
    rw [run_referenceExpression_eq] at h
    split at h
    · cases h
    · cases h
    · next l c1 e1 heq => exact failsEmpty_literalValue toks f err l c1 e1 heq

theorem failsEmpty_unaryExpression (toks : List Token) :
    ∀ fuel, FailsEmpty (run toks fuel .unaryExpression) := by
  intro fuel err t rest err' h
  cases fuel with
  | zero => simp [run] at h
  | succ f =>
    rw [run_unaryExpression_eq] at h
    have hu : uopsLoop [TokenType.NotKeyword, TokenType.NotOperator, TokenType.PlusOperator,
        TokenType.MinusOperator, TokenType.TimesOperator, TokenType.AndOperator]
        ([] : List Token) = ([], []) := rfl
    rw [hu] at h
    dsimp only at h
    split at h
    · cases h
    · cases h
    · next r c2 e1 heq => exact failsEmpty_referenceExpression toks f err r c2 e1 heq

theorem failsEmpty_rangeExpression (toks : List Token) :
    ∀ fuel, FailsEmpty (run toks fuel .rangeExpression) := by
  intro fuel err t rest err' h
  cases fuel with
  | zero => simp [run] at h
  | succ f =>
    rw [run_rangeExpression_eq] at h
    split at h
    · cases h
    · next lhsRes e1 hrun =>
      split at h
      · next l c1 =>
        exact failsEmpty_unaryExpression toks f err l c1 e1 hrun
      · split at h
        · simp [pthrow] at h
        · next op c2 heq => simp [consumeAny] at heq

end Rue

namespace Rue

theorem failsEmpty_factorExpression (toks : List Token) :
    ∀ fuel, FailsEmpty (run toks fuel .factorExpression) := by
  intro fuel err t rest err' h
  cases fuel with
  | zero => simp [run] at h
  | succ f =>
    rw [run_factorExpression_eq] at h
    exact tierStep_failsEmpty (failsEmpty_rangeExpression toks f) err t rest err' h

theorem failsEmpty_termExpression (toks : List Token) :
    ∀ fuel, FailsEmpty (run toks fuel .termExpression) := by
  intro fuel err t rest err' h
  cases fuel with
  | zero => simp [run] at h
  | succ f =>
    rw [run_termExpression_eq] at h
    exact tierStep_failsEmpty (failsEmpty_factorExpression toks f) err t rest err' h

theorem failsEmpty_shiftExpression (toks : List Token) :
    ∀ fuel, FailsEmpty (run toks fuel .shiftExpression) := by
  intro fuel err t rest err' h
  cases fuel with
  | zero => simp [run] at h
  | succ f =>
    rw [run_shiftExpression_eq] at h
    exact tierStep_failsEmpty (failsEmpty_termExpression toks f) err t rest err' h

theorem failsEmpty_comparisonExpression (toks : List Token) :
    ∀ fuel, FailsEmpty (run toks fuel .comparisonExpression) := by
  intro fuel err t rest err' h
  cases fuel with
  | zero => simp [run] at h
  | succ f =>
    rw [run_comparisonExpression_eq] at h
    exact tierStep_failsEmpty (failsEmpty_shiftExpression toks f) err t rest err' h

theorem failsEmpty_equalityExpression (toks : List Token) :
    ∀ fuel, FailsEmpty (run toks fuel .equalityExpression) := by
  intro fuel err t rest err' h
  cases fuel with
  | zero => simp [run] at h
  | succ f =>
    rw [run_equalityExpression_eq] at h
    exact tierStep_failsEmpty (failsEmpty_comparisonExpression toks f) err t rest err' h

theorem failsEmpty_bitwiseAndExpression (toks : List Token) :
    ∀ fuel, FailsEmpty (run toks fuel .bitwiseAndExpression) := by
  intro fuel err t rest err' h
  cases fuel with
  | zero => simp [run] at h
  | succ f =>
    rw [run_bitwiseAndExpression_eq] at h
    exact tierStep_failsEmpty (failsEmpty_equalityExpression toks f) err t rest err' h

theorem failsEmpty_bitwiseXorExpression (toks : List Token) :
    ∀ fuel, FailsEmpty (run toks fuel .bitwiseXorExpression) := by
  intro fuel err t rest err' h
  cases fuel with
  | zero => simp [run] at h
  | succ f =>
    rw [run_bitwiseXorExpression_eq] at h
    exact tierStep_failsEmpty (failsEmpty_bitwiseAndExpression toks f) err t rest err' h

theorem failsEmpty_bitwiseOrExpression (toks : List Token) :
    ∀ fuel, FailsEmpty (run toks fuel .bitwiseOrExpression) := by
  intro fuel err t rest err' h
  cases fuel with
  | zero => simp [run] at h
  | succ f =>
    rw [run_bitwiseOrExpression_eq] at h
    exact tierStep_failsEmpty (failsEmpty_bitwiseXorExpression toks f) err t rest err' h

theorem failsEmpty_logicalAndExpression (toks : List Token) :
    ∀ fuel, FailsEmpty (run toks fuel .logicalAndExpression) := by
  intro fuel err t rest err' h
  cases fuel with
  | zero => simp [run] at h
  | succ f =>
    rw [run_logicalAndExpression_eq] at h
    exact tierStep_failsEmpty (failsEmpty_bitwiseOrExpression toks f) err t rest err' h

theorem failsEmpty_logicalOrExpression (toks : List Token) :
    ∀ fuel, FailsEmpty (run toks fuel .logicalOrExpression) := by
  intro fuel err t rest err' h
  cases fuel with
  | zero => simp [run] at h
  | succ f =>
    rw [run_logicalOrExpression_eq] at h
    exact tierStep_failsEmpty (failsEmpty_logicalAndExpression toks f) err t rest err' h

theorem failsEmpty_coalesceExpression (toks : List Token) :
    ∀ fuel, FailsEmpty (run toks fuel .coalesceExpression) := by
  intro fuel err t rest err' h
  cases fuel with
  | zero => simp [run] at h
  | succ f =>
    rw [run_coalesceExpression_eq] at h
    exact tierStep_failsEmpty (failsEmpty_logicalOrExpression toks f) err t rest err' h

theorem failsEmpty_ternaryExpression (toks : List Token) :
    ∀ fuel, FailsEmpty (run toks fuel .ternaryExpression) := by
  intro fuel err t rest err' h
  cases fuel with
  | zero => simp [run] at h
  | succ f =>
    rw [run_ternaryExpression_eq] at h
    split at h
    · cases h
    · simp [pthrow] at h
    · next c c1 e1 heq => exact failsEmpty_coalesceExpression toks f err c c1 e1 heq

end Rue
namespace Rue

theorem fitOut_mkTree {toks : List Token} {ty : TreeType} {items : List Item}
    {cur rest : List Token} (h : FitOut toks (startOf toks cur) items rest)
    (hI : allOkI items = true) : allOkT (mkTree toks ty items cur rest) = true := by
  rcases h with hs | ⟨pre, tk, rfl, hseg, heq⟩
  · exact mkTree_allOk hs hI
  · refine mkTree_allOk_weak hseg ?_ hI
    simp only [lastFitB, Bool.or_eq_true, decide_eq_true_eq]
    exact Or.inr heq

theorem stmtLoopOk {toks : List Token} (hwf : TokensWf toks) {sub : PFn}
    (hsub : RunOk toks sub) :
    ∀ lfuel items cur err lo out,
      cur <:+ toks → segFit lo (startOf toks cur) items → allOkI items = true →
      stmtLoop sub lfuel items cur err = some out →
      out.2.1 <:+ cur ∧ segFit lo (startOf toks out.2.1) out.1 ∧ allOkI out.1 = true := by
  intro lfuel
  induction lfuel with
  | zero => intro items cur err lo out _ _ _ h; simp [stmtLoop] at h
  | succ lf ih =>
    intro items cur err lo out hcur hseg hI h
    unfold stmtLoop at h
    split at h
    · cases h
    · cases h
      exact ⟨List.suffix_refl _, hseg, hI⟩
    · next st c1 e1 hsubeq =>
      obtain ⟨hc1, hst, hstp, hok⟩ := hsub cur err st c1 e1 hcur hsubeq
      have hseg' : segFit lo (startOf toks c1) (items ++ [Item.sub st]) := by
        have := segFit_append hseg (x := Item.sub st) (by rw [iStart]; omega)
        rw [iStop] at this
        rw [hstp] at this
        exact this
      have hI' : allOkI (items ++ [Item.sub st]) = true := by
        rw [allOkI_append, hI]
        simp [allOkI, hok]
      obtain ⟨ho1, ho2, ho3⟩ := ih (items ++ [Item.sub st]) c1 e1 lo out
        (hc1.trans hcur) hseg' hI' h
      exact ⟨ho1.trans hc1, ho2, ho3⟩

theorem matchOptLoopOk {toks : List Token} (hwf : TokensWf toks) {sub : PFn}
    (hsub : RunOk toks sub) :
    ∀ lfuel b items cur err out,
      cur <:+ toks → ∀ lo, segFit lo (startOf toks cur) items → allOkI items = true →
      matchOptLoop sub lfuel b items cur err = some out →
      out.2.2.1 <:+ cur ∧ segFit lo (startOf toks out.2.2.1) out.2.1 ∧
        allOkI out.2.1 = true := by
  intro lfuel
  induction lfuel with
  | zero => intro b items cur err out _ lo _ _ h; simp [matchOptLoop] at h
  | succ lf ih =>
    intro b items cur err out hcur lo hseg hI h
    unfold matchOptLoop at h
    split at h
    · cases h
    · cases h
      exact ⟨List.suffix_refl _, hseg, hI⟩
    · next st c1 e1 hsubeq =>
      obtain ⟨hc1, hst, hstp, hok⟩ := hsub cur err st c1 e1 hcur hsubeq
      have hseg' : segFit lo (startOf toks c1) (items ++ [Item.sub st]) := by
        have := segFit_append hseg (x := Item.sub st) (by rw [iStart]; omega)
        rw [iStop, hstp] at this
        exact this
      have hI' : allOkI (items ++ [Item.sub st]) = true := by
        rw [allOkI_append, hI]
        simp [allOkI, hok]
      obtain ⟨ho1, ho2, ho3⟩ := ih false (items ++ [Item.sub st]) c1 e1 out
        (hc1.trans hcur) lo hseg' hI' h
      exact ⟨ho1.trans hc1, ho2, ho3⟩

theorem refLoopOk {toks : List Token} (hwf : TokensWf toks) {s1 s2 s3 s4 : PFn}
    (h1 : RunOk toks s1) (h2 : RunOk toks s2) (h3 : RunOk toks s3) (h4 : RunOk toks s4) :
    ∀ lfuel items cur err lo out,
      cur <:+ toks → segFit lo (startOf toks cur) items → allOkI items = true →
      refLoop s1 s2 s3 s4 lfuel items cur err = some out →
      out.2.1 <:+ cur ∧ segFit lo (startOf toks out.2.1) out.1 ∧ allOkI out.1 = true := by
  intro lfuel
  induction lfuel with
  | zero => intro items cur err lo out _ _ _ h; simp [refLoop] at h
  | succ lf ih =>
    intro items cur err lo out hcur hseg hI h
    unfold refLoop at h
    have step : ∀ (st : Tree) (c1 : List Token) (e1 : Slot),
        c1 <:+ cur → st.start = startOf toks cur → st.stop = startOf toks c1 →
        allOkT st = true →
        refLoop s1 s2 s3 s4 lf (items ++ [Item.sub st]) c1 e1 = some out →
        out.2.1 <:+ cur ∧ segFit lo (startOf toks out.2.1) out.1 ∧
          allOkI out.1 = true := by
      intro st c1 e1 hc1 hst hstp hok hrec
      have hseg' : segFit lo (startOf toks c1) (items ++ [Item.sub st]) := by
        have := segFit_append hseg (x := Item.sub st) (by rw [iStart]; omega)
        rw [iStop, hstp] at this
        exact this
      have hI' : allOkI (items ++ [Item.sub st]) = true := by
        rw [allOkI_append, hI]
        simp [allOkI, hok]
      obtain ⟨ho1, ho2, ho3⟩ := ih (items ++ [Item.sub st]) c1 e1 lo out
        (hc1.trans hcur) hseg' hI' hrec
      exact ⟨ho1.trans hc1, ho2, ho3⟩
    split at h
    · cases h
    · next st c1 e1 heq =>
      obtain ⟨hc1, hst, hstp, hok⟩ := h1 cur err st c1 e1 hcur heq
      exact step st c1 e1 hc1 hst hstp hok h
    · next e1 heq1 =>
      split at h
      · cases h
      · next st c1 e2 heq =>
        obtain ⟨hc1, hst, hstp, hok⟩ := h2 cur e1 st c1 e2 hcur heq
        exact step st c1 e2 hc1 hst hstp hok h
      · next e2 heq2 =>
        split at h
        · cases h
        · next st c1 e3 heq =>
          obtain ⟨hc1, hst, hstp, hok⟩ := h3 cur e2 st c1 e3 hcur heq
          exact step st c1 e3 hc1 hst hstp hok h
        · next e3 heq3 =>
          split at h
          · cases h
          · next st c1 e4 heq =>
            obtain ⟨hc1, hst, hstp, hok⟩ := h4 cur e3 st c1 e4 hcur heq
            exact step st c1 e4 hc1 hst hstp hok h
          · next e4 heq4 =>
            cases h
            exact ⟨List.suffix_refl _, hseg, hI⟩

end Rue
namespace Rue

theorem tierLoopOk {toks : List Token} (hwf : TokensWf toks) {ops : List TokenType}
    {pm : PushMode} {sub : Token → PFn} (hsub : ∀ op, RunOk toks (sub op))
    (hne : pm = .opNone ∨ ∀ op, FailsEmpty (sub op)) :
    ∀ lfuel items cur err lo out,
      cur <:+ toks → segFit lo (startOf toks cur) items → allOkI items = true →
      tierLoop ops pm sub lfuel items cur err = some out →
      out.2.1 <:+ cur ∧
        (segFit lo (startOf toks out.2.1) out.1 ∨
          (pm = .opEarly ∧ ∃ pre tk, out.1 = pre ++ [Item.tok tk] ∧
            segFit lo tk.start pre ∧ tk.start = startOf toks out.2.1)) ∧
        allOkI out.1 = true := by
  intro lfuel
  induction lfuel with
  | zero => intro items cur err lo out _ _ _ h; simp [tierLoop] at h
  | succ lf ih =>
    intro items cur err lo out hcur hseg hI h
    unfold tierLoop at h
    split at h
    · cases h
      exact ⟨List.suffix_refl _, Or.inl hseg, hI⟩
    · next op c1 hca =>
      have hcons := consumeAny_spec hca
      subst hcons
      have hc1t : c1 <:+ toks := (List.suffix_cons op c1).trans hcur
      have hop : op.start ≤ startOf toks c1 := startOf_cons_le hwf hcur
      have hsoc : startOf toks (op :: c1) = op.start := rfl
      split at h
      · cases h
      · cases h
        by_cases hpm : pm = PushMode.opEarly
        · simp only [if_pos hpm]
          refine ⟨List.suffix_refl _, Or.inr ⟨hpm, items, op, rfl, hseg, rfl⟩, ?_⟩
          rw [allOkI_append, hI]
          rfl
        · simp only [if_neg hpm]
          exact ⟨List.suffix_refl _, Or.inl hseg, hI⟩
      · next rhs c2 e1 hsr =>
        obtain ⟨hc2, hst, hstp, hok⟩ := hsub op c1 err rhs c2 e1 hc1t hsr
        by_cases hpm0 : pm = PushMode.opNone
        · rw [if_pos hpm0] at h
          have hseg' : segFit lo (startOf toks c2) (items ++ [Item.sub rhs]) := by
            have := segFit_append hseg (x := Item.sub rhs) (by rw [iStart]; omega)
            rw [iStop, hstp] at this
            exact this
          have hI' : allOkI (items ++ [Item.sub rhs]) = true := by
            rw [allOkI_append, hI]
            simp [allOkI, hok]
          obtain ⟨ho1, ho2, ho3⟩ := ih _ c2 e1 lo out (hc2.trans hc1t) hseg' hI' h
          exact ⟨(ho1.trans hc2).trans (List.suffix_cons op c1), ho2, ho3⟩
        · rw [if_neg hpm0] at h
          have hgap : op.stop ≤ startOf toks c1 := by
            rcases tokStep hwf hcur with hg | ⟨hnil, _⟩
            · exact hg
            · subst hnil
              rcases hne with hh | hh
              · exact absurd hh hpm0
              · exact absurd hsr (hh op err rhs c2 e1)
          have hassoc : items ++ [Item.tok op, Item.sub rhs] =
              (items ++ [Item.tok op]) ++ [Item.sub rhs] := by simp
          rw [hassoc] at h
          have hseg1 : segFit lo op.stop (items ++ [Item.tok op]) := by
            have := segFit_append hseg (x := Item.tok op) (Nat.le_refl _)
            rw [iStop] at this
            exact this
          have hseg' : segFit lo (startOf toks c2)
              ((items ++ [Item.tok op]) ++ [Item.sub rhs]) := by
            have := segFit_append hseg1 (x := Item.sub rhs)
              (by rw [iStart]; omega)
            rw [iStop, hstp] at this
            exact this
          have hI' : allOkI ((items ++ [Item.tok op]) ++ [Item.sub rhs]) = true := by
            rw [allOkI_append, allOkI_append, hI]
            simp [allOkI, hok]
          obtain ⟨ho1, ho2, ho3⟩ := ih _ c2 e1 lo out (hc2.trans hc1t) hseg' hI' h
          exact ⟨(ho1.trans hc2).trans (List.suffix_cons op c1), ho2, ho3⟩

theorem commaLoopOk {toks : List Token} (hwf : TokensWf toks) {sub : PFn}
    {msg : String} (hsub : RunOk toks sub) :
    ∀ lfuel items cur err lo items' rest e',
      cur <:+ toks → segFit lo (startOf toks cur) items → allOkI items = true →
      commaLoop toks sub msg lfuel items cur err = some (some (items', rest), e') →
      rest <:+ cur ∧ segFit lo (startOf toks rest) items' ∧ allOkI items' = true := by
  intro lfuel
  induction lfuel with
  | zero => intro items cur err lo items' rest e' _ _ _ h; simp [commaLoop] at h
  | succ lf ih =>
    intro items cur err lo items' rest e' hcur hseg hI h
    unfold commaLoop at h
    split at h
    · split at h
      · cases h
      · cases h
        exact ⟨List.suffix_refl _, hseg, hI⟩
      · next it c1 e1 hse =>
        obtain ⟨hc1, hst, hstp, hok⟩ := hsub cur err it c1 e1 hcur hse
        have hseg' : segFit lo (startOf toks c1) (items ++ [Item.sub it]) := by
          have := segFit_append hseg (x := Item.sub it) (by rw [iStart]; omega)
          rw [iStop, hstp] at this
          exact this
        have hI' : allOkI (items ++ [Item.sub it]) = true := by
          rw [allOkI_append, hI]
          simp [allOkI, hok]
        obtain ⟨ho1, ho2, ho3⟩ := ih _ c1 e1 lo items' rest e'
          (hc1.trans hcur) hseg' hI' h
        exact ⟨ho1.trans hc1, ho2, ho3⟩
    · split at h
      · cases h
        exact ⟨List.suffix_refl _, hseg, hI⟩
      · next cm c1 hct =>
        have hcons := consumeT_spec hct
        subst hcons
        have hc1t : c1 <:+ toks := (List.suffix_cons cm c1).trans hcur
        have hcm : cm.start ≤ startOf toks c1 := startOf_cons_le hwf hcur
        have hsoc : startOf toks (cm :: c1) = cm.start := rfl
        split at h
        · cases h
        · simp at h
        · next it c2 e1 hse =>
          obtain ⟨hc2, hst, hstp, hok⟩ := hsub c1 err it c2 e1 hc1t hse
          have hseg' : segFit lo (startOf toks c2) (items ++ [Item.sub it]) := by
            have := segFit_append hseg (x := Item.sub it) (by rw [iStart]; omega)
            rw [iStop, hstp] at this
            exact this
          have hI' : allOkI (items ++ [Item.sub it]) = true := by
            rw [allOkI_append, hI]
            simp [allOkI, hok]
          obtain ⟨ho1, ho2, ho3⟩ := ih _ c2 e1 lo items' rest e'
            (hc2.trans hc1t) hseg' hI' h
          exact ⟨(ho1.trans hc2).trans (List.suffix_cons cm c1), ho2, ho3⟩

theorem utLoopOk {toks : List Token} (hwf : TokensWf toks) {sGen sArr : PFn}
    (hg : RunOk toks sGen) (ha : RunOk toks sArr)
    (hge : FailsEmpty sGen) (hae : FailsEmpty sArr) :
    ∀ lfuel items cur err lo out,
      cur <:+ toks →
      (segFit lo (startOf toks cur) items ∨
        (cur = [] ∧ ∃ pre tk, items = pre ++ [Item.tok tk] ∧
          segFit lo tk.start pre ∧ tk.start = startOf toks cur)) →
      allOkI items = true →
      utLoop sGen sArr lfuel items cur err = some out →
      out.2.1 <:+ cur ∧ FitOut toks lo out.1 out.2.1 ∧ allOkI out.1 = true := by
  intro lfuel
  induction lfuel with
  | zero => intro items cur err lo out _ _ _ h; simp [utLoop] at h
  | succ lf ih =>
    intro items cur err lo out hcur hin hI h
    unfold utLoop at h
    have step : ∀ (st : Tree) (c1 : List Token) (e1 : Slot),
        segFit lo (startOf toks cur) items →
        c1 <:+ cur → st.start = startOf toks cur → st.stop = startOf toks c1 →
        allOkT st = true →
        utLoop sGen sArr lf (items ++ [Item.sub st]) c1 e1 = some out →
        out.2.1 <:+ cur ∧ FitOut toks lo out.1 out.2.1 ∧
          allOkI out.1 = true := by
      intro st c1 e1 hseg hc1 hst hstp hok hrec
      have hseg2 : segFit lo (startOf toks c1) (items ++ [Item.sub st]) := by
        have := segFit_append hseg (x := Item.sub st) (by rw [iStart]; omega)
        rw [iStop, hstp] at this
        exact this
      have hI2 : allOkI (items ++ [Item.sub st]) = true := by
        rw [allOkI_append, hI]
        simp [allOkI, hok]
      obtain ⟨ho1, ho2, ho3⟩ := ih (items ++ [Item.sub st]) c1 e1 lo out
        (hc1.trans hcur) (Or.inl hseg2) hI2 hrec
      exact ⟨ho1.trans hc1, ho2, ho3⟩
    split at h
    · cases h
    · next st c1 e1 heq =>
      rcases hin with hseg | ⟨hnil, _⟩
      · obtain ⟨hc1, hst, hstp, hok⟩ := hg cur err st c1 e1 hcur heq
        exact step st c1 e1 hseg hc1 hst hstp hok h
      · subst hnil
        exact absurd heq (hge err st c1 e1)
    · next e1 heq1 =>
      split at h
      · cases h
      · next st c1 e2 heq =>
        rcases hin with hseg | ⟨hnil, _⟩
        · obtain ⟨hc1, hst, hstp, hok⟩ := ha cur e1 st c1 e2 hcur heq
          exact step st c1 e2 hseg hc1 hst hstp hok h
        · subst hnil
          exact absurd heq (hae e1 st c1 e2)
      · next e2 heq2 =>
        split at h
        · cases h
          rcases hin with hseg | ⟨hnil, hw⟩
          · exact ⟨List.suffix_refl _, Or.inl hseg, hI⟩
          · subst hnil
            exact ⟨List.suffix_refl _, Or.inr hw, hI⟩
        · next op c1 hca =>
          have hcons := consumeAny_spec hca
          subst hcons
          rcases hin with hseg | ⟨hnil, _⟩
          · have hIop : allOkI (items ++ [Item.tok op]) = true := by
              rw [allOkI_append, hI]
              rfl
            rcases tokStep hwf hcur with hgap | ⟨hnil, hstart⟩
            · have hseg2 : segFit lo (startOf toks c1) (items ++ [Item.tok op]) := by
                have := segFit_append hseg (x := Item.tok op) (Nat.le_refl _)
                rw [iStop] at this
                exact segFit_weaken this hgap
              obtain ⟨ho1, ho2, ho3⟩ := ih (items ++ [Item.tok op]) c1 e2 lo out
                ((List.suffix_cons op c1).trans hcur) (Or.inl hseg2) hIop h
              exact ⟨ho1.trans (List.suffix_cons op c1), ho2, ho3⟩
            · subst hnil
              have hin2 : segFit lo (startOf toks ([] : List Token))
                    (items ++ [Item.tok op]) ∨
                  ([] : List Token) = [] ∧ ∃ pre tk,
                    items ++ [Item.tok op] = pre ++ [Item.tok tk] ∧
                    segFit lo tk.start pre ∧
                    tk.start = startOf toks ([] : List Token) :=
                Or.inr ⟨rfl, items, op, rfl, hseg, hstart.symm⟩
              obtain ⟨ho1, ho2, ho3⟩ := ih (items ++ [Item.tok op]) [] e2 lo out
                ((List.suffix_cons op []).trans hcur) hin2 hIop h
              exact ⟨ho1.trans (List.suffix_cons op []), ho2, ho3⟩
          · simp at hnil

end Rue
namespace Rue

theorem segFit_mono_lo {lo lp pos : Nat} {items : List Item}
    (h : segFit lo pos items) (hle : lp ≤ lo) : segFit lp pos items := by
  cases items with
  | nil => exact Nat.le_trans hle h
  | cons x rest => exact ⟨Nat.le_trans hle h.1, h.2⟩

theorem segFit_single {lo pos : Nat} {x : Item} (h1 : lo ≤ iStart x)
    (h2 : iStop x ≤ pos) : segFit lo pos [x] := ⟨h1, h2⟩

theorem segFit_two {lo pos : Nat} {x y : Item} (h1 : lo ≤ iStart x)
    (h2 : iStop x ≤ iStart y) (h3 : iStop y ≤ pos) : segFit lo pos [x, y] :=
  ⟨h1, h2, h3⟩

theorem segFit_three {lo pos : Nat} {x y z : Item} (h1 : lo ≤ iStart x)
    (h2 : iStop x ≤ iStart y) (h3 : iStop y ≤ iStart z) (h4 : iStop z ≤ pos) :
    segFit lo pos [x, y, z] := ⟨h1, h2, h3, h4⟩

theorem segFit_four {lo pos : Nat} {w x y z : Item} (h1 : lo ≤ iStart w)
    (h2 : iStop w ≤ iStart x) (h3 : iStop x ≤ iStart y) (h4 : iStop y ≤ iStart z)
    (h5 : iStop z ≤ pos) : segFit lo pos [w, x, y, z] := ⟨h1, h2, h3, h4, h5⟩

/-- A consumed token ends before the position of a non-empty leftover. -/
theorem tok_le_startOf {toks : List Token} (hwf : TokensWf toks) {tk : Token}
    {c : List Token} (h : (tk :: c) <:+ toks) (hne : c ≠ []) :
    tk.stop ≤ startOf toks c := by
  rcases tokStep hwf h with h1 | ⟨h1, _⟩
  · exact h1
  · exact absurd h1 hne

theorem mkTree_ok0 {toks : List Token} {ty : TreeType} {cur rest : List Token} :
    allOkT (mkTree toks ty [] cur rest) = true := rfl

theorem mkTree_ok1s {toks : List Token} {ty : TreeType} {s : Tree}
    {cur rest : List Token} (h1 : startOf toks cur ≤ s.start)
    (h2 : s.stop ≤ startOf toks rest) (hs : allOkT s = true) :
    allOkT (mkTree toks ty [Item.sub s] cur rest) = true :=
  mkTree_allOk (segFit_single (x := Item.sub s) h1 h2) (by simp [allOkI, hs])

theorem mkTree_ok_tok1 {toks : List Token} {ty : TreeType} {tk : Token}
    {cur rest : List Token} (h1 : startOf toks cur ≤ tk.start)
    (h2 : tk.stop ≤ startOf toks rest ∨ tk.start = startOf toks rest) :
    allOkT (mkTree toks ty [Item.tok tk] cur rest) = true := by
  show (fitWithB lastFitB _ _ _ && allOkI _) = true
  simp only [fitWithB, lastFitB, iStart, allOkI, Bool.and_true, Bool.and_eq_true,
    decide_eq_true_eq, Bool.or_eq_true]
  exact ⟨h1, h2⟩

theorem mkTree_ok_last_tok {toks : List Token} {ty : TreeType} {pre : List Item}
    {tk : Token} {cur rest : List Token}
    (hseg : segFit (startOf toks cur) tk.start pre)
    (hlast : tk.stop ≤ startOf toks rest ∨ tk.start = startOf toks rest)
    (hI : allOkI (pre ++ [Item.tok tk]) = true) :
    allOkT (mkTree toks ty (pre ++ [Item.tok tk]) cur rest) = true := by
  refine mkTree_allOk_weak hseg ?_ hI
  simp only [lastFitB, Bool.or_eq_true, decide_eq_true_eq]
  exact hlast

theorem mkTree_ok_items {toks : List Token} {ty : TreeType} {items : List Item}
    {cur mid rest : List Token}
    (hseg : segFit (startOf toks cur) (startOf toks mid) items)
    (hI : allOkI items = true) (hle : startOf toks mid ≤ startOf toks rest) :
    allOkT (mkTree toks ty items cur rest) = true :=
  mkTree_allOk (segFit_weaken hseg hle) hI

/-- `firstAlt []` never succeeds. -/
theorem firstAlt_runOk_nil {toks : List Token} : RunOk toks (firstAlt []) := by
  intro cur err t rest err' _ h
  simp [firstAlt] at h

theorem firstAlt_runOk_cons {toks : List Token} {f : PFn} {fs : List PFn}
    (h1 : RunOk toks f) (h2 : RunOk toks (firstAlt fs)) :
    RunOk toks (firstAlt (f :: fs)) := by
  intro cur err t rest err' hcur h
  unfold firstAlt at h
  split at h
  · cases h
  · next r e heq =>
    cases h
    exact h1 cur err t rest err' hcur heq
  · next e heq =>
    exact h2 cur e t rest err' hcur h

/-- The prefix-operator loop keeps the cursor a suffix, yields well-placed
token children, and fits the consumed segment whenever it did not exhaust
the input. -/
theorem uopsLoop_spec {toks : List Token} (hwf : TokensWf toks)
    {ops : List TokenType} :
    ∀ cur, cur <:+ toks →
      (uopsLoop ops cur).2 <:+ cur ∧ allOkI (uopsLoop ops cur).1 = true ∧
      ((uopsLoop ops cur).2 ≠ [] →
        segFit (startOf toks cur) (startOf toks (uopsLoop ops cur).2)
          (uopsLoop ops cur).1) := by
  intro cur
  induction cur with
  | nil =>
    intro _
    exact ⟨List.suffix_refl _, rfl, fun hne => absurd rfl hne⟩
  | cons t rest0 ih =>
    intro hcur
    by_cases hc : t.type ∈ ops
    · have hres : uopsLoop ops (t :: rest0) =
          (Item.tok t :: (uopsLoop ops rest0).1, (uopsLoop ops rest0).2) := by
        simp [uopsLoop, hc]
      obtain ⟨ih1, ih2, ih3⟩ := ih ((List.suffix_cons t rest0).trans hcur)
      rw [hres]
      refine ⟨ih1.trans (List.suffix_cons t rest0), ?_, ?_⟩
      · show allOkI ((uopsLoop ops rest0).1) = true
        exact ih2
      · intro hne
        have hr0ne : rest0 ≠ [] := by
          intro hr
          rw [hr] at hne
          exact hne rfl
        have hgap : t.stop ≤ startOf toks rest0 := tok_le_startOf hwf hcur hr0ne
        exact ⟨Nat.le_refl _, segFit_mono_lo (ih3 hne) hgap⟩
    · have hres : uopsLoop ops (t :: rest0) = ([], t :: rest0) := by
        simp [uopsLoop, hc]
      rw [hres]
      exact ⟨List.suffix_refl _, rfl, fun _ => Nat.le_refl _⟩

/-- A generic binary tier preserves the success invariant. -/
theorem tierStepOk {toks : List Token} (hwf : TokensWf toks) {ty : TreeType}
    {msg : String} {ops : List TokenType} {pm : PushMode} {lhs : PFn}
    {rhs : Token → PFn} (hl : RunOk toks lhs) (hr : ∀ op, RunOk toks (rhs op))
    (hne : pm = .opNone ∨ ∀ op, FailsEmpty (rhs op)) :
    RunOk toks (tierStep toks ty msg ops pm lhs rhs) := by
  intro cur err t rest err' hcur h
  unfold tierStep at h
  split at h
  · cases h
  · simp [pthrow] at h
  · next l c1 e1 heq =>
    obtain ⟨hc1, hst, hstp, hok⟩ := hl cur err l c1 e1 hcur heq
    split at h
    · cases h
    · next items rest2 e2 hloop =>
      have hseg0 : segFit (startOf toks cur) (startOf toks c1) [Item.sub l] :=
        segFit_single (x := Item.sub l) (by rw [iStart]; omega) (by rw [iStop]; omega)
      have hI0 : allOkI [Item.sub l] = true := by simp [allOkI, hok]
      obtain ⟨ho1, ho2, ho3⟩ := tierLoopOk hwf hr hne (c1.length + 1) [Item.sub l]
        c1 e1 (startOf toks cur) (items, rest2, e2) (hc1.trans hcur) hseg0 hI0 hloop
      cases h
      refine ⟨ho1.trans hc1, rfl, rfl, ?_⟩
      refine fitOut_mkTree ?_ ho3
      rcases ho2 with hs | ⟨_, pre, tk, ha, hb, hc⟩
      · exact Or.inl hs
      · exact Or.inr ⟨pre, tk, ha, hb, hc⟩

end Rue
namespace Rue

theorem runOk_unionType {toks : List Token} (hwf : TokensWf toks) {f : Nat}
    (ih : ∀ s, RunOk toks (run toks f s)) :
    RunOk toks (run toks (f + 1) .unionType) := by
  intro cur err t rest err2 hcur h
  rw [run_unionType_eq] at h
  exact tierStepOk hwf (ih _) (fun _ => ih _) (Or.inl rfl) cur err t rest err2 hcur h

theorem runOk_intersectionType {toks : List Token} (hwf : TokensWf toks) {f : Nat}
    (ih : ∀ s, RunOk toks (run toks f s)) :
    RunOk toks (run toks (f + 1) .intersectionType) := by
  intro cur err t rest err2 hcur h
  rw [run_intersectionType_eq] at h
  exact tierStepOk hwf (ih _) (fun _ => ih _) (Or.inl rfl) cur err t rest err2 hcur h

theorem runOk_expressionSequence {toks : List Token} (hwf : TokensWf toks) {f : Nat}
    (ih : ∀ s, RunOk toks (run toks f s)) :
    RunOk toks (run toks (f + 1) .expressionSequence) := by
  intro cur err t rest err2 hcur h
  rw [run_expressionSequence_eq] at h
  exact tierStepOk hwf (ih _) (fun _ => ih _) (Or.inl rfl) cur err t rest err2 hcur h

theorem runOk_coalesceExpression {toks : List Token} (hwf : TokensWf toks) {f : Nat}
    (ih : ∀ s, RunOk toks (run toks f s)) :
    RunOk toks (run toks (f + 1) .coalesceExpression) := by
  intro cur err t rest err2 hcur h
  rw [run_coalesceExpression_eq] at h
  exact tierStepOk hwf (ih _) (fun _ => ih _) (Or.inl rfl) cur err t rest err2 hcur h

theorem runOk_logicalOrExpression {toks : List Token} (hwf : TokensWf toks) {f : Nat}
    (ih : ∀ s, RunOk toks (run toks f s)) :
    RunOk toks (run toks (f + 1) .logicalOrExpression) := by
  intro cur err t rest err2 hcur h
  rw [run_logicalOrExpression_eq] at h
  exact tierStepOk hwf (ih _) (fun _ => ih _) (Or.inl rfl) cur err t rest err2 hcur h

theorem runOk_logicalAndExpression {toks : List Token} (hwf : TokensWf toks) {f : Nat}
    (ih : ∀ s, RunOk toks (run toks f s)) :
    RunOk toks (run toks (f + 1) .logicalAndExpression) := by
  intro cur err t rest err2 hcur h
  rw [run_logicalAndExpression_eq] at h
  exact tierStepOk hwf (ih _) (fun _ => ih _) (Or.inl rfl) cur err t rest err2 hcur h

theorem runOk_bitwiseOrExpression {toks : List Token} (hwf : TokensWf toks) {f : Nat}
    (ih : ∀ s, RunOk toks (run toks f s)) :
    RunOk toks (run toks (f + 1) .bitwiseOrExpression) := by
  intro cur err t rest err2 hcur h
  rw [run_bitwiseOrExpression_eq] at h
  exact tierStepOk hwf (ih _) (fun _ => ih _) (Or.inl rfl) cur err t rest err2 hcur h

theorem runOk_bitwiseXorExpression {toks : List Token} (hwf : TokensWf toks) {f : Nat}
    (ih : ∀ s, RunOk toks (run toks f s)) :
    RunOk toks (run toks (f + 1) .bitwiseXorExpression) := by
  intro cur err t rest err2 hcur h
  rw [run_bitwiseXorExpression_eq] at h
  exact tierStepOk hwf (ih _) (fun _ => ih _) (Or.inl rfl) cur err t rest err2 hcur h

theorem runOk_bitwiseAndExpression {toks : List Token} (hwf : TokensWf toks) {f : Nat}
    (ih : ∀ s, RunOk toks (run toks f s)) :
    RunOk toks (run toks (f + 1) .bitwiseAndExpression) := by
  intro cur err t rest err2 hcur h
  rw [run_bitwiseAndExpression_eq] at h
  exact tierStepOk hwf (ih _) (fun _ => ih _) (Or.inl rfl) cur err t rest err2 hcur h

theorem runOk_equalityExpression {toks : List Token} (hwf : TokensWf toks) {f : Nat}
    (ih : ∀ s, RunOk toks (run toks f s)) :
    RunOk toks (run toks (f + 1) .equalityExpression) := by
  intro cur err t rest err2 hcur h
  rw [run_equalityExpression_eq] at h
  exact tierStepOk hwf (ih _) (fun _ => ih _)
    (Or.inr fun _ => failsEmpty_comparisonExpression toks f) cur err t rest err2 hcur h

theorem runOk_shiftExpression {toks : List Token} (hwf : TokensWf toks) {f : Nat}
    (ih : ∀ s, RunOk toks (run toks f s)) :
    RunOk toks (run toks (f + 1) .shiftExpression) := by
  intro cur err t rest err2 hcur h
  rw [run_shiftExpression_eq] at h
  exact tierStepOk hwf (ih _) (fun _ => ih _)
    (Or.inr fun _ => failsEmpty_termExpression toks f) cur err t rest err2 hcur h

theorem runOk_termExpression {toks : List Token} (hwf : TokensWf toks) {f : Nat}
    (ih : ∀ s, RunOk toks (run toks f s)) :
    RunOk toks (run toks (f + 1) .termExpression) := by
  intro cur err t rest err2 hcur h
  rw [run_termExpression_eq] at h
  exact tierStepOk hwf (ih _) (fun _ => ih _)
    (Or.inr fun _ => failsEmpty_factorExpression toks f) cur err t rest err2 hcur h

theorem runOk_factorExpression {toks : List Token} (hwf : TokensWf toks) {f : Nat}
    (ih : ∀ s, RunOk toks (run toks f s)) :
    RunOk toks (run toks (f + 1) .factorExpression) := by
  intro cur err t rest err2 hcur h
  rw [run_factorExpression_eq] at h
  exact tierStepOk hwf (ih _) (fun _ => ih _)
    (Or.inr fun _ => failsEmpty_rangeExpression toks f) cur err t rest err2 hcur h

theorem runOk_comparisonExpression {toks : List Token} (hwf : TokensWf toks) {f : Nat}
    (ih : ∀ s, RunOk toks (run toks f s)) :
    RunOk toks (run toks (f + 1) .comparisonExpression) := by
  intro cur err t rest err2 hcur h
  rw [run_comparisonExpression_eq] at h
  refine tierStepOk hwf (ih _) ?_ ?_ cur err t rest err2 hcur h
  · intro op
    by_cases hop : (op.type = TokenType.AsKeyword ∨ op.type = TokenType.IsKeyword)
    · rw [if_pos hop]
      exact ih _
    · rw [if_neg hop]
      exact ih _
  · refine Or.inr fun op => ?_
    by_cases hop : (op.type = TokenType.AsKeyword ∨ op.type = TokenType.IsKeyword)
    · rw [if_pos hop]
      exact failsEmpty_unaryType toks f
    · rw [if_neg hop]
      exact failsEmpty_shiftExpression toks f

theorem runOk_body {toks : List Token} (hwf : TokensWf toks) {f : Nat}
    (ih : ∀ s, RunOk toks (run toks f s)) :
    RunOk toks (run toks (f + 1) .body) := by
  intro cur err t rest err2 hcur h
  rw [run_body_eq] at h
  split at h
  · cases h
  · next items rest2 e1 hloop =>
    obtain ⟨ho1, ho2, ho3⟩ := stmtLoopOk hwf (ih .statement) (cur.length + 1) [] cur err
      (startOf toks cur) (items, rest2, e1) hcur (Nat.le_refl _) rfl hloop
    cases h
    exact ⟨ho1, rfl, rfl, mkTree_allOk ho2 ho3⟩

theorem runOk_statement {toks : List Token} (hwf : TokensWf toks) {f : Nat}
    (ih : ∀ s, RunOk toks (run toks f s)) :
    RunOk toks (run toks (f + 1) .statement) := by
  intro cur err t rest err2 hcur h
  rw [run_statement_eq] at h
  have hfa : RunOk toks (firstAlt
      [run toks f .labeledStatement, run toks f .fieldStatement,
       run toks f .expressionStatement, run toks f .defStatement,
       run toks f .ifStatement, run toks f .whileStatement,
       run toks f .matchStatement, run toks f .doStatement,
       run toks f .forStatement, run toks f .returnStatement,
       run toks f .continueStatement, run toks f .breakStatement,
       run toks f .blockStatement, run toks f .emptyStatement]) := by
    repeat
      first
      | exact firstAlt_runOk_nil
      | refine firstAlt_runOk_cons (ih _) ?_
  split at h
  · cases h
  · simp [pthrow] at h
  · next st c1 e1 heq =>
    obtain ⟨hc1, hst1, hstp1, hok1⟩ := hfa cur err st c1 e1 hcur heq
    cases h
    exact ⟨hc1, rfl, rfl, mkTree_ok1s (by omega) (by omega) hok1⟩

end Rue
namespace Rue

theorem runOk_emptyStatement {toks : List Token} (hwf : TokensWf toks) {f : Nat}
    (ih : ∀ s, RunOk toks (run toks f s)) :
    RunOk toks (run toks (f + 1) .emptyStatement) := by
  intro cur err t rest err2 hcur h
  rw [run_emptyStatement_eq] at h
  split at h
  · simp [pthrow] at h
  · next sc c1 hc =>
    have hcons := consumeT_spec hc
    subst hcons
    cases h
    exact ⟨List.suffix_cons sc _, rfl, rfl, mkTree_ok0⟩

theorem runOk_expressionStatement {toks : List Token} (hwf : TokensWf toks) {f : Nat}
    (ih : ∀ s, RunOk toks (run toks f s)) :
    RunOk toks (run toks (f + 1) .expressionStatement) := by
  intro cur err t rest err2 hcur h
  rw [run_expressionStatement_eq] at h
  split at h
  · cases h
  · simp [pthrow] at h
  · next sq c1 e1 heq =>
    obtain ⟨hc1, hst1, hstp1, hok1⟩ := ih .expressionSequence cur err sq c1 e1 hcur heq
    split at h
    · simp [pthrow] at h
    · next sc c2 hc2 =>
      have hcons := consumeT_spec hc2
      subst hcons
      have hs1 : (sc :: c2) <:+ toks := hc1.trans hcur
      have he1 : startOf toks (sc :: c2) = sc.start := rfl
      have hl1 : sc.start ≤ startOf toks c2 := startOf_cons_le hwf hs1
      cases h
      refine ⟨(List.suffix_cons sc _).trans hc1, rfl, rfl, ?_⟩
      exact mkTree_ok1s (by omega) (by omega) hok1

theorem runOk_labeledStatement {toks : List Token} (hwf : TokensWf toks) {f : Nat}
    (ih : ∀ s, RunOk toks (run toks f s)) :
    RunOk toks (run toks (f + 1) .labeledStatement) := by
  intro cur err t rest err2 hcur h
  rw [run_labeledStatement_eq] at h
  split at h
  · simp [pthrow] at h
  · next idt c1 hc =>
    have hcons1 := consumeT_spec hc
    subst hcons1
    split at h
    · simp [pthrow] at h
    · next cl c2 hc2 =>
      have hcons2 := consumeT_spec hc2
      subst hcons2
      have hs1 : (cl :: c2) <:+ toks := (List.suffix_cons idt _).trans hcur
      have hs2 : c2 <:+ toks := (List.suffix_cons cl _).trans hs1
      split at h
      · cases h
      · simp [pthrow] at h
      · next st c3 e1 heq =>
        obtain ⟨hc3, hst1, hstp1, hok1⟩ := ih .statement c2 err st c3 e1 hs2 heq
        cases h
        have he0 : startOf toks (idt :: cl :: c2) = idt.start := rfl
        have hb1 : idt.stop ≤ startOf toks (cl :: c2) :=
          tok_le_startOf hwf hcur (by simp)
        have he1 : startOf toks (cl :: c2) = cl.start := rfl
        have hb2 : cl.start ≤ startOf toks c2 := startOf_cons_le hwf hs1
        refine ⟨(hc3.trans (List.suffix_cons cl _)).trans (List.suffix_cons idt _),
          rfl, rfl, ?_⟩
        refine mkTree_allOk (segFit_two ?_ ?_ ?_) (by simp [allOkI, hok1]) <;>
          simp only [iStart, iStop] <;> omega

theorem runOk_blockStatement {toks : List Token} (hwf : TokensWf toks) {f : Nat}
    (ih : ∀ s, RunOk toks (run toks f s)) :
    RunOk toks (run toks (f + 1) .blockStatement) := by
  intro cur err t rest err2 hcur h
  rw [run_blockStatement_eq] at h
  split at h
  · simp [pthrow] at h
  · next ob c1 hc =>
    have hcons1 := consumeT_spec hc
    subst hcons1
    have hs1 : c1 <:+ toks := (List.suffix_cons ob _).trans hcur
    split at h
    · cases h
    · next items c2 e1 hloop =>
      obtain ⟨ho1, ho2, ho3⟩ := stmtLoopOk hwf (ih .statement) (c1.length + 1) [] c1 err
        (startOf toks (ob :: c1)) (items, c2, e1) hs1 (startOf_cons_le hwf hcur) rfl hloop
      split at h
      · simp [pthrow] at h
      · next cb c3 hc3 =>
        have hcons3 := consumeT_spec hc3
        subst hcons3
        have hs2 : (cb :: c3) <:+ toks := ho1.trans hs1
        have hw : startOf toks (cb :: c3) ≤ startOf toks c3 := startOf_cons_le hwf hs2
        cases h
        refine ⟨((List.suffix_cons cb _).trans ho1).trans (List.suffix_cons ob _),
          rfl, rfl, ?_⟩
        exact mkTree_allOk (segFit_weaken ho2 hw) ho3

theorem runOk_whileStatement {toks : List Token} (hwf : TokensWf toks) {f : Nat}
    (ih : ∀ s, RunOk toks (run toks f s)) :
    RunOk toks (run toks (f + 1) .whileStatement) := by
  intro cur err t rest err2 hcur h
  rw [run_whileStatement_eq] at h
  split at h
  · simp [pthrow] at h
  · next wk c1 hc1 =>
    have hcons1 := consumeT_spec hc1
    subst hcons1
    split at h
    · simp [pthrow] at h
    · next op c2 hc2 =>
      have hcons2 := consumeT_spec hc2
      subst hcons2
      have hs1 : (op :: c2) <:+ toks := (List.suffix_cons wk _).trans hcur
      have hs2 : c2 <:+ toks := (List.suffix_cons op _).trans hs1
      split at h
      · cases h
      · simp [pthrow] at h
      · next cond c3 e1 heq =>
        obtain ⟨hc3, hstC, hspC, hokC⟩ := ih .expressionSequence c2 err cond c3 e1 hs2 heq
        split at h
        · simp [pthrow] at h
        · next cp c4 hc4 =>
          have hcons4 := consumeT_spec hc4
          subst hcons4
          have hs3 : (cp :: c4) <:+ toks := hc3.trans hs2
          have hs4 : c4 <:+ toks := (List.suffix_cons cp _).trans hs3
          split at h
          · cases h
          · simp [pthrow] at h
          · next st c5 e2 heq2 =>
            obtain ⟨hc5, hstS, hspS, hokS⟩ := ih .statement c4 e1 st c5 e2 hs4 heq2
            cases h
            have he0 : startOf toks (wk :: op :: c2) = wk.start := rfl
            have he1 : startOf toks (cp :: c4) = cp.start := rfl
            have hl1 : cp.start ≤ startOf toks c4 := startOf_cons_le hwf hs3
            refine ⟨(((hc5.trans (List.suffix_cons cp _)).trans hc3).trans
              (List.suffix_cons op _)).trans (List.suffix_cons wk _), rfl, rfl, ?_⟩
            have hl0 : wk.start ≤ startOf toks (op :: c2) := startOf_cons_le hwf hcur
            have he2 : startOf toks (op :: c2) = op.start := rfl
            have hl2 : op.start ≤ startOf toks c2 := startOf_cons_le hwf hs1
            refine mkTree_allOk (segFit_two ?_ ?_ ?_)
              (by simp [allOkI, hokC, hokS]) <;> simp only [iStart, iStop] <;> omega

theorem runOk_ifStatement {toks : List Token} (hwf : TokensWf toks) {f : Nat}
    (ih : ∀ s, RunOk toks (run toks f s)) :
    RunOk toks (run toks (f + 1) .ifStatement) := by
  intro cur err t rest err2 hcur h
  rw [run_ifStatement_eq] at h
  split at h
  · simp [pthrow] at h
  · next ik c1 hc1 =>
    have hcons1 := consumeT_spec hc1
    subst hcons1
    split at h
    · simp [pthrow] at h
    · next op c2 hc2 =>
      have hcons2 := consumeT_spec hc2
      subst hcons2
      have hs1 : (op :: c2) <:+ toks := (List.suffix_cons ik _).trans hcur
      have hs2 : c2 <:+ toks := (List.suffix_cons op _).trans hs1
      split at h
      · cases h
      · simp [pthrow] at h
      · next cond c3 e1 heq =>
        obtain ⟨hc3, hstC, hspC, hokC⟩ := ih .expressionSequence c2 err cond c3 e1 hs2 heq
        split at h
        · simp [pthrow] at h
        · next cp c4 hc4 =>
          have hcons4 := consumeT_spec hc4
          subst hcons4
          have hs3 : (cp :: c4) <:+ toks := hc3.trans hs2
          have hs4 : c4 <:+ toks := (List.suffix_cons cp _).trans hs3
          split at h
          · cases h
          · simp [pthrow] at h
          · next st c5 e2 heq2 =>
            obtain ⟨hc5, hstS, hspS, hokS⟩ := ih .statement c4 e1 st c5 e2 hs4 heq2
            have hs5 : c5 <:+ toks := hc5.trans hs4
            have hl0 : ik.start ≤ startOf toks (op :: c2) := startOf_cons_le hwf hcur
            have he0 : startOf toks (ik :: op :: c2) = ik.start := rfl
            have he2 : startOf toks (op :: c2) = op.start := rfl
            have hl2 : op.start ≤ startOf toks c2 := startOf_cons_le hwf hs1
            have he1 : startOf toks (cp :: c4) = cp.start := rfl
            have hl1 : cp.start ≤ startOf toks c4 := startOf_cons_le hwf hs3
            split at h
            · cases h
              refine ⟨(((hc5.trans (List.suffix_cons cp _)).trans hc3).trans
                (List.suffix_cons op _)).trans (List.suffix_cons ik _), rfl, rfl, ?_⟩
              refine mkTree_allOk (segFit_two ?_ ?_ ?_)
                (by simp [allOkI, hokC, hokS]) <;> simp only [iStart, iStop] <;> omega
            · next ek c6 hc6 =>
              have hcons6 := consumeT_spec hc6
              subst hcons6
              have hs6 : (ek :: c6) <:+ toks := hc5.trans hs4
              have hs7 : c6 <:+ toks := (List.suffix_cons ek _).trans hs6
              split at h
              · cases h
              · simp [pthrow] at h
              · next st2 c7 e3 heq3 =>
                obtain ⟨hc7, hstS2, hspS2, hokS2⟩ := ih .statement c6 e2 st2 c7 e3 hs7 heq3
                cases h
                have he3 : startOf toks (ek :: c6) = ek.start := rfl
                have hl3 : ek.start ≤ startOf toks c6 := startOf_cons_le hwf hs6
                refine ⟨((((hc7.trans (List.suffix_cons ek _)).trans hc5).trans
                  (List.suffix_cons cp _)).trans hc3).trans
                  ((List.suffix_cons op _).trans (List.suffix_cons ik _)), rfl, rfl, ?_⟩
                refine mkTree_allOk (segFit_three ?_ ?_ ?_ ?_)
                  (by simp [allOkI, hokC, hokS, hokS2]) <;>
                  simp only [iStart, iStop] <;> omega

theorem runOk_returnStatement {toks : List Token} (hwf : TokensWf toks) {f : Nat}
    (ih : ∀ s, RunOk toks (run toks f s)) :
    RunOk toks (run toks (f + 1) .returnStatement) := by
  intro cur err t rest err2 hcur h
  rw [run_returnStatement_eq] at h
  split at h
  · simp [pthrow] at h
  · next rk c1 hc1 =>
    have hcons1 := consumeT_spec hc1
    subst hcons1
    have hs1 : c1 <:+ toks := (List.suffix_cons rk _).trans hcur
    split at h
    · cases h
    · next vOpt e1 heq =>
      split at h
      · next v c2 =>
        obtain ⟨hc2, hstV, hspV, hokV⟩ := ih .expressionSequence c1 err v c2 e1 hs1 heq
        split at h
        · simp [pthrow] at h
        · next sc c3 hc3 =>
          have hcons3 := consumeT_spec hc3
          subst hcons3
          have hs2 : (sc :: c3) <:+ toks := hc2.trans hs1
          have he1 : startOf toks (sc :: c3) = sc.start := rfl
          have hl1 : sc.start ≤ startOf toks c3 := startOf_cons_le hwf hs2
          have hl0 : rk.start ≤ startOf toks c1 := startOf_cons_le hwf hcur
          have he0 : startOf toks (rk :: c1) = rk.start := rfl
          cases h
          refine ⟨((List.suffix_cons sc _).trans hc2).trans (List.suffix_cons rk _),
            rfl, rfl, ?_⟩
          exact mkTree_ok1s (by omega) (by omega) hokV
      · split at h
        · simp [pthrow] at h
        · next sc c3 hc3 =>
          have hcons3 := consumeT_spec hc3
          subst hcons3
          cases h
          exact ⟨(List.suffix_cons sc _).trans (List.suffix_cons rk _),
            rfl, rfl, mkTree_ok0⟩

theorem runOk_continueStatement {toks : List Token} (hwf : TokensWf toks) {f : Nat}
    (ih : ∀ s, RunOk toks (run toks f s)) :
    RunOk toks (run toks (f + 1) .continueStatement) := by
  intro cur err t rest err2 hcur h
  rw [run_continueStatement_eq] at h
  split at h
  · simp [pthrow] at h
  · next ck c1 hc1 =>
    have hcons1 := consumeT_spec hc1
    subst hcons1
    have hs1 : c1 <:+ toks := (List.suffix_cons ck _).trans hcur
    split at h
    · next idt c2 hc2 =>
      have hcons2 := consumeT_spec hc2
      subst hcons2
      have hs2 : (idt :: c2) <:+ toks := hs1
      have hs3 : c2 <:+ toks := (List.suffix_cons idt _).trans hs2
      split at h
      · simp [pthrow] at h
      · next sc c3 hc3 =>
        have hcons3 := consumeT_spec hc3
        subst hcons3
        have hl0 : ck.start ≤ startOf toks (idt :: sc :: c3) := startOf_cons_le hwf hcur
        have he0 : startOf toks (ck :: idt :: sc :: c3) = ck.start := rfl
        have he1 : startOf toks (idt :: sc :: c3) = idt.start := rfl
        have hb1 : idt.stop ≤ startOf toks (sc :: c3) :=
          tok_le_startOf hwf hs2 (by simp)
        have he2 : startOf toks (sc :: c3) = sc.start := rfl
        have hl2 : sc.start ≤ startOf toks c3 :=
          startOf_cons_le hwf ((List.suffix_cons idt _).trans hs2)
        cases h
        refine ⟨((List.suffix_cons sc _).trans (List.suffix_cons idt _)).trans
          (List.suffix_cons ck _), rfl, rfl, ?_⟩
        exact mkTree_ok_tok1 (by omega) (Or.inl (by omega))
    · split at h
      · simp [pthrow] at h
      · next sc c3 hc3 =>
        have hcons3 := consumeT_spec hc3
        subst hcons3
        cases h
        exact ⟨(List.suffix_cons sc _).trans (List.suffix_cons ck _),
          rfl, rfl, mkTree_ok0⟩

theorem runOk_breakStatement {toks : List Token} (hwf : TokensWf toks) {f : Nat}
    (ih : ∀ s, RunOk toks (run toks f s)) :
    RunOk toks (run toks (f + 1) .breakStatement) := by
  intro cur err t rest err2 hcur h
  rw [run_breakStatement_eq] at h
  split at h
  · simp [pthrow] at h
  · next bk c1 hc1 =>
    have hcons1 := consumeT_spec hc1
    subst hcons1
    have hs1 : c1 <:+ toks := (List.suffix_cons bk _).trans hcur
    split at h
    · next idt c2 hc2 =>
      have hcons2 := consumeT_spec hc2
      subst hcons2
      have hs2 : (idt :: c2) <:+ toks := hs1
      split at h
      · simp [pthrow] at h
      · next sc c3 hc3 =>
        have hcons3 := consumeT_spec hc3
        subst hcons3
        have hl0 : bk.start ≤ startOf toks (idt :: sc :: c3) := startOf_cons_le hwf hcur
        have he0 : startOf toks (bk :: idt :: sc :: c3) = bk.start := rfl
        have he1 : startOf toks (idt :: sc :: c3) = idt.start := rfl
        have hb1 : idt.stop ≤ startOf toks (sc :: c3) :=
          tok_le_startOf hwf hs2 (by simp)
        have he2 : startOf toks (sc :: c3) = sc.start := rfl
        have hl2 : sc.start ≤ startOf toks c3 :=
          startOf_cons_le hwf ((List.suffix_cons idt _).trans hs2)
        cases h
        refine ⟨((List.suffix_cons sc _).trans (List.suffix_cons idt _)).trans
          (List.suffix_cons bk _), rfl, rfl, ?_⟩
        exact mkTree_ok_tok1 (by omega) (Or.inl (by omega))
    · split at h
      · simp [pthrow] at h
      · next sc c3 hc3 =>
        have hcons3 := consumeT_spec hc3
        subst hcons3
        cases h
        exact ⟨(List.suffix_cons sc _).trans (List.suffix_cons bk _),
          rfl, rfl, mkTree_ok0⟩

end Rue
namespace Rue

theorem runOk_matchOption {toks : List Token} (hwf : TokensWf toks) {f : Nat}
    (ih : ∀ s, RunOk toks (run toks f s)) :
    RunOk toks (run toks (f + 1) .matchOption) := by
  intro cur err t rest err2 hcur h
  rw [run_matchOption_eq] at h
  split at h
  · cases h
  · simp [pthrow] at h
  · next expr c1 e1 heq =>
    obtain ⟨hc1, hstE, hspE, hokE⟩ := ih .assignmentExpression cur err expr c1 e1 hcur heq
    split at h
    · simp [pthrow] at h
    · next ar c2 hc2 =>
      have hcons2 := consumeT_spec hc2
      subst hcons2
      have hs1 : (ar :: c2) <:+ toks := hc1.trans hcur
      have hs2 : c2 <:+ toks := (List.suffix_cons ar _).trans hs1
      split at h
      · cases h
      · simp [pthrow] at h
      · next st c3 e2 heq2 =>
        obtain ⟨hc3, hstS, hspS, hokS⟩ := ih .statement c2 e1 st c3 e2 hs2 heq2
        have he1 : startOf toks (ar :: c2) = ar.start := rfl
        have hl1 : ar.start ≤ startOf toks c2 := startOf_cons_le hwf hs1
        cases h
        refine ⟨(hc3.trans (List.suffix_cons ar _)).trans hc1, rfl, rfl, ?_⟩
        refine mkTree_allOk (segFit_two ?_ ?_ ?_) (by simp [allOkI, hokE, hokS]) <;>
          simp only [iStart, iStop] <;> omega

theorem runOk_doStatement {toks : List Token} (hwf : TokensWf toks) {f : Nat}
    (ih : ∀ s, RunOk toks (run toks f s)) :
    RunOk toks (run toks (f + 1) .doStatement) := by
  intro cur err t rest err2 hcur h
  rw [run_doStatement_eq] at h
  split at h
  · simp [pthrow] at h
  · next dk c1 hc1 =>
    have hcons1 := consumeT_spec hc1
    subst hcons1
    have hs1 : c1 <:+ toks := (List.suffix_cons dk _).trans hcur
    split at h
    · cases h
    · simp [pthrow] at h
    · next st c2 e1 heq =>
      obtain ⟨hc2, hstS, hspS, hokS⟩ := ih .statement c1 err st c2 e1 hs1 heq
      split at h
      · simp [pthrow] at h
      · next wk c3 hc3 =>
        have hcons3 := consumeT_spec hc3
        subst hcons3
        have hs2 : (wk :: c3) <:+ toks := hc2.trans hs1
        split at h
        · simp [pthrow] at h
        · next op2 c4 hc4 =>
          have hcons4 := consumeT_spec hc4
          subst hcons4
          have hs3 : (op2 :: c4) <:+ toks := (List.suffix_cons wk _).trans hs2
          have hs4 : c4 <:+ toks := (List.suffix_cons op2 _).trans hs3
          split at h
          · cases h
          · simp [pthrow] at h
          · next cond c5 e2 heq2 =>
            obtain ⟨hc5, hstC, hspC, hokC⟩ :=
              ih .expressionSequence c4 e1 cond c5 e2 hs4 heq2
            split at h
            · simp [pthrow] at h
            · next cp c6 hc6 =>
              have hcons6 := consumeT_spec hc6
              subst hcons6
              have hs5 : (cp :: c6) <:+ toks := hc5.trans hs4
              have he0 : startOf toks (dk :: c1) = dk.start := rfl
              have hl0 : dk.start ≤ startOf toks c1 := startOf_cons_le hwf hcur
              have he2 : startOf toks (wk :: op2 :: c4) = wk.start := rfl
              have hl2 : wk.start ≤ startOf toks (op2 :: c4) := startOf_cons_le hwf hs2
              have he3 : startOf toks (op2 :: c4) = op2.start := rfl
              have hl3 : op2.start ≤ startOf toks c4 := startOf_cons_le hwf hs3
              have he5 : startOf toks (cp :: c6) = cp.start := rfl
              have hl5 : cp.start ≤ startOf toks c6 := startOf_cons_le hwf hs5
              cases h
              refine ⟨((((List.suffix_cons cp _).trans hc5).trans
                (List.suffix_cons op2 _)).trans
                ((List.suffix_cons wk _).trans hc2)).trans (List.suffix_cons dk _),
                rfl, rfl, ?_⟩
              refine mkTree_allOk (segFit_two ?_ ?_ ?_)
                (by simp [allOkI, hokS, hokC]) <;> simp only [iStart, iStop] <;> omega

theorem runOk_forStatement {toks : List Token} (hwf : TokensWf toks) {f : Nat}
    (ih : ∀ s, RunOk toks (run toks f s)) :
    RunOk toks (run toks (f + 1) .forStatement) := by
  intro cur err t rest err2 hcur h
  rw [run_forStatement_eq] at h
  split at h
  · simp [pthrow] at h
  · next fk c1 hc1 =>
    have hcons1 := consumeT_spec hc1
    subst hcons1
    split at h
    · simp [pthrow] at h
    · next op c2 hc2 =>
      have hcons2 := consumeT_spec hc2
      subst hcons2
      have hs1 : (op :: c2) <:+ toks := (List.suffix_cons fk _).trans hcur
      split at h
      · simp [pthrow] at h
      · next idt c3 hc3 =>
        have hcons3 := consumeT_spec hc3
        subst hcons3
        have hs2 : (idt :: c3) <:+ toks := (List.suffix_cons op _).trans hs1
        split at h
        · simp [pthrow] at h
        · next ink c4 hc4 =>
          have hcons4 := consumeT_spec hc4
          subst hcons4
          have hs3 : (ink :: c4) <:+ toks := (List.suffix_cons idt _).trans hs2
          have hs4 : c4 <:+ toks := (List.suffix_cons ink _).trans hs3
          split at h
          · cases h
          · simp [pthrow] at h
          · next ex c5 e1 heq =>
            obtain ⟨hc5, hstE, hspE, hokE⟩ :=
              ih .assignmentExpression c4 err ex c5 e1 hs4 heq
            split at h
            · simp [pthrow] at h
            · next cp c6 hc6 =>
              have hcons6 := consumeT_spec hc6
              subst hcons6
              have hs5 : (cp :: c6) <:+ toks := hc5.trans hs4
              have hs6 : c6 <:+ toks := (List.suffix_cons cp _).trans hs5
              split at h
              · cases h
              · simp [pthrow] at h
              · next st c7 e2 heq2 =>
                obtain ⟨hc7, hstS, hspS, hokS⟩ := ih .statement c6 e1 st c7 e2 hs6 heq2
                have he0 : startOf toks (fk :: op :: idt :: ink :: c4) = fk.start := rfl
                have hl0 : fk.start ≤ startOf toks (op :: idt :: ink :: c4) :=
                  startOf_cons_le hwf hcur
                have he1 : startOf toks (op :: idt :: ink :: c4) = op.start := rfl
                have hl1 : op.start ≤ startOf toks (idt :: ink :: c4) :=
                  startOf_cons_le hwf hs1
                have he2 : startOf toks (idt :: ink :: c4) = idt.start := rfl
                have hb2 : idt.stop ≤ startOf toks (ink :: c4) :=
                  tok_le_startOf hwf hs2 (by simp)
                have he3 : startOf toks (ink :: c4) = ink.start := rfl
                have hl3 : ink.start ≤ startOf toks c4 := startOf_cons_le hwf hs3
                have he5 : startOf toks (cp :: c6) = cp.start := rfl
                have hl5 : cp.start ≤ startOf toks c6 := startOf_cons_le hwf hs5
                cases h
                refine ⟨(((hc7.trans (List.suffix_cons cp _)).trans hc5).trans
                  ((List.suffix_cons ink _).trans (List.suffix_cons idt _))).trans
                  ((List.suffix_cons op _).trans (List.suffix_cons fk _)),
                  rfl, rfl, ?_⟩
                refine mkTree_allOk (segFit_three ?_ ?_ ?_ ?_)
                  (by simp [allOkI, hokE, hokS]) <;> simp only [iStart, iStop] <;> omega

theorem runOk_parameters {toks : List Token} (hwf : TokensWf toks) {f : Nat}
    (ih : ∀ s, RunOk toks (run toks f s)) :
    RunOk toks (run toks (f + 1) .parameters) := by
  intro cur err t rest err2 hcur h
  rw [run_parameters_eq] at h
  split at h
  · simp [pthrow] at h
  · next op c1 hc1 =>
    have hcons1 := consumeT_spec hc1
    subst hcons1
    have hs1 : c1 <:+ toks := (List.suffix_cons op _).trans hcur
    split at h
    · cases h
    · simp at h
    · next items c2 e1 hloop =>
      obtain ⟨ho1, ho2, ho3⟩ := commaLoopOk hwf (ih .parameter) (c1.length + 1) [] c1 err
        (startOf toks (op :: c1)) items c2 e1 hs1 (startOf_cons_le hwf hcur) rfl hloop
      split at h
      · simp [pthrow] at h
      · next cp c3 hc3 =>
        have hcons3 := consumeT_spec hc3
        subst hcons3
        have hs2 : (cp :: c3) <:+ toks := ho1.trans hs1
        have hw : startOf toks (cp :: c3) ≤ startOf toks c3 := startOf_cons_le hwf hs2
        cases h
        refine ⟨((List.suffix_cons cp _).trans ho1).trans (List.suffix_cons op _),
          rfl, rfl, ?_⟩
        exact mkTree_allOk (segFit_weaken ho2 hw) ho3

theorem runOk_parameter {toks : List Token} (hwf : TokensWf toks) {f : Nat}
    (ih : ∀ s, RunOk toks (run toks f s)) :
    RunOk toks (run toks (f + 1) .parameter) := by
  intro cur err t rest err2 hcur h
  rw [run_parameter_eq] at h
  split at h
  · simp [pthrow] at h
  · next it c1 hca =>
    have hcons := consumeAny_spec hca
    subst hcons
    have hs1 : c1 <:+ toks := (List.suffix_cons it _).trans hcur
    split at h
    · split at h
      · simp [pthrow] at h
      · next cl c2 hc2 =>
        have hcons2 := consumeT_spec hc2
        subst hcons2
        have hs2 : (cl :: c2) <:+ toks := (List.suffix_cons it _).trans hcur
        have hs3 : c2 <:+ toks := (List.suffix_cons cl _).trans hs2
        split at h
        · cases h
        · simp [pthrow] at h
        · next ty c3 e1 heq =>
          obtain ⟨hc3, hstT, hspT, hokT⟩ := ih .unaryType c2 err ty c3 e1 hs3 heq
          have he0 : startOf toks (it :: cl :: c2) = it.start := rfl
          have hb1 : it.stop ≤ startOf toks (cl :: c2) :=
            tok_le_startOf hwf hcur (by simp)
          have he1 : startOf toks (cl :: c2) = cl.start := rfl
          have hl1 : cl.start ≤ startOf toks c2 := startOf_cons_le hwf hs2
          cases h
          refine ⟨(hc3.trans (List.suffix_cons cl _)).trans (List.suffix_cons it _),
            rfl, rfl, ?_⟩
          refine mkTree_allOk (segFit_two ?_ ?_ ?_) (by simp [allOkI, hokT]) <;>
            simp only [iStart, iStop] <;> omega
    · have hdis : it.stop ≤ startOf toks c1 ∨ it.start = startOf toks c1 := by
        rcases tokStep hwf hcur with hg | ⟨_, hstart⟩
        · exact Or.inl hg
        · exact Or.inr hstart.symm
      cases h
      exact ⟨List.suffix_cons it _, rfl, rfl, mkTree_ok_tok1 (Nat.le_refl _) hdis⟩

end Rue
namespace Rue

theorem runOk_defStatement {toks : List Token} (hwf : TokensWf toks) {f : Nat}
    (ih : ∀ s, RunOk toks (run toks f s)) :
    RunOk toks (run toks (f + 1) .defStatement) := by
  intro cur err t rest err2 hcur h
  rw [run_defStatement_eq] at h
  have hfa : RunOk toks (firstAlt [run toks f .blockStatement, run toks f .emptyStatement]) :=
    firstAlt_runOk_cons (ih _) (firstAlt_runOk_cons (ih _) firstAlt_runOk_nil)
  split at h
  · simp [pthrow] at h
  · next dk c1 hc1 =>
    have hcons1 := consumeT_spec hc1
    subst hcons1
    split at h
    · simp [pthrow] at h
    · next idt c2 hc2 =>
      have hcons2 := consumeT_spec hc2
      subst hcons2
      have hs1 : (idt :: c2) <:+ toks := (List.suffix_cons dk _).trans hcur
      have hs2 : c2 <:+ toks := (List.suffix_cons idt _).trans hs1
      split at h
      · cases h
      · simp [pthrow] at h
      · next ps c3 e1 heqP =>
        obtain ⟨hc3, hstP, hspP, hokP⟩ := ih .parameters c2 err ps c3 e1 hs2 heqP
        have he0 : startOf toks (dk :: idt :: c2) = dk.start := rfl
        have hl0 : dk.start ≤ startOf toks (idt :: c2) := startOf_cons_le hwf hcur
        have he1 : startOf toks (idt :: c2) = idt.start := rfl
        have hb1 : idt.stop ≤ startOf toks c2 := by
          rcases tokStep hwf hs1 with hg | ⟨hnil, _⟩
          · exact hg
          · subst hnil
            exact absurd heqP (failsEmpty_parameters toks f err ps c3 e1)
        split at h
        · next cl c4 hc4 =>
          have hcons4 := consumeT_spec hc4
          subst hcons4
          have hs3 : (cl :: c4) <:+ toks := hc3.trans hs2
          have hs4 : c4 <:+ toks := (List.suffix_cons cl _).trans hs3
          split at h
          · cases h
          · simp [pthrow] at h
          · next ty c5 e2 heqT =>
            obtain ⟨hc5, hstT, hspT, hokT⟩ := ih .unaryType c4 e1 ty c5 e2 hs4 heqT
            have hs5 : c5 <:+ toks := hc5.trans hs4
            split at h
            · cases h
            · simp [pthrow] at h
            · next st c6 e3 heqS =>
              obtain ⟨hc6, hstS, hspS, hokS⟩ := hfa c5 e2 st c6 e3 hs5 heqS
              have he3 : startOf toks (cl :: c4) = cl.start := rfl
              have hl3 : cl.start ≤ startOf toks c4 := startOf_cons_le hwf hs3
              cases h
              refine ⟨(((hc6.trans hc5).trans (List.suffix_cons cl _)).trans
                hc3).trans ((List.suffix_cons idt _).trans (List.suffix_cons dk _)),
                rfl, rfl, ?_⟩
              refine mkTree_allOk (segFit_four ?_ ?_ ?_ ?_ ?_)
                (by simp [allOkI, hokP, hokT, hokS]) <;>
                simp only [iStart, iStop] <;> omega
        · split at h
          · cases h
          · simp [pthrow] at h
          · next st c6 e3 heqS =>
            obtain ⟨hc6, hstS, hspS, hokS⟩ := hfa c3 e1 st c6 e3 (hc3.trans hs2) heqS
            cases h
            refine ⟨((hc6.trans hc3).trans (List.suffix_cons idt _)).trans
              (List.suffix_cons dk _), rfl, rfl, ?_⟩
            refine mkTree_allOk (segFit_three ?_ ?_ ?_ ?_)
              (by simp [allOkI, hokP, hokS]) <;>
              simp only [iStart, iStop] <;> omega

theorem runOk_matchStatement {toks : List Token} (hwf : TokensWf toks) {f : Nat}
    (ih : ∀ s, RunOk toks (run toks f s)) :
    RunOk toks (run toks (f + 1) .matchStatement) := by
  intro cur err t rest err2 hcur h
  rw [run_matchStatement_eq] at h
  split at h
  · simp [pthrow] at h
  · next mk0 c1 hc1 =>
    have hcons1 := consumeT_spec hc1
    subst hcons1
    split at h
    · simp [pthrow] at h
    · next op c2 hc2 =>
      have hcons2 := consumeT_spec hc2
      subst hcons2
      have hs1 : (op :: c2) <:+ toks := (List.suffix_cons mk0 _).trans hcur
      have hs2 : c2 <:+ toks := (List.suffix_cons op _).trans hs1
      split at h
      · cases h
      · simp [pthrow] at h
      · next value c3 e1 heqV =>
        obtain ⟨hc3, hstV, hspV, hokV⟩ := ih .expressionSequence c2 err value c3 e1 hs2 heqV
        split at h
        · simp [pthrow] at h
        · next cp c4 hc4 =>
          have hcons4 := consumeT_spec hc4
          subst hcons4
          split at h
          · simp [pthrow] at h
          · next ob c5 hc5 =>
            have hcons5 := consumeT_spec hc5
            subst hcons5
            have hs3 : (cp :: ob :: c5) <:+ toks := hc3.trans hs2
            have hs4 : (ob :: c5) <:+ toks := (List.suffix_cons cp _).trans hs3
            have hs5 : c5 <:+ toks := (List.suffix_cons ob _).trans hs4
            have he0 : startOf toks (mk0 :: op :: c2) = mk0.start := rfl
            have hl0 : mk0.start ≤ startOf toks (op :: c2) := startOf_cons_le hwf hcur
            have he1 : startOf toks (op :: c2) = op.start := rfl
            have hl1 : op.start ≤ startOf toks c2 := startOf_cons_le hwf hs1
            have he3 : startOf toks (cp :: ob :: c5) = cp.start := rfl
            have hl3 : cp.start ≤ startOf toks (ob :: c5) := startOf_cons_le hwf hs3
            have he4 : startOf toks (ob :: c5) = ob.start := rfl
            have hl4 : ob.start ≤ startOf toks c5 := startOf_cons_le hwf hs4
            have hsegV : segFit (startOf toks (mk0 :: op :: c2)) (startOf toks c5)
                [Item.sub value] :=
              segFit_single (by rw [iStart]; omega) (by rw [iStop]; omega)
            split at h
            · cases h
            · next b items2 c6 e2 hloop =>
              obtain ⟨ho1, ho2, ho3⟩ := matchOptLoopOk hwf (ih .matchOption)
                (c5.length + 1) false [Item.sub value] c5 e1 (b, items2, c6, e2)
                hs5 (startOf toks (mk0 :: op :: c2)) hsegV (by simp [allOkI, hokV]) hloop
              dsimp only at ho1 ho2 ho3
              have hs6 : c6 <:+ toks := ho1.trans hs5
              split at h
              · cases h
              · next fbRes e3 heqB =>
                split at h
                · next fb c7 =>
                  obtain ⟨hc7, hstB, hspB, hokB⟩ := ih .body c6 e2 fb c7 e3 hs6 heqB
                  split at h
                  · simp [pthrow] at h
                  · next cb c8 hc8 =>
                    have hcons8 := consumeT_spec hc8
                    subst hcons8
                    have hs7 : (cb :: c8) <:+ toks := hc7.trans hs6
                    have he7 : startOf toks (cb :: c8) = cb.start := rfl
                    have hl7 : cb.start ≤ startOf toks c8 := startOf_cons_le hwf hs7
                    have hseg2 : segFit (startOf toks (mk0 :: op :: c2))
                        (startOf toks (cb :: c8)) (items2 ++ [Item.sub fb]) := by
                      have := segFit_append ho2 (x := Item.sub fb) (by rw [iStart]; omega)
                      rw [iStop, hspB] at this
                      exact this
                    have hI2 : allOkI (items2 ++ [Item.sub fb]) = true := by
                      rw [allOkI_append, ho3]
                      simp [allOkI, hokB]
                    cases h
                    refine ⟨((((List.suffix_cons cb _).trans hc7).trans ho1).trans
                      ((List.suffix_cons ob _).trans ((List.suffix_cons cp _).trans
                      hc3))).trans ((List.suffix_cons op _).trans
                      (List.suffix_cons mk0 _)), rfl, rfl, ?_⟩
                    exact mkTree_allOk (segFit_weaken hseg2 (by omega)) hI2
                · split at h
                  · split at h
                    · simp [pthrow] at h
                    · next cb c8 hc8 =>
                      have hcons8 := consumeT_spec hc8
                      subst hcons8
                      have hs7 : (cb :: c8) <:+ toks := ho1.trans hs5
                      have he7 : startOf toks (cb :: c8) = cb.start := rfl
                      have hl7 : cb.start ≤ startOf toks c8 := startOf_cons_le hwf hs7
                      cases h
                      refine ⟨(((List.suffix_cons cb _).trans ho1).trans
                        ((List.suffix_cons ob _).trans ((List.suffix_cons cp _).trans
                        hc3))).trans ((List.suffix_cons op _).trans
                        (List.suffix_cons mk0 _)), rfl, rfl, ?_⟩
                      exact mkTree_allOk (segFit_weaken ho2 (by omega)) ho3
                  · simp [pthrow] at h

end Rue
namespace Rue

theorem runOk_arrayType {toks : List Token} (hwf : TokensWf toks) {f : Nat}
    (ih : ∀ s, RunOk toks (run toks f s)) :
    RunOk toks (run toks (f + 1) .arrayType) := by
  intro cur err t rest err2 hcur h
  rw [run_arrayType_eq] at h
  split at h
  · simp [pthrow] at h
  · next ob c1 hc1 =>
    have hcons1 := consumeT_spec hc1
    subst hcons1
    split at h
    · simp [pthrow] at h
    · next cb c2 hc2 =>
      have hcons2 := consumeT_spec hc2
      subst hcons2
      cases h
      exact ⟨(List.suffix_cons cb _).trans (List.suffix_cons ob _), rfl, rfl, mkTree_ok0⟩

theorem runOk_unaryType {toks : List Token} (hwf : TokensWf toks) {f : Nat}
    (ih : ∀ s, RunOk toks (run toks f s)) :
    RunOk toks (run toks (f + 1) .unaryType) := by
  intro cur err t rest err2 hcur h
  rw [run_unaryType_eq] at h
  split at h
  · simp [pthrow] at h
  · next base c1 hca =>
    have hcons := consumeAny_spec hca
    subst hcons
    have hs1 : c1 <:+ toks := (List.suffix_cons base _).trans hcur
    have hin : segFit (startOf toks (base :: c1)) (startOf toks c1) [Item.tok base] ∨
        (c1 = [] ∧ ∃ pre tk, [Item.tok base] = pre ++ [Item.tok tk] ∧
          segFit (startOf toks (base :: c1)) tk.start pre ∧
          tk.start = startOf toks c1) := by
      rcases tokStep hwf hcur with hg | ⟨hnil, hstart⟩
      · exact Or.inl (segFit_single (Nat.le_refl _) hg)
      · exact Or.inr ⟨hnil, [], base, rfl, Nat.le_refl _, hstart.symm⟩
    split at h
    · cases h
    · next items rest2 e1 hloop =>
      obtain ⟨ho1, ho2, ho3⟩ := utLoopOk hwf (ih .genericType) (ih .arrayType)
        (failsEmpty_genericType toks f) (failsEmpty_arrayType toks f)
        (c1.length + 1) [Item.tok base] c1 err (startOf toks (base :: c1))
        (items, rest2, e1) hs1 hin rfl hloop
      dsimp only at ho1 ho2 ho3
      cases h
      exact ⟨ho1.trans (List.suffix_cons base _), rfl, rfl, fitOut_mkTree ho2 ho3⟩

theorem runOk_genericType {toks : List Token} (hwf : TokensWf toks) {f : Nat}
    (ih : ∀ s, RunOk toks (run toks f s)) :
    RunOk toks (run toks (f + 1) .genericType) := by
  intro cur err t rest err2 hcur h
  rw [run_genericType_eq] at h
  split at h
  · simp [pthrow] at h
  · next lt c1 hc1 =>
    have hcons1 := consumeT_spec hc1
    subst hcons1
    have hs1 : c1 <:+ toks := (List.suffix_cons lt _).trans hcur
    split at h
    · cases h
    · simp [pthrow] at h
    · next lhs c2 e1 heqL =>
      obtain ⟨hc2, hstL, hspL, hokL⟩ := ih .unionType c1 err lhs c2 e1 hs1 heqL
      have he0 : startOf toks (lt :: c1) = lt.start := rfl
      have hl0 : lt.start ≤ startOf toks c1 := startOf_cons_le hwf hcur
      split at h
      · cases h
      · next items c3 e2 hloop =>
        obtain ⟨ho1, ho2, ho3⟩ := tierLoopOk hwf (fun _ => ih .unionType) (Or.inl rfl)
          (c2.length + 1) [Item.sub lhs] c2 e1 (startOf toks (lt :: c1))
          (items, c3, e2)
          (hc2.trans hs1)
          (segFit_single (by rw [iStart]; omega) (by rw [iStop]; omega))
          (by simp [allOkI, hokL]) hloop
        dsimp only at ho1 ho2 ho3
        rcases ho2 with hsG | ⟨hpm, _⟩
        · split at h
          · simp [pthrow] at h
          · next gt c4 hc4 =>
            have hcons4 := consumeT_spec hc4
            subst hcons4
            have hs3 : (gt :: c4) <:+ toks := (ho1.trans hc2).trans hs1
            have he4 : startOf toks (gt :: c4) = gt.start := rfl
            have hl4 : gt.start ≤ startOf toks c4 := startOf_cons_le hwf hs3
            cases h
            refine ⟨(((List.suffix_cons gt _).trans ho1).trans hc2).trans
              (List.suffix_cons lt _), rfl, rfl, ?_⟩
            exact mkTree_allOk (segFit_weaken hsG (by omega)) ho3
        · exact PushMode.noConfusion hpm

theorem runOk_assignmentExpression {toks : List Token} (hwf : TokensWf toks) {f : Nat}
    (ih : ∀ s, RunOk toks (run toks f s)) :
    RunOk toks (run toks (f + 1) .assignmentExpression) := by
  intro cur err t rest err2 hcur h
  rw [run_assignmentExpression_eq] at h
  split at h
  · cases h
  · simp [pthrow] at h
  · next lhs c1 e1 heqL =>
    obtain ⟨hc1, hstL, hspL, hokL⟩ := ih .ternaryExpression cur err lhs c1 e1 hcur heqL
    split at h
    · cases h
      exact ⟨hc1, rfl, rfl, mkTree_ok1s (by omega) (by omega) hokL⟩
    · next op2 c2 hca =>
      have hcons := consumeAny_spec hca
      subst hcons
      have hs1 : (op2 :: c2) <:+ toks := hc1.trans hcur
      have hs2 : c2 <:+ toks := (List.suffix_cons op2 _).trans hs1
      split at h
      · cases h
      · cases h
        exact ⟨hc1, rfl, rfl, mkTree_ok1s (by omega) (by omega) hokL⟩
      · next r c3 e2 heqR =>
        obtain ⟨hc3, hstR, hspR, hokR⟩ := ih .ternaryExpression c2 e1 r c3 e2 hs2 heqR
        have he1 : startOf toks (op2 :: c2) = op2.start := rfl
        have hb1 : op2.stop ≤ startOf toks c2 := by
          rcases tokStep hwf hs1 with hg | ⟨hnil, _⟩
          · exact hg
          · subst hnil
            exact absurd heqR (failsEmpty_ternaryExpression toks f e1 r c3 e2)
        cases h
        refine ⟨(hc3.trans (List.suffix_cons op2 _)).trans hc1, rfl, rfl, ?_⟩
        refine mkTree_allOk (segFit_three ?_ ?_ ?_ ?_)
          (by simp [allOkI, hokL, hokR]) <;> simp only [iStart, iStop] <;> omega

theorem runOk_ternaryExpression {toks : List Token} (hwf : TokensWf toks) {f : Nat}
    (ih : ∀ s, RunOk toks (run toks f s)) :
    RunOk toks (run toks (f + 1) .ternaryExpression) := by
  intro cur err t rest err2 hcur h
  rw [run_ternaryExpression_eq] at h
  split at h
  · cases h
  · simp [pthrow] at h
  · next cond c1 e1 heqC =>
    obtain ⟨hc1, hstC, hspC, hokC⟩ := ih .coalesceExpression cur err cond c1 e1 hcur heqC
    split at h
    · cases h
      exact ⟨hc1, rfl, rfl, mkTree_ok1s (by omega) (by omega) hokC⟩
    · next q c2 hc2 =>
      have hcons2 := consumeT_spec hc2
      subst hcons2
      have hs1 : (q :: c2) <:+ toks := hc1.trans hcur
      have hs2 : c2 <:+ toks := (List.suffix_cons q _).trans hs1
      split at h
      · cases h
      · cases h
        exact ⟨hc1, rfl, rfl, mkTree_ok1s (by omega) (by omega) hokC⟩
      · next l c3 e2 heqL =>
        obtain ⟨hc3, hstL, hspL, hokL⟩ := ih .assignmentExpression c2 e1 l c3 e2 hs2 heqL
        split at h
        · cases h
          exact ⟨hc1, rfl, rfl, mkTree_ok1s (by omega) (by omega) hokC⟩
        · next cl2 c4 hc4 =>
          have hcons4 := consumeT_spec hc4
          subst hcons4
          have hs3 : (cl2 :: c4) <:+ toks := hc3.trans hs2
          have hs4 : c4 <:+ toks := (List.suffix_cons cl2 _).trans hs3
          split at h
          · cases h
          · cases h
            exact ⟨hc1, rfl, rfl, mkTree_ok1s (by omega) (by omega) hokC⟩
          · next r c5 e3 heqR =>
            obtain ⟨hc5, hstR, hspR, hokR⟩ :=
              ih .assignmentExpression c4 e2 r c5 e3 hs4 heqR
            have he1 : startOf toks (q :: c2) = q.start := rfl
            have hl1 : q.start ≤ startOf toks c2 := startOf_cons_le hwf hs1
            have he3 : startOf toks (cl2 :: c4) = cl2.start := rfl
            have hl3 : cl2.start ≤ startOf toks c4 := startOf_cons_le hwf hs3
            cases h
            refine ⟨(((hc5.trans (List.suffix_cons cl2 _)).trans hc3).trans
              (List.suffix_cons q _)).trans hc1, rfl, rfl, ?_⟩
            refine mkTree_allOk (segFit_three ?_ ?_ ?_ ?_)
              (by simp [allOkI, hokC, hokL, hokR]) <;>
              simp only [iStart, iStop] <;> omega

theorem runOk_rangeExpression {toks : List Token} (hwf : TokensWf toks) {f : Nat}
    (ih : ∀ s, RunOk toks (run toks f s)) :
    RunOk toks (run toks (f + 1) .rangeExpression) := by
  intro cur err t rest err2 hcur h
  rw [run_rangeExpression_eq] at h
  split at h
  · cases h
  · next lhsRes e1 heq0 =>
    split at h
    · next l c1 =>
      obtain ⟨hc1, hstL, hspL, hokL⟩ := ih .unaryExpression cur err l c1 e1 hcur heq0
      split at h
      · cases h
        exact ⟨hc1, rfl, rfl, mkTree_ok1s (by omega) (by omega) hokL⟩
      · next op2 c2 hca =>
        have hcons := consumeAny_spec hca
        subst hcons
        have hs1 : (op2 :: c2) <:+ toks := hc1.trans hcur
        have hs2 : c2 <:+ toks := (List.suffix_cons op2 _).trans hs1
        split at h
        · cases h
        · next e2 heqR =>
          have hdis : op2.stop ≤ startOf toks c2 ∨ op2.start = startOf toks c2 := by
            rcases tokStep hwf hs1 with hg | ⟨_, hstart⟩
            · exact Or.inl hg
            · exact Or.inr hstart.symm
          have hlist : ([Item.sub l, Item.tok op2] : List Item) =
              [Item.sub l] ++ [Item.tok op2] := rfl
          have he1 : startOf toks (op2 :: c2) = op2.start := rfl
          cases h
          refine ⟨(List.suffix_cons op2 _).trans hc1, rfl, rfl, ?_⟩
          rw [hlist]
          refine mkTree_ok_last_tok (segFit_single ?_ ?_) hdis (by simp [allOkI, hokL])
          · rw [iStart]
            omega
          · rw [iStop]
            omega
        · next r c3 e2 heqR =>
          obtain ⟨hc3, hstR, hspR, hokR⟩ := ih .unaryExpression c2 e1 r c3 e2 hs2 heqR
          have he1 : startOf toks (op2 :: c2) = op2.start := rfl
          have hb1 : op2.stop ≤ startOf toks c2 := by
            rcases tokStep hwf hs1 with hg | ⟨hnil, _⟩
            · exact hg
            · subst hnil
              exact absurd heqR (failsEmpty_unaryExpression toks f e1 r c3 e2)
          cases h
          refine ⟨(hc3.trans (List.suffix_cons op2 _)).trans hc1, rfl, rfl, ?_⟩
          refine mkTree_allOk (segFit_three ?_ ?_ ?_ ?_)
            (by simp [allOkI, hokL, hokR]) <;> simp only [iStart, iStop] <;> omega
    · split at h
      · simp [pthrow] at h
      · next op2 c2 hca =>
        have hcons := consumeAny_spec hca
        subst hcons
        have hs2 : c2 <:+ toks := (List.suffix_cons op2 _).trans hcur
        split at h
        · cases h
        · simp [pthrow] at h
        · next r c3 e2 heqR =>
          obtain ⟨hc3, hstR, hspR, hokR⟩ := ih .unaryExpression c2 e1 r c3 e2 hs2 heqR
          have he1 : startOf toks (op2 :: c2) = op2.start := rfl
          have hb1 : op2.stop ≤ startOf toks c2 := by
            rcases tokStep hwf hcur with hg | ⟨hnil, _⟩
            · exact hg
            · subst hnil
              exact absurd heqR (failsEmpty_unaryExpression toks f e1 r c3 e2)
          cases h
          refine ⟨hc3.trans (List.suffix_cons op2 _), rfl, rfl, ?_⟩
          refine mkTree_allOk (segFit_two ?_ ?_ ?_)
            (by simp [allOkI, hokR]) <;> simp only [iStart, iStop] <;> omega

theorem runOk_unaryExpression {toks : List Token} (hwf : TokensWf toks) {f : Nat}
    (ih : ∀ s, RunOk toks (run toks f s)) :
    RunOk toks (run toks (f + 1) .unaryExpression) := by
  intro cur err t rest err2 hcur h
  rw [run_unaryExpression_eq] at h
  split at h
  next ops2 c1 hu =>
  obtain ⟨hp1, hp2, hp3⟩ := @uopsLoop_spec toks hwf
    [.NotKeyword, .NotOperator, .PlusOperator, .MinusOperator,
      .TimesOperator, .AndOperator] cur hcur
  rw [hu] at hp1 hp2 hp3
  dsimp only at hp1 hp2 hp3
  split at h
  · cases h
  · simp [pthrow] at h
  · next r c2 e1 heqR =>
    obtain ⟨hc2, hstR, hspR, hokR⟩ := ih .referenceExpression c1 err r c2 e1
      (hp1.trans hcur) heqR
    have hc1ne : c1 ≠ [] := by
      intro hnil
      subst hnil
      exact absurd heqR (failsEmpty_referenceExpression toks f err r c2 e1)
    have hsegU := hp3 hc1ne
    have hseg2 : segFit (startOf toks cur) (startOf toks c2) (ops2 ++ [Item.sub r]) := by
      have := segFit_append hsegU (x := Item.sub r) (by rw [iStart]; omega)
      rw [iStop, hspR] at this
      exact this
    have hI2 : allOkI (ops2 ++ [Item.sub r]) = true := by
      rw [allOkI_append, hp2]
      simp [allOkI, hokR]
    cases h
    exact ⟨hc2.trans hp1, rfl, rfl, mkTree_allOk hseg2 hI2⟩

theorem runOk_referenceExpression {toks : List Token} (hwf : TokensWf toks) {f : Nat}
    (ih : ∀ s, RunOk toks (run toks f s)) :
    RunOk toks (run toks (f + 1) .referenceExpression) := by
  intro cur err t rest err2 hcur h
  rw [run_referenceExpression_eq] at h
  split at h
  · cases h
  · simp [pthrow] at h
  · next lhs c1 e1 heqL =>
    obtain ⟨hc1, hstL, hspL, hokL⟩ := ih .literalValue cur err lhs c1 e1 hcur heqL
    split at h
    · cases h
    · next items rest2 e2 hloop =>
      obtain ⟨ho1, ho2, ho3⟩ := refLoopOk hwf (ih .propertyAccess)
        (ih .optionalPropertyAccess) (ih .arrayIndex) (ih .methodCall)
        (c1.length + 1) [Item.sub lhs] c1 e1 (startOf toks cur) (items, rest2, e2)
        (hc1.trans hcur)
        (segFit_single (by rw [iStart]; omega) (by rw [iStop]; omega))
        (by simp [allOkI, hokL]) hloop
      dsimp only at ho1 ho2 ho3
      cases h
      exact ⟨ho1.trans hc1, rfl, rfl, mkTree_allOk ho2 ho3⟩

end Rue
namespace Rue

theorem runOk_literalValue {toks : List Token} (hwf : TokensWf toks) {f : Nat}
    (ih : ∀ s, RunOk toks (run toks f s)) :
    RunOk toks (run toks (f + 1) .literalValue) := by
  intro cur err t rest err2 hcur h
  rw [run_literalValue_eq] at h
  split at h
  · cases h
  · next t1 c1 e1 heq1 =>
    obtain ⟨hc1, hst1, hsp1, hok1⟩ := ih .arrayInitializer cur err t1 c1 e1 hcur heq1
    cases h
    exact ⟨hc1, rfl, rfl, mkTree_ok1s (by omega) (by omega) hok1⟩
  · next e1 heq1 =>
    split at h
    · next v c1 hca =>
      have hcons := consumeAny_spec hca
      subst hcons
      have hdis : v.stop ≤ startOf toks c1 ∨ v.start = startOf toks c1 := by
        rcases tokStep hwf hcur with hg | ⟨_, hstart⟩
        · exact Or.inl hg
        · exact Or.inr hstart.symm
      cases h
      exact ⟨List.suffix_cons v _, rfl, rfl, mkTree_ok_tok1 (Nat.le_refl _) hdis⟩
    · split at h
      · cases h
      · next t1 c1 e2 heq2 =>
        obtain ⟨hc1, hst1, hsp1, hok1⟩ := ih .cast cur e1 t1 c1 e2 hcur heq2
        cases h
        exact ⟨hc1, rfl, rfl, mkTree_ok1s (by omega) (by omega) hok1⟩
      · next e2 heq2 =>
        split at h
        · simp [pthrow] at h
        · next op c1 hc1 =>
          have hcons1 := consumeT_spec hc1
          subst hcons1
          have hs1 : c1 <:+ toks := (List.suffix_cons op _).trans hcur
          split at h
          · cases h
          · simp [pthrow] at h
          · next sq c2 e3 heqS =>
            obtain ⟨hc2, hstS, hspS, hokS⟩ :=
              ih .expressionSequence c1 e2 sq c2 e3 hs1 heqS
            split at h
            · simp [pthrow] at h
            · next cp2 c3 hc3 =>
              have hcons3 := consumeT_spec hc3
              subst hcons3
              have hs2 : (cp2 :: c3) <:+ toks := hc2.trans hs1
              have he0 : startOf toks (op :: c1) = op.start := rfl
              have hl0 : op.start ≤ startOf toks c1 := startOf_cons_le hwf hcur
              have he2 : startOf toks (cp2 :: c3) = cp2.start := rfl
              have hl2 : cp2.start ≤ startOf toks c3 := startOf_cons_le hwf hs2
              cases h
              refine ⟨((List.suffix_cons cp2 _).trans hc2).trans
                (List.suffix_cons op _), rfl, rfl, ?_⟩
              exact mkTree_ok1s (by omega) (by omega) hokS

theorem runOk_cast {toks : List Token} (hwf : TokensWf toks) {f : Nat}
    (ih : ∀ s, RunOk toks (run toks f s)) :
    RunOk toks (run toks (f + 1) .cast) := by
  intro cur err t rest err2 hcur h
  rw [run_cast_eq] at h
  split at h
  · simp [pthrow] at h
  · next op c1 hc1 =>
    have hcons1 := consumeT_spec hc1
    subst hcons1
    have hs1 : c1 <:+ toks := (List.suffix_cons op _).trans hcur
    split at h
    · cases h
    · simp [pthrow] at h
    · next ty c2 e1 heqT =>
      obtain ⟨hc2, hstT, hspT, hokT⟩ := ih .unaryType c1 err ty c2 e1 hs1 heqT
      split at h
      · simp [pthrow] at h
      · next cp2 c3 hc3 =>
        have hcons3 := consumeT_spec hc3
        subst hcons3
        have hs2 : (cp2 :: c3) <:+ toks := hc2.trans hs1
        have hs3 : c3 <:+ toks := (List.suffix_cons cp2 _).trans hs2
        split at h
        · cases h
        · simp [pthrow] at h
        · next v c4 e2 heqV =>
          obtain ⟨hc4, hstV, hspV, hokV⟩ := ih .literalValue c3 e1 v c4 e2 hs3 heqV
          have he0 : startOf toks (op :: c1) = op.start := rfl
          have hl0 : op.start ≤ startOf toks c1 := startOf_cons_le hwf hcur
          have he2 : startOf toks (cp2 :: c3) = cp2.start := rfl
          have hl2 : cp2.start ≤ startOf toks c3 := startOf_cons_le hwf hs2
          cases h
          refine ⟨((hc4.trans (List.suffix_cons cp2 _)).trans hc2).trans
            (List.suffix_cons op _), rfl, rfl, ?_⟩
          refine mkTree_allOk (segFit_two ?_ ?_ ?_)
            (by simp [allOkI, hokT, hokV]) <;> simp only [iStart, iStop] <;> omega

theorem runOk_propertyAccess {toks : List Token} (hwf : TokensWf toks) {f : Nat}
    (ih : ∀ s, RunOk toks (run toks f s)) :
    RunOk toks (run toks (f + 1) .propertyAccess) := by
  intro cur err t rest err2 hcur h
  rw [run_propertyAccess_eq] at h
  split at h
  · simp [pthrow] at h
  · next ac c1 hc1 =>
    have hcons1 := consumeT_spec hc1
    subst hcons1
    split at h
    · simp [pthrow] at h
    · next idt c2 hc2 =>
      have hcons2 := consumeT_spec hc2
      subst hcons2
      have hs1 : (idt :: c2) <:+ toks := (List.suffix_cons ac _).trans hcur
      have he0 : startOf toks (ac :: idt :: c2) = ac.start := rfl
      have hl0 : ac.start ≤ startOf toks (idt :: c2) := startOf_cons_le hwf hcur
      have he1 : startOf toks (idt :: c2) = idt.start := rfl
      have hdis : idt.stop ≤ startOf toks c2 ∨ idt.start = startOf toks c2 := by
        rcases tokStep hwf hs1 with hg | ⟨_, hstart⟩
        · exact Or.inl hg
        · exact Or.inr hstart.symm
      cases h
      refine ⟨(List.suffix_cons idt _).trans (List.suffix_cons ac _), rfl, rfl, ?_⟩
      exact mkTree_ok_tok1 (by omega) hdis

theorem runOk_optionalPropertyAccess {toks : List Token} (hwf : TokensWf toks) {f : Nat}
    (ih : ∀ s, RunOk toks (run toks f s)) :
    RunOk toks (run toks (f + 1) .optionalPropertyAccess) := by
  intro cur err t rest err2 hcur h
  rw [run_optionalPropertyAccess_eq] at h
  split at h
  · simp [pthrow] at h
  · next oa c1 hc1 =>
    have hcons1 := consumeT_spec hc1
    subst hcons1
    have hs1 : c1 <:+ toks := (List.suffix_cons oa _).trans hcur
    have he0rfl : startOf toks (oa :: c1) = oa.start := rfl
    have hl0 : oa.start ≤ startOf toks c1 := startOf_cons_le hwf hcur
    split at h
    · next idt c2 hc2 =>
      have hcons2 := consumeT_spec hc2
      subst hcons2
      have hs2 : (idt :: c2) <:+ toks := hs1
      have he1 : startOf toks (idt :: c2) = idt.start := rfl
      have hdis : idt.stop ≤ startOf toks c2 ∨ idt.start = startOf toks c2 := by
        rcases tokStep hwf hs2 with hg | ⟨_, hstart⟩
        · exact Or.inl hg
        · exact Or.inr hstart.symm
      cases h
      refine ⟨(List.suffix_cons idt _).trans (List.suffix_cons oa _), rfl, rfl, ?_⟩
      exact mkTree_ok_tok1 (by omega) hdis
    · split at h
      · cases h
      · next t1 c2 e1 heq1 =>
        obtain ⟨hc2, hst1, hsp1, hok1⟩ := ih .arrayIndex c1 err t1 c2 e1 hs1 heq1
        cases h
        refine ⟨hc2.trans (List.suffix_cons oa _), rfl, rfl, ?_⟩
        exact mkTree_ok1s (by omega) (by omega) hok1
      · next e1 heq1 =>
        split at h
        · cases h
        · next t1 c2 e2 heq2 =>
          obtain ⟨hc2, hst1, hsp1, hok1⟩ := ih .methodCall c1 e1 t1 c2 e2 hs1 heq2
          cases h
          refine ⟨hc2.trans (List.suffix_cons oa _), rfl, rfl, ?_⟩
          exact mkTree_ok1s (by omega) (by omega) hok1
        · simp [pthrow] at h

theorem runOk_arrayIndex {toks : List Token} (hwf : TokensWf toks) {f : Nat}
    (ih : ∀ s, RunOk toks (run toks f s)) :
    RunOk toks (run toks (f + 1) .arrayIndex) := by
  intro cur err t rest err2 hcur h
  rw [run_arrayIndex_eq] at h
  split at h
  · simp [pthrow] at h
  · next ob c1 hc1 =>
    have hcons1 := consumeT_spec hc1
    subst hcons1
    have hs1 : c1 <:+ toks := (List.suffix_cons ob _).trans hcur
    split at h
    · cases h
    · simp [pthrow] at h
    · next sq c2 e1 heqS =>
      obtain ⟨hc2, hstS, hspS, hokS⟩ := ih .expressionSequence c1 err sq c2 e1 hs1 heqS
      split at h
      · simp [pthrow] at h
      · next cb c3 hc3 =>
        have hcons3 := consumeT_spec hc3
        subst hcons3
        have hs2 : (cb :: c3) <:+ toks := hc2.trans hs1
        have he0 : startOf toks (ob :: c1) = ob.start := rfl
        have hl0 : ob.start ≤ startOf toks c1 := startOf_cons_le hwf hcur
        have he2 : startOf toks (cb :: c3) = cb.start := rfl
        have hl2 : cb.start ≤ startOf toks c3 := startOf_cons_le hwf hs2
        cases h
        refine ⟨((List.suffix_cons cb _).trans hc2).trans (List.suffix_cons ob _),
          rfl, rfl, ?_⟩
        exact mkTree_ok1s (by omega) (by omega) hokS

theorem runOk_methodCall {toks : List Token} (hwf : TokensWf toks) {f : Nat}
    (ih : ∀ s, RunOk toks (run toks f s)) :
    RunOk toks (run toks (f + 1) .methodCall) := by
  intro cur err t rest err2 hcur h
  rw [run_methodCall_eq] at h
  split at h
  · simp [pthrow] at h
  · next op c1 hc1 =>
    have hcons1 := consumeT_spec hc1
    subst hcons1
    have hs1 : c1 <:+ toks := (List.suffix_cons op _).trans hcur
    split at h
    · cases h
    · simp at h
    · next items c2 e1 hloop =>
      obtain ⟨ho1, ho2, ho3⟩ := commaLoopOk hwf (ih .methodCallArgument)
        (c1.length + 1) [] c1 err (startOf toks (op :: c1)) items c2 e1 hs1
        (startOf_cons_le hwf hcur) rfl hloop
      split at h
      · simp [pthrow] at h
      · next cp c3 hc3 =>
        have hcons3 := consumeT_spec hc3
        subst hcons3
        have hs2 : (cp :: c3) <:+ toks := ho1.trans hs1
        have hw : startOf toks (cp :: c3) ≤ startOf toks c3 := startOf_cons_le hwf hs2
        cases h
        refine ⟨((List.suffix_cons cp _).trans ho1).trans (List.suffix_cons op _),
          rfl, rfl, ?_⟩
        exact mkTree_allOk (segFit_weaken ho2 hw) ho3

theorem runOk_arrayInitializer {toks : List Token} (hwf : TokensWf toks) {f : Nat}
    (ih : ∀ s, RunOk toks (run toks f s)) :
    RunOk toks (run toks (f + 1) .arrayInitializer) := by
  intro cur err t rest err2 hcur h
  rw [run_arrayInitializer_eq] at h
  split at h
  · simp [pthrow] at h
  · next ob c1 hc1 =>
    have hcons1 := consumeT_spec hc1
    subst hcons1
    have hs1 : c1 <:+ toks := (List.suffix_cons ob _).trans hcur
    split at h
    · cases h
    · simp at h
    · next items c2 e1 hloop =>
      obtain ⟨ho1, ho2, ho3⟩ := commaLoopOk hwf (ih .arrayValue)
        (c1.length + 1) [] c1 err (startOf toks (ob :: c1)) items c2 e1 hs1
        (startOf_cons_le hwf hcur) rfl hloop
      split at h
      · simp [pthrow] at h
      · next cb c3 hc3 =>
        have hcons3 := consumeT_spec hc3
        subst hcons3
        have hs2 : (cb :: c3) <:+ toks := ho1.trans hs1
        have hw : startOf toks (cb :: c3) ≤ startOf toks c3 := startOf_cons_le hwf hs2
        cases h
        refine ⟨((List.suffix_cons cb _).trans ho1).trans (List.suffix_cons ob _),
          rfl, rfl, ?_⟩
        exact mkTree_allOk (segFit_weaken ho2 hw) ho3

theorem runOk_arrayValue {toks : List Token} (hwf : TokensWf toks) {f : Nat}
    (ih : ∀ s, RunOk toks (run toks f s)) :
    RunOk toks (run toks (f + 1) .arrayValue) := by
  intro cur err t rest err2 hcur h
  rw [run_arrayValue_eq] at h
  split at h
  · cases h
  · simp [pthrow] at h
  · next a c1 e1 heqA =>
    obtain ⟨hc1, hstA, hspA, hokA⟩ := ih .assignmentExpression cur err a c1 e1 hcur heqA
    cases h
    exact ⟨hc1, rfl, rfl, mkTree_ok1s (by omega) (by omega) hokA⟩

theorem runOk_methodCallArgument {toks : List Token} (hwf : TokensWf toks) {f : Nat}
    (ih : ∀ s, RunOk toks (run toks f s)) :
    RunOk toks (run toks (f + 1) .methodCallArgument) := by
  intro cur err t rest err2 hcur h
  rw [run_methodCallArgument_eq] at h
  split at h
  · cases h
  · simp [pthrow] at h
  · next a c1 e1 heqA =>
    obtain ⟨hc1, hstA, hspA, hokA⟩ := ih .assignmentExpression cur err a c1 e1 hcur heqA
    cases h
    exact ⟨hc1, rfl, rfl, mkTree_ok1s (by omega) (by omega) hokA⟩

end Rue
namespace Rue

theorem runOk_fieldStatement {toks : List Token} (hwf : TokensWf toks) {f : Nat}
    (ih : ∀ s, RunOk toks (run toks f s)) :
    RunOk toks (run toks (f + 1) .fieldStatement) := by
  intro cur err t rest err2 hcur h
  rw [run_fieldStatement_eq] at h
  split at h
  · simp [pthrow] at h
  · next kw c1 hca =>
    have hcons1 := consumeAny_spec hca
    subst hcons1
    split at h
    · simp [pthrow] at h
    · next idt c2 hc2 =>
      have hcons2 := consumeT_spec hc2
      subst hcons2
      have hs1 : (idt :: c2) <:+ toks := (List.suffix_cons kw _).trans hcur
      have he0 : startOf toks (kw :: idt :: c2) = kw.start := rfl
      have hl0 : kw.start ≤ startOf toks (idt :: c2) := startOf_cons_le hwf hcur
      have he1 : startOf toks (idt :: c2) = idt.start := rfl
      have hbkw : kw.stop ≤ startOf toks (idt :: c2) :=
        tok_le_startOf hwf hcur (by simp)
      split at h
      · next cl c3 hc3 =>
        have hcons3 := consumeT_spec hc3
        subst hcons3
        have hs2 : (cl :: c3) <:+ toks := (List.suffix_cons idt _).trans hs1
        have hs3 : c3 <:+ toks := (List.suffix_cons cl _).trans hs2
        have hb1 : idt.stop ≤ startOf toks (cl :: c3) :=
          tok_le_startOf hwf hs1 (by simp)
        have he3 : startOf toks (cl :: c3) = cl.start := rfl
        have hl3 : cl.start ≤ startOf toks c3 := startOf_cons_le hwf hs2
        split at h
        · cases h
        · simp [pthrow] at h
        · next ty c4 e1 heqT =>
          obtain ⟨hc4, hstT, hspT, hokT⟩ := ih .unionType c3 err ty c4 e1 hs3 heqT
          split at h
          · next asg c5 hc5 =>
            have hcons5 := consumeT_spec hc5
            subst hcons5
            have hs4 : (asg :: c5) <:+ toks := hc4.trans hs3
            have hs5 : c5 <:+ toks := (List.suffix_cons asg _).trans hs4
            have he5 : startOf toks (asg :: c5) = asg.start := rfl
            have hl5 : asg.start ≤ startOf toks c5 := startOf_cons_le hwf hs4
            split at h
            · cases h
            · simp [pthrow] at h
            · next ex c6 e2 heqE =>
              obtain ⟨hc6, hstE, hspE, hokE⟩ :=
                ih .assignmentExpression c5 e1 ex c6 e2 hs5 heqE
              split at h
              · simp [pthrow] at h
              · next sc c7 hc7 =>
                have hcons7 := consumeT_spec hc7
                subst hcons7
                have hs6 : (sc :: c7) <:+ toks := hc6.trans hs5
                have he7 : startOf toks (sc :: c7) = sc.start := rfl
                have hl7 : sc.start ≤ startOf toks c7 := startOf_cons_le hwf hs6
                cases h
                refine ⟨((((List.suffix_cons sc _).trans hc6).trans
                  (List.suffix_cons asg _)).trans ((hc4.trans
                  (List.suffix_cons cl _)).trans (List.suffix_cons idt _))).trans
                  (List.suffix_cons kw _), rfl, rfl, ?_⟩
                refine mkTree_allOk (segFit_four ?_ ?_ ?_ ?_ ?_)
                  (by simp [allOkI, hokT, hokE]) <;>
                  simp only [iStart, iStop] <;> omega
          · split at h
            · simp [pthrow] at h
            · next sc c7 hc7 =>
              have hcons7 := consumeT_spec hc7
              subst hcons7
              have hs6 : (sc :: c7) <:+ toks := hc4.trans hs3
              have he7 : startOf toks (sc :: c7) = sc.start := rfl
              have hl7 : sc.start ≤ startOf toks c7 := startOf_cons_le hwf hs6
              cases h
              refine ⟨(((List.suffix_cons sc _).trans hc4).trans
                ((List.suffix_cons cl _).trans (List.suffix_cons idt _))).trans
                (List.suffix_cons kw _), rfl, rfl, ?_⟩
              refine mkTree_allOk (segFit_three ?_ ?_ ?_ ?_)
                (by simp [allOkI, hokT]) <;>
                simp only [iStart, iStop] <;> omega
      · split at h
        · next asg c5 hc5 =>
          have hcons5 := consumeT_spec hc5
          subst hcons5
          have hs2 : (asg :: c5) <:+ toks := (List.suffix_cons idt _).trans hs1
          have hs5 : c5 <:+ toks := (List.suffix_cons asg _).trans hs2
          have hb1 : idt.stop ≤ startOf toks (asg :: c5) :=
            tok_le_startOf hwf hs1 (by simp)
          have he5 : startOf toks (asg :: c5) = asg.start := rfl
          have hl5 : asg.start ≤ startOf toks c5 := startOf_cons_le hwf hs2
          split at h
          · cases h
          · simp [pthrow] at h
          · next ex c6 e2 heqE =>
            obtain ⟨hc6, hstE, hspE, hokE⟩ :=
              ih .assignmentExpression c5 err ex c6 e2 hs5 heqE
            split at h
            · simp [pthrow] at h
            · next sc c7 hc7 =>
              have hcons7 := consumeT_spec hc7
              subst hcons7
              have hs6 : (sc :: c7) <:+ toks := hc6.trans hs5
              have he7 : startOf toks (sc :: c7) = sc.start := rfl
              have hl7 : sc.start ≤ startOf toks c7 := startOf_cons_le hwf hs6
              cases h
              refine ⟨((((List.suffix_cons sc _).trans hc6).trans
                (List.suffix_cons asg _)).trans (List.suffix_cons idt _)).trans
                (List.suffix_cons kw _), rfl, rfl, ?_⟩
              refine mkTree_allOk (segFit_three ?_ ?_ ?_ ?_)
                (by simp [allOkI, hokE]) <;>
                simp only [iStart, iStop] <;> omega
        · split at h
          · simp [pthrow] at h
          · next sc c7 hc7 =>
            have hcons7 := consumeT_spec hc7
            subst hcons7
            have hs2 : (sc :: c7) <:+ toks := (List.suffix_cons idt _).trans hs1
            have hb1 : idt.stop ≤ startOf toks (sc :: c7) :=
              tok_le_startOf hwf hs1 (by simp)
            have he7 : startOf toks (sc :: c7) = sc.start := rfl
            have hl7 : sc.start ≤ startOf toks c7 := startOf_cons_le hwf hs2
            have hlist : ([Item.tok kw, Item.tok idt] : List Item) =
                [Item.tok kw] ++ [Item.tok idt] := rfl
            cases h
            refine ⟨((List.suffix_cons sc _).trans (List.suffix_cons idt _)).trans
              (List.suffix_cons kw _), rfl, rfl, ?_⟩
            rw [hlist]
            refine mkTree_ok_last_tok (segFit_single ?_ ?_) (Or.inl (by omega)) rfl
            · rw [iStart]
              omega
            · rw [iStop]
              omega

/-- Grand invariant: from any well-formed token list, every production
that succeeds returns a tree satisfying the (weakened) span invariant,
spanning the consumed segment. -/
theorem runOk {toks : List Token} (hwf : TokensWf toks) :
    ∀ fuel sym, RunOk toks (run toks fuel sym) := by
  intro fuel
  induction fuel with
  | zero =>
    intro sym cur err t rest err2 _ h
    simp [run] at h
  | succ f ih =>
    intro sym
    cases sym with
    | body => exact runOk_body hwf ih
    | statement => exact runOk_statement hwf ih
    | labeledStatement => exact runOk_labeledStatement hwf ih
    | blockStatement => exact runOk_blockStatement hwf ih
    | ifStatement => exact runOk_ifStatement hwf ih
    | whileStatement => exact runOk_whileStatement hwf ih
    | matchStatement => exact runOk_matchStatement hwf ih
    | matchOption => exact runOk_matchOption hwf ih
    | defStatement => exact runOk_defStatement hwf ih
    | parameters => exact runOk_parameters hwf ih
    | parameter => exact runOk_parameter hwf ih
    | doStatement => exact runOk_doStatement hwf ih
    | forStatement => exact runOk_forStatement hwf ih
    | returnStatement => exact runOk_returnStatement hwf ih
    | continueStatement => exact runOk_continueStatement hwf ih
    | breakStatement => exact runOk_breakStatement hwf ih
    | emptyStatement => exact runOk_emptyStatement hwf ih
    | expressionStatement => exact runOk_expressionStatement hwf ih
    | fieldStatement => exact runOk_fieldStatement hwf ih
    | unionType => exact runOk_unionType hwf ih
    | intersectionType => exact runOk_intersectionType hwf ih
    | unaryType => exact runOk_unaryType hwf ih
    | arrayType => exact runOk_arrayType hwf ih
    | genericType => exact runOk_genericType hwf ih
    | expressionSequence => exact runOk_expressionSequence hwf ih
    | assignmentExpression => exact runOk_assignmentExpression hwf ih
    | ternaryExpression => exact runOk_ternaryExpression hwf ih
    | coalesceExpression => exact runOk_coalesceExpression hwf ih
    | logicalOrExpression => exact runOk_logicalOrExpression hwf ih
    | logicalAndExpression => exact runOk_logicalAndExpression hwf ih
    | bitwiseOrExpression => exact runOk_bitwiseOrExpression hwf ih
    | bitwiseXorExpression => exact runOk_bitwiseXorExpression hwf ih
    | bitwiseAndExpression => exact runOk_bitwiseAndExpression hwf ih
    | equalityExpression => exact runOk_equalityExpression hwf ih
    | comparisonExpression => exact runOk_comparisonExpression hwf ih
    | shiftExpression => exact runOk_shiftExpression hwf ih
    | termExpression => exact runOk_termExpression hwf ih
    | factorExpression => exact runOk_factorExpression hwf ih
    | rangeExpression => exact runOk_rangeExpression hwf ih
    | unaryExpression => exact runOk_unaryExpression hwf ih
    | referenceExpression => exact runOk_referenceExpression hwf ih
    | literalValue => exact runOk_literalValue hwf ih
    | cast => exact runOk_cast hwf ih
    | propertyAccess => exact runOk_propertyAccess hwf ih
    | optionalPropertyAccess => exact runOk_optionalPropertyAccess hwf ih
    | arrayIndex => exact runOk_arrayIndex hwf ih
    | methodCall => exact runOk_methodCall hwf ih
    | arrayInitializer => exact runOk_arrayInitializer hwf ih
    | arrayValue => exact runOk_arrayValue hwf ih
    | methodCallArgument => exact runOk_methodCallArgument hwf ih

end Rue
namespace Rue

/-- C1 (counterexample to the claim as stated): on the lexed source
`1 + ;` the production `parseTermExpression` succeeds and returns a
TermExpression whose last child is the rolled-back `+` operator token
(span 2..3), which begins exactly at the node's stop (2) and ends beyond
it, so the claimed clause that the last child's stop is at most the
node's stop is false on this tree, while the weakened invariant `allOkT`
holds. -/
theorem c1_counterexample :
    lex srcTermC1 = some (.ok toksTermC1) ∧
    termSpanProbe toksTermC1 = some (false, true) := ⟨rfl, rfl⟩

/-- C1 (corrected): for every well-formed token list, every successful
production parse from any suffix cursor returns a tree all of whose nodes
satisfy the corrected span invariant `allOkT`: the node's start is at most
its first child's start, children appear in source order (each child stops
at or before the next begins), a last subtree child stops at or before the
node's stop, and a last token child either stops at or before the node's
stop or begins exactly at the node's stop. -/
theorem c1_span_invariant (toks : List Token) (hwf : TokensWf toks) (fuel : Nat)
    (sym : Sym) (cur : List Token) (err : Slot) (t : Tree) (rest : List Token)
    (err2 : Slot) (hcur : cur <:+ toks)
    (h : run toks fuel sym cur err = some (some (t, rest), err2)) :
    allOkT t = true :=
  (runOk hwf fuel sym cur err t rest err2 hcur h).2.2.2

/-- C1 witness: the corrected invariant theorem applied to the concrete
parse of an empty body from the empty token list. -/
theorem c1_witness :
    TokensWf ([] : List Token) ∧ allOkT (Tree.mk .Body 0 0 []) = true :=
  ⟨by decide, c1_span_invariant [] (by decide) 25 .body [] none
    (Tree.mk .Body 0 0 []) [] (some ⟨"Expected statement", none, 0, 0⟩)
    (List.suffix_refl _) (by rfl)⟩

end Rue
